import Mathlib

/-!
# OLSRv2 routing core (`olsrv2_routing.c`)

A shallow embedding of the Dijkstra engine, the per-domain routing entry
tables, the kernel reconciliation queue and the rate limiter of
`src-plugins/olsrv2/olsrv2/olsrv2_routing.c`, followed by theorems about them.

Conventions of the embedding:

* pointers to read-only collaborator data (NHDP neighbors) are passed by value;
* pointers to topology targets are arena indices (`Nat`);
* a pointer to a routing entry is the pair (domain index, destination), the
  key under which the entry is stored in `_routing_tree[domain]`;
* `uint32_t` arithmetic is `Nat` arithmetic followed by `% 2^32`;
* the module-global variables are the fields of `RoutingCore`;
* collaborators that are read but not written during one operation
  (topology graph, neighbor database, originator set, constants) are the
  fields of `Env`.
-/

namespace Olsrv2

/-! ## Addresses and kernel routes -/

/-- Address family "unspecified" of the socket API. -/
def AF_UNSPEC : Nat := 0

/-- Address family IPv4 of the socket API. -/
def AF_INET : Nat := 2

/-- Address family IPv6 of the socket API. -/
def AF_INET6 : Nat := 10

/-- Error number "no such process", reported by the kernel when a route to
be removed does not exist. -/
def ESRCH : Int := 3

/-- Modelled from the spec: the `struct netaddr` (declared in
`common/netaddr.h`, outside the translated file), the spec's Prefix: address
bytes (as one number), address family and length of the network part. -/
structure Netaddr where
  addr : Nat
  family : Nat
  plen : Nat
deriving DecidableEq

/-- Modelled from the spec: the result of `netaddr_invalidate`, the
"unspecified" address: all bytes zero, family `AF_UNSPEC`. -/
def netaddr_invalidate : Netaddr := ⟨0, AF_UNSPEC, 0⟩

/-- Modelled from the spec: the function `netaddr_get_address_family`. -/
def netaddr_get_address_family (a : Netaddr) : Nat := a.family

/-- Modelled from the spec: `avl_comp_netaddr`, the order of the routing
tables; the spec orders prefixes lexicographically on (family, bytes,
length). Returns true when `a` sorts strictly before `b`. -/
def netaddr_lt (a b : Netaddr) : Bool :=
  a.family < b.family ||
  (a.family == b.family && (a.addr < b.addr || (a.addr == b.addr && a.plen < b.plen)))

/-- The completion callbacks a kernel route can carry in `cb_finished`. -/
inductive Callback where
  | NULL
  | _cb_route_new_finished
  | _cb_route_current_finished
deriving DecidableEq

/-- Modelled from the spec: the `struct os_route` (declared outside the
translated file) with the members the routing core reads or writes: the spec's
kernel route of interface index, gateway, source-ip, table, protocol and
metric, with destination, family and completion callback. -/
structure OsRoute where
  family : Nat
  src_ip : Netaddr
  gw : Netaddr
  dst : Netaddr
  metric : Int
  table : Int
  protocol : Int
  if_index : Nat
  cb_finished : Callback
deriving DecidableEq

/-- Modelled from the spec: the `struct olsrv2_routing_domain` (declared in
`olsrv2_routing.h`, outside the translated file), the spec's parameter record
`{table, protocol, distance, use_src_ip_in_routes}`. -/
structure RoutingDomain where
  use_srcip_in_routes : Bool
  protocol : Int
  table : Int
  distance : Int
deriving DecidableEq

/-- Modelled from the spec: the `struct olsrv2_routing_entry` (declared in
`olsrv2_routing.h`, outside the translated file) with the fields of the spec's
RoutingEntry. Membership in the routing tree and in the kernel queue is
membership in the corresponding lists of `RoutingCore`. -/
structure RoutingEntry where
  domain : Nat
  route_new : OsRoute
  route_current : OsRoute
  cost : Nat
  state_new : Bool
  state_current : Bool
  in_processing : Bool
deriving DecidableEq

/-! ## Collaborators: neighbor database and topology graph -/

/-- Modelled from the spec: the `struct nhdp_neighbor_domaindata` (per-domain
metric `{in, out}` with `best_link` and `best_link_ifindex`), with the address
of its best link (`best_link->if_addr`). -/
structure NeighborDomaindata where
  metric_in : Nat
  metric_out : Nat
  best_link_ifindex : Nat
  best_link_if_addr : Netaddr

/-- Modelled from the spec: the `struct nhdp_l2hop`, an entry of the per-link
two-hop table: a two-hop address, its lost flag (`nhdp_db_2hop_is_lost`) and
its outgoing metric per domain. -/
structure NhdpL2hop where
  twohop_addr : Netaddr
  is_lost : Bool
  metric_out : Nat → Nat

/-- Modelled from the spec: the `struct nhdp_link`, reduced to its two-hop
set. -/
structure NhdpLink where
  _2hop : List NhdpL2hop

/-- Modelled from the spec: the `struct nhdp_neighbor`: `symmetric` count,
originator, neighbor addresses, links and per-domain data. -/
structure NhdpNeighbor where
  symmetric : Nat
  originator : Netaddr
  _neigh_addresses : List Netaddr
  _links : List NhdpLink
  domaindata : Nat → NeighborDomaindata

/-- Modelled from the spec: the function `nhdp_domain_get_neighbordata`, the
per-domain data of a neighbor. The C code dereferences the neighbor pointer;
for a NULL pointer the embedding returns zeroes. -/
def nhdp_domain_get_neighbordata (domain : Nat) (neigh : Option NhdpNeighbor) :
    NeighborDomaindata :=
  match neigh with
  | some n => n.domaindata domain
  | none => ⟨0, 0, 0, netaddr_invalidate⟩

/-- Modelled from the spec: the `enum olsrv2_target_type`, the tag that
distinguishes a node from an attached endpoint. -/
inductive TargetType where
  | OLSRV2_NODE_TARGET
  | OLSRV2_ADDRESS_TARGET
  | OLSRV2_NETWORK_TARGET
deriving DecidableEq

/-- Modelled from the spec: the `struct olsrv2_dijkstra_node`, the scratch
record embedded in every topology target (the spec's DijkstraNode).
Membership in the working tree is membership in
`RoutingCore._dijkstra_working_tree`. -/
structure DijkstraNode where
  path_cost : Nat
  first_hop : Option NhdpNeighbor
  distance : Nat
  single_hop : Bool
  is_local : Bool
  done : Bool

/-- Modelled from the spec: the `struct olsrv2_tc_edge`: destination node,
virtual flag, cost per domain. -/
structure TcEdge where
  dst : Nat
  virtual : Bool
  cost : Nat → Nat

/-- Modelled from the spec: the `struct olsrv2_tc_attachment`: attached
endpoint, cost and distance per domain. -/
structure TcAttachment where
  dst : Nat
  cost : Nat → Nat
  distance : Nat → Nat

/-- Modelled from the spec: the topology graph as an arena. Every target
(node or endpoint) has an index, with its address, type tag, outgoing edges
and attached endpoints;
`tc_tree` lists the node targets (`olsrv2_tc_get_tree`), `endpoint_tree` the
endpoint targets (`olsrv2_tc_get_endpoint_tree`). -/
structure Tc where
  addr : Nat → Netaddr
  type : Nat → TargetType
  _edges : Nat → List TcEdge
  _endpoints : Nat → List TcAttachment
  tc_tree : List Nat
  endpoint_tree : List Nat

/-- Modelled from the spec: the function `olsrv2_tc_node_get`, the lookup of
a node by originator. -/
def olsrv2_tc_node_get (tc : Tc) (originator : Netaddr) : Option Nat :=
  tc.tc_tree.find? (fun n => tc.addr n = originator)

/-- Everything the routing core reads from its collaborators during one
operation, and the constants whose headers are outside the translated file. -/
structure Env where
  RFC7181_METRIC_MAX : Nat
  RFC7181_METRIC_INFINITE : Nat
  RFC7181_METRIC_INFINITE_PATH : Nat
  OLSRv2_DIJKSTRA_RATE_LIMITATION : Nat
  NHDP_MAXIMUM_DOMAINS : Nat
  olsrv2_originator_is_local : Netaddr → Bool
  olsrv2_originator_get : Nat → Netaddr
  olsrv2_routable : Netaddr → Bool
  oonf_class_malloc_fails : Nat → Bool
  os_routing_set_fails : Nat → Bool
  tc : Tc
  nhdp_db : List NhdpNeighbor
  nhdp_domain_list : List Nat

/-! ## Kernel routing facade -/

/-- Which of the two kernel routes embedded in a routing entry. -/
inductive RouteSel where
  | route_new
  | route_current
deriving DecidableEq

/-- One call of `os_routing_set`: the entry (domain, destination) whose
embedded route was passed, which of its two routes, the contents of the route
at the call, and whether it is an add (`set = true`) or a remove. -/
structure OsOp where
  domain : Nat
  dst : Netaddr
  sel : RouteSel
  route : OsRoute
  set : Bool
deriving DecidableEq

/-- A filter of `_routing_filter_list`: the predicate `filter->filter`. -/
structure RoutingFilter where
  filter : Nat → OsRoute → Bool

/-! ## Module state -/

/-- The module-global state of `olsrv2_routing.c` (the fields with a leading
underscore are the static variables of the file), the scratch records of the
topology targets (`_dijkstra`), and the state of the collaborators the file
drives: `_rate_limit_timer` is `none` for an inactive timer and `some delay`
for a timer armed by `oonf_timer_set`; `os_calls` records every call of
`os_routing_set`, `os_pending` the operations in flight; `allocations` counts
the calls of `oonf_class_malloc`; `undefined_behaviour` is set when the C code
would access memory through a wrongly computed or dangling entry pointer. -/
structure RoutingCore where
  _domain_parameter : Nat → RoutingDomain
  _rate_limit_timer : Option Nat
  _trigger_dijkstra : Bool
  _routing_tree : Nat → List RoutingEntry
  _routing_filter_list : List RoutingFilter
  _dijkstra_working_tree : List Nat
  _kernel_queue : List (Nat × Netaddr)
  _initiate_shutdown : Bool
  _dijkstra : Nat → DijkstraNode
  os_calls : List OsOp
  os_pending : List OsOp
  allocations : Nat
  undefined_behaviour : Bool

/-! ## Routing entry table -/

/-- Modelled from the spec: the macro `avl_find_element` on a routing tree
(the `find` of the spec's ordered map): the entry whose key (`route_new.dst`)
is the given address. -/
def avl_find_element (tree : List RoutingEntry) (key : Netaddr) : Option RoutingEntry :=
  tree.find? (fun rt => rt.route_new.dst = key)

/-- Modelled from the spec: the function `avl_insert` on a routing tree, an
ordered map kept in key order. -/
def avl_insert (rt : RoutingEntry) : List RoutingEntry → List RoutingEntry
  | [] => [rt]
  | x :: xs =>
    if netaddr_lt rt.route_new.dst x.route_new.dst then rt :: x :: xs
    else x :: avl_insert rt xs

/-- Modelled from the spec: the function `avl_remove` on a routing tree:
unlink the entry stored under the key. -/
def avl_remove (tree : List RoutingEntry) (key : Netaddr) : List RoutingEntry :=
  tree.filter (fun rt => rt.route_new.dst ≠ key)

/-- Store a new list of entries as `_routing_tree[domain]`. -/
def RoutingCore.set_tree (s : RoutingCore) (domain : Nat) (tree : List RoutingEntry) :
    RoutingCore :=
  { s with _routing_tree := Function.update s._routing_tree domain tree }

/-- Store a scratch record as `target->_dijkstra`. -/
def RoutingCore.set_dijkstra (s : RoutingCore) (target : Nat) (node : DijkstraNode) :
    RoutingCore :=
  { s with _dijkstra := Function.update s._dijkstra target node }

/-- Dereference an entry pointer (domain index, key). -/
def RoutingCore.entry (s : RoutingCore) (domain : Nat) (key : Netaddr) :
    Option RoutingEntry :=
  avl_find_element (s._routing_tree domain) key

/-- Write through an entry pointer (domain index, key). -/
def RoutingCore.modify_entry (s : RoutingCore) (domain : Nat) (key : Netaddr)
    (f : RoutingEntry → RoutingEntry) : RoutingCore :=
  s.set_tree domain
    ((s._routing_tree domain).map (fun rt => if rt.route_new.dst = key then f rt else rt))

/-- The keys of a routing tree in iteration order (`avl_for_each_element`). -/
def RoutingCore.keys (s : RoutingCore) (domain : Nat) : List Netaddr :=
  (s._routing_tree domain).map (fun rt => rt.route_new.dst)

/-- The entry that `oonf_class_malloc` returns, zero-filled, after `_add_entry`
has set its key, domain, cost, callbacks and families. -/
def new_entry (e : Env) (domain : Nat) (pfx : Netaddr) : RoutingEntry :=
  { domain := domain
    route_new :=
      { family := netaddr_get_address_family pfx, src_ip := ⟨0, 0, 0⟩, gw := ⟨0, 0, 0⟩,
        dst := pfx, metric := 0, table := 0, protocol := 0, if_index := 0,
        cb_finished := Callback._cb_route_new_finished }
    route_current :=
      { family := netaddr_get_address_family pfx, src_ip := ⟨0, 0, 0⟩, gw := ⟨0, 0, 0⟩,
        dst := pfx, metric := 0, table := 0, protocol := 0, if_index := 0,
        cb_finished := Callback._cb_route_current_finished }
    cost := e.RFC7181_METRIC_INFINITE_PATH
    state_new := false
    state_current := false
    in_processing := false }

/-- The function `_add_entry`. The returned flag is false when the C function
returns NULL (out of memory); otherwise the entry is the one stored under
(`domain`, `pfx`). -/
def _add_entry (e : Env) (domain : Nat) (pfx : Netaddr) (s : RoutingCore) :
    RoutingCore × Bool :=
  match avl_find_element (s._routing_tree domain) pfx with
  | some _ => (s, true)
  | none =>
    if e.oonf_class_malloc_fails s.allocations then
      ({ s with allocations := s.allocations + 1 }, false)
    else
      ({ s with allocations := s.allocations + 1 }.set_tree domain
          (avl_insert (new_entry e domain pfx) (s._routing_tree domain)), true)

/-- The function `_remove_entry`. -/
def _remove_entry (domain : Nat) (key : Netaddr) (s : RoutingCore) : RoutingCore :=
  s.set_tree domain (avl_remove (s._routing_tree domain) key)

/-! ## Dijkstra engine -/

/-- Modelled from the spec: the function `avl_insert` on the working tree, a
minimum-priority structure whose key is the `path_cost` of the target and
which allows duplicate keys: a new node goes behind the nodes with the same
key, so the first element is one of minimum `path_cost`. -/
def working_tree_insert (path_cost : Nat → Nat) (target : Nat) : List Nat → List Nat
  | [] => [target]
  | x :: xs =>
    if path_cost target < path_cost x then target :: x :: xs
    else x :: working_tree_insert path_cost target xs

/-- The function `_insert_into_working_tree`. -/
def _insert_into_working_tree (e : Env) (target : Nat) (neigh : Option NhdpNeighbor)
    (linkcost pathcost distance : Nat) (single_hop : Bool) (s : RoutingCore) :
    RoutingCore :=
  if e.RFC7181_METRIC_INFINITE ≤ linkcost then s
  else
    let node := s._dijkstra target
    if node.is_local = true ∨ node.done = true then s
    else
      let pathcost := (pathcost + linkcost) % 2 ^ 32
      if target ∈ s._dijkstra_working_tree ∧ node.path_cost ≤ pathcost then s
      else
        let tree :=
          if target ∈ s._dijkstra_working_tree then s._dijkstra_working_tree.erase target
          else s._dijkstra_working_tree
        let s1 := s.set_dijkstra target
          { node with path_cost := pathcost, first_hop := neigh, distance := distance,
                      single_hop := single_hop }
        { s1 with _dijkstra_working_tree :=
            working_tree_insert (fun t => (s1._dijkstra t).path_cost) target tree }

/-- The function `_update_routing_entry`. -/
def _update_routing_entry (e : Env) (domain : Nat) (destination : Netaddr)
    (first_hop : Option NhdpNeighbor) (distance pathcost : Nat) (single_hop : Bool)
    (s : RoutingCore) : RoutingCore :=
  match _add_entry e domain destination s with
  | (s1, false) => s1
  | (s1, true) =>
    match s1.entry domain destination with
    | none => s1
    | some rtentry =>
      if rtentry.state_current = true ∧ rtentry.cost < pathcost then s1
      else
        let neighdata := nhdp_domain_get_neighbordata domain first_hop
        s1.modify_entry domain destination (fun rt =>
          { rt with
              route_new :=
                { rt.route_new with
                    if_index := neighdata.best_link_ifindex
                    metric := distance
                    gw :=
                      if single_hop = true ∧ neighdata.best_link_if_addr = rt.route_new.dst
                      then netaddr_invalidate
                      else neighdata.best_link_if_addr }
              cost := pathcost
              state_new := true })

/-- The first loop of `_prepare_routes`: clear `state_new` in the domain. -/
def prepare_entries (domain : Nat) (s : RoutingCore) : RoutingCore :=
  s.set_tree domain ((s._routing_tree domain).map (fun rt => { rt with state_new := false }))

/-- The second loop of `_prepare_routes`: reset the scratch record of one
node target. -/
def prepare_node (e : Env) (s : RoutingCore) (node : Nat) : RoutingCore :=
  s.set_dijkstra node
    { s._dijkstra node with
        first_hop := none
        path_cost := e.RFC7181_METRIC_INFINITE_PATH
        is_local := e.olsrv2_originator_is_local (e.tc.addr node)
        done := false }

/-- The third loop of `_prepare_routes`: reset the scratch record of one
endpoint target (its `local` flag is not written). -/
def prepare_endpoint (e : Env) (s : RoutingCore) (ep : Nat) : RoutingCore :=
  s.set_dijkstra ep
    { s._dijkstra ep with
        first_hop := none
        path_cost := e.RFC7181_METRIC_INFINITE_PATH
        done := false }

/-- The body of the last loop of `_prepare_routes`: seed the working tree
with the topology node of one symmetric neighbor. -/
def prepare_neighbor (e : Env) (domain : Nat) (s : RoutingCore) (neigh : NhdpNeighbor) :
    RoutingCore :=
  if 0 < neigh.symmetric ∧ netaddr_get_address_family neigh.originator ≠ AF_UNSPEC then
    match olsrv2_tc_node_get e.tc neigh.originator with
    | none => s
    | some node =>
      let neigh_metric := nhdp_domain_get_neighbordata domain (some neigh)
      if e.RFC7181_METRIC_MAX < neigh_metric.metric_in
          ∨ e.RFC7181_METRIC_MAX < neigh_metric.metric_out then s
      else _insert_into_working_tree e node (some neigh) neigh_metric.metric_out 0 0 true s
  else s

/-- The function `_prepare_routes`. -/
def _prepare_routes (e : Env) (domain : Nat) (s : RoutingCore) : RoutingCore :=
  let s1 := prepare_entries domain s
  let s2 := e.tc.tc_tree.foldl (prepare_node e) s1
  let s3 := e.tc.endpoint_tree.foldl (prepare_endpoint e) s2
  e.nhdp_db.foldl (prepare_neighbor e domain) s3

/-- The body of the edge loop of `_handle_working_queue`. -/
def relax_edge (e : Env) (domain target : Nat) (first_hop : Option NhdpNeighbor)
    (s : RoutingCore) (tc_edge : TcEdge) : RoutingCore :=
  if tc_edge.virtual = false ∧ tc_edge.cost domain ≤ e.RFC7181_METRIC_MAX then
    _insert_into_working_tree e tc_edge.dst first_hop (tc_edge.cost domain)
      (s._dijkstra target).path_cost 0 false s
  else s

/-- The body of the attachment loop of `_handle_working_queue`. -/
def relax_attached (e : Env) (domain target : Nat) (first_hop : Option NhdpNeighbor)
    (s : RoutingCore) (tc_attached : TcAttachment) : RoutingCore :=
  if tc_attached.cost domain ≤ e.RFC7181_METRIC_MAX then
    _insert_into_working_tree e tc_attached.dst first_hop (tc_attached.cost domain)
      (s._dijkstra target).path_cost (tc_attached.distance domain) false s
  else s

/-- The function `_handle_working_queue`: one step of the relax loop. On an
empty working tree (excluded by the caller's loop condition) nothing is done. -/
def _handle_working_queue (e : Env) (domain : Nat) (s : RoutingCore) : RoutingCore :=
  match s._dijkstra_working_tree with
  | [] => s
  | target :: rest =>
    let s1 := { s with _dijkstra_working_tree := rest }.set_dijkstra target
      { s._dijkstra target with done := true }
    let s2 := _update_routing_entry e domain (e.tc.addr target)
      (s1._dijkstra target).first_hop (s1._dijkstra target).distance
      (s1._dijkstra target).path_cost (s1._dijkstra target).single_hop s1
    if e.tc.type target = TargetType.OLSRV2_NODE_TARGET then
      let first_hop := (s2._dijkstra target).first_hop
      let s3 := (e.tc._edges target).foldl (relax_edge e domain target first_hop) s2
      (e.tc._endpoints target).foldl (relax_attached e domain target first_hop) s3
    else s2

/-- The loop `while (!avl_is_empty(&_dijkstra_working_tree))` of
`olsrv2_routing_force_update`, with a bound on the number of iterations. -/
def dijkstra_loop (e : Env) (domain : Nat) : Nat → RoutingCore → RoutingCore
  | 0, s => s
  | fuel + 1, s =>
    if s._dijkstra_working_tree = [] then s
    else dijkstra_loop e domain fuel (_handle_working_queue e domain s)

/-- The body of the two-hop loop of `_handle_nhdp_routes`. -/
def nhdp_l2hop_route (e : Env) (domain : Nat) (neigh : NhdpNeighbor) (neighcost : Nat)
    (s : RoutingCore) (l2hop : NhdpL2hop) : RoutingCore :=
  if l2hop.is_lost = true then s
  else if e.RFC7181_METRIC_INFINITE ≤ l2hop.metric_out domain then s
  else if e.olsrv2_routable l2hop.twohop_addr = false then s
  else
    _update_routing_entry e domain l2hop.twohop_addr (some neigh) 0
      ((l2hop.metric_out domain + neighcost) % 2 ^ 32) false s

/-- The body of the neighbor loop of `_handle_nhdp_routes`. -/
def nhdp_neighbor_routes (e : Env) (domain : Nat) (s : RoutingCore) (neigh : NhdpNeighbor) :
    RoutingCore :=
  let neighcost := (nhdp_domain_get_neighbordata domain (some neigh)).metric_out
  if neigh.symmetric = 0 ∨ e.RFC7181_METRIC_INFINITE ≤ neighcost then s
  else
    let s1 := neigh._neigh_addresses.foldl (fun s naddr =>
      if e.olsrv2_routable naddr = false then s
      else _update_routing_entry e domain naddr (some neigh) 0 neighcost true s) s
    neigh._links.foldl (fun s lnk =>
      lnk._2hop.foldl (nhdp_l2hop_route e domain neigh neighcost) s) s1

/-- The function `_handle_nhdp_routes`. -/
def _handle_nhdp_routes (e : Env) (domain : Nat) (s : RoutingCore) : RoutingCore :=
  e.nhdp_db.foldl (nhdp_neighbor_routes e domain) s

/-! ## Kernel reconciliation queue -/

/-- The function `_add_route_to_kernel_queue`; the entry pointer is
(`domain`, `key`). -/
def _add_route_to_kernel_queue (e : Env) (domain : Nat) (key : Netaddr) (s : RoutingCore) :
    RoutingCore :=
  match s.entry domain key with
  | none => s
  | some rtentry =>
    if rtentry.state_new = true then
      let s1 :=
        if (s._domain_parameter rtentry.domain).use_srcip_in_routes = true
            ∧ netaddr_get_address_family rtentry.route_new.dst = AF_INET then
          s.modify_entry domain key (fun rt =>
            { rt with route_new := { rt.route_new with src_ip := e.olsrv2_originator_get AF_INET } })
        else s
      if netaddr_get_address_family rtentry.route_new.gw = AF_UNSPEC then
        { s1 with _kernel_queue := (domain, key) :: s1._kernel_queue }
      else
        { s1 with _kernel_queue := s1._kernel_queue ++ [(domain, key)] }
    else
      if netaddr_get_address_family rtentry.route_current.gw = AF_UNSPEC then
        { s with _kernel_queue := s._kernel_queue ++ [(domain, key)] }
      else
        { s with _kernel_queue := (domain, key) :: s._kernel_queue }

/-- The value of the test `memcpy(&route_new, &route_current, size) == 0` in
`_process_dijkstra_result`: `memcpy` returns its destination pointer, the
address of a member of a live entry, which is never the null pointer. -/
def memcpy_result_is_zero : Bool := false

/-- The loop over `_routing_filter_list` in `_process_dijkstra_result`: a
rejecting filter executes `continue`, which continues this inner loop. -/
def run_filters (domain : Nat) (route : OsRoute) (s : RoutingCore) : RoutingCore :=
  s._routing_filter_list.foldl
    (fun s filter => if filter.filter domain route = false then s else s) s

/-- The body of the loop of `_process_dijkstra_result` for the entry stored
under `key`. -/
def process_result_entry (e : Env) (domain : Nat) (s : RoutingCore) (key : Netaddr) :
    RoutingCore :=
  match s.entry domain key with
  | none => s
  | some rtentry =>
    let parameter := s._domain_parameter rtentry.domain
    let s1 := s.modify_entry domain key (fun rt =>
      { rt with route_new :=
          { rt.route_new with
              table := parameter.table
              protocol := parameter.protocol
              metric := parameter.distance } })
    let s2 := run_filters domain
      { rtentry.route_new with
          table := parameter.table
          protocol := parameter.protocol
          metric := parameter.distance } s1
    if rtentry.state_new = true ∧ rtentry.state_current = true then
      let s3 := s2.modify_entry domain key (fun rt => { rt with route_new := rt.route_current })
      if memcpy_result_is_zero = true then s3
      else _add_route_to_kernel_queue e domain rtentry.route_current.dst s3
    else _add_route_to_kernel_queue e domain key s2

/-- The function `_process_dijkstra_result`. -/
def _process_dijkstra_result (e : Env) (domain : Nat) (s : RoutingCore) : RoutingCore :=
  (s.keys domain).foldl (process_result_entry e domain) s

/-- Modelled from the spec: `os_routing_set` of the kernel routing facade
(its implementation is outside the translated file). The spec says it
"returns failure synchronously or invokes the route's `cb_finished(route,
error)` asynchronously": every call is recorded in `os_calls`; a call that
does not fail synchronously becomes an operation in flight (`os_pending`).
The returned flag is true for a synchronous failure. -/
def os_routing_set (e : Env) (op : OsOp) (s : RoutingCore) : RoutingCore × Bool :=
  if e.os_routing_set_fails s.os_calls.length then
    ({ s with os_calls := s.os_calls ++ [op] }, true)
  else
    ({ s with os_calls := s.os_calls ++ [op], os_pending := s.os_pending ++ [op] }, false)

/-- The body of the loop of `_process_kernel_queue` for one queued entry,
after it has been unlinked from the queue. -/
def process_kernel_entry (e : Env) (s : RoutingCore) (ref : Nat × Netaddr) : RoutingCore :=
  match s.entry ref.1 ref.2 with
  | none => s
  | some rtentry =>
    let s1 := s.modify_entry ref.1 ref.2 (fun rt => { rt with in_processing := true })
    let s2 :=
      if rtentry.state_current = true then
        (os_routing_set e
          ⟨ref.1, ref.2, RouteSel.route_current, rtentry.route_current, false⟩ s1).1
      else s1
    if rtentry.state_new = true then
      (os_routing_set e ⟨ref.1, ref.2, RouteSel.route_new, rtentry.route_new, true⟩ s2).1
    else s2

/-- The loop of `_process_kernel_queue` over the remaining queue. -/
def process_kernel_list (e : Env) : List (Nat × Netaddr) → RoutingCore → RoutingCore
  | [], s => s
  | ref :: rest, s =>
    process_kernel_list e rest (process_kernel_entry e { s with _kernel_queue := rest } ref)

/-- The function `_process_kernel_queue`. -/
def _process_kernel_queue (e : Env) (s : RoutingCore) : RoutingCore :=
  process_kernel_list e s._kernel_queue s

/-! ## Kernel completion callbacks -/

/-- The function `_cb_route_new_finished`, called for the `route_new` of the
entry (`domain`, `key`). -/
def _cb_route_new_finished (domain : Nat) (key : Netaddr) (error : Int) (s : RoutingCore) :
    RoutingCore :=
  match s.entry domain key with
  | none => s
  | some rtentry =>
    let s1 := s.modify_entry domain key (fun rt => { rt with in_processing := false })
    if error ≠ 0 then
      if rtentry.state_current = false then _remove_entry domain key s1 else s1
    else
      s1.modify_entry domain key (fun rt =>
        { rt with
            state_current := true
            route_current :=
              { rt.route_new with cb_finished := Callback._cb_route_current_finished } })

/-- True when an operation on the given route of the entry is in flight. -/
def os_is_pending (s : RoutingCore) (domain : Nat) (key : Netaddr) (sel : RouteSel) : Bool :=
  s.os_pending.any (fun op => op.domain = domain ∧ op.dst = key ∧ op.sel = sel)

/-- Take the oldest operation in flight on the given route out of the
pending list. -/
def os_cancel (s : RoutingCore) (domain : Nat) (key : Netaddr) (sel : RouteSel) :
    RoutingCore :=
  { s with os_pending :=
      s.os_pending.eraseP (fun op => op.domain = domain ∧ op.dst = key ∧ op.sel = sel) }

/-- Modelled from the spec: `os_routing_interrupt(&rtentry->route_new)`. The
spec says it "cancels a pending operation and causes its callback to be
invoked with error = -1". When `route_new.cb_finished` is not the callback
written for `route_new`, the callback would apply `container_of` with the
wrong member; the embedding records this as undefined behaviour. -/
def os_routing_interrupt_new (domain : Nat) (key : Netaddr) (s : RoutingCore) : RoutingCore :=
  if os_is_pending s domain key RouteSel.route_new = true then
    let s1 := os_cancel s domain key RouteSel.route_new
    match s1.entry domain key with
    | none => s1
    | some rtentry =>
      match rtentry.route_new.cb_finished with
      | Callback.NULL => s1
      | Callback._cb_route_new_finished => _cb_route_new_finished domain key (-1) s1
      | Callback._cb_route_current_finished => { s1 with undefined_behaviour := true }
  else s

/-- The function `_cb_route_current_finished`, called for the
`route_current` of the entry (`domain`, `key`). -/
def _cb_route_current_finished (domain : Nat) (key : Netaddr) (error : Int)
    (s : RoutingCore) : RoutingCore :=
  match s.entry domain key with
  | none => s
  | some rtentry =>
    let s1 := s.modify_entry domain key (fun rt => { rt with in_processing := false })
    if error ≠ ESRCH ∧ error ≠ 0 then os_routing_interrupt_new domain key s1
    else if rtentry.state_new = true then
      s1.modify_entry domain key (fun rt => { rt with state_current := false })
    else _remove_entry domain key s1

/-- Modelled from the spec: `os_routing_interrupt(&rtentry->route_current)`,
see `os_routing_interrupt_new`. -/
def os_routing_interrupt_current (domain : Nat) (key : Netaddr) (s : RoutingCore) :
    RoutingCore :=
  if os_is_pending s domain key RouteSel.route_current = true then
    let s1 := os_cancel s domain key RouteSel.route_current
    match s1.entry domain key with
    | none => s1
    | some rtentry =>
      match rtentry.route_current.cb_finished with
      | Callback.NULL => s1
      | Callback._cb_route_current_finished => _cb_route_current_finished domain key (-1) s1
      | Callback._cb_route_new_finished => { s1 with undefined_behaviour := true }
  else s

/-- Modelled from the spec: the kernel facade finishes the operation in
flight at position `i` of `os_pending` with the given error code and invokes
the `cb_finished` of its route. An operation whose entry has been freed, or
whose callback does not belong to the route, is undefined behaviour in C. -/
def os_routing_finished (i : Nat) (error : Int) (s : RoutingCore) : RoutingCore :=
  match s.os_pending.get? i with
  | none => s
  | some op =>
    let s1 := { s with os_pending := s.os_pending.eraseIdx i }
    match s1.entry op.domain op.dst with
    | none => { s1 with undefined_behaviour := true }
    | some rtentry =>
      match op.sel with
      | RouteSel.route_new =>
        match rtentry.route_new.cb_finished with
        | Callback.NULL => s1
        | Callback._cb_route_new_finished => _cb_route_new_finished op.domain op.dst error s1
        | Callback._cb_route_current_finished => { s1 with undefined_behaviour := true }
      | RouteSel.route_current =>
        match rtentry.route_current.cb_finished with
        | Callback.NULL => s1
        | Callback._cb_route_current_finished =>
          _cb_route_current_finished op.domain op.dst error s1
        | Callback._cb_route_new_finished => { s1 with undefined_behaviour := true }

/-! ## Public operations -/

/-- The state after `olsrv2_routing_init`: empty trees, lists and queues,
zero-filled static variables. -/
def olsrv2_routing_init : RoutingCore :=
  { _domain_parameter := fun _ => ⟨false, 0, 0, 0⟩
    _rate_limit_timer := none
    _trigger_dijkstra := false
    _routing_tree := fun _ => []
    _routing_filter_list := []
    _dijkstra_working_tree := []
    _kernel_queue := []
    _initiate_shutdown := false
    _dijkstra := fun _ => ⟨0, none, 0, false, false, false⟩
    os_calls := []
    os_pending := []
    allocations := 0
    undefined_behaviour := false }

/-- The body of the entry loop of `olsrv2_routing_initiate_shutdown`. -/
def shutdown_entry (e : Env) (domain : Nat) (s : RoutingCore) (key : Netaddr) : RoutingCore :=
  match s.entry domain key with
  | none => s
  | some entry =>
    if entry.state_current = true then
      _add_route_to_kernel_queue e domain key
        (s.modify_entry domain key (fun rt => { rt with state_new := false }))
    else s

/-- The function `olsrv2_routing_initiate_shutdown`. -/
def olsrv2_routing_initiate_shutdown (e : Env) (s : RoutingCore) : RoutingCore :=
  let s1 := { s with _initiate_shutdown := true }
  let s2 := (List.range e.NHDP_MAXIMUM_DOMAINS).foldl
    (fun s i => (s.keys i).foldl (shutdown_entry e i) s) s1
  _process_kernel_queue e s2

/-- The body of the entry loop of `olsrv2_routing_cleanup`. -/
def cleanup_entry (domain : Nat) (s : RoutingCore) (key : Netaddr) : RoutingCore :=
  let s1 := s.modify_entry domain key (fun rt =>
    { rt with route_new := { rt.route_new with cb_finished := Callback.NULL } })
  let s2 := os_routing_interrupt_new domain key s1
  let s3 := s2.modify_entry domain key (fun rt =>
    { rt with route_current := { rt.route_current with cb_finished := Callback.NULL } })
  let s4 := os_routing_interrupt_current domain key s3
  _remove_entry domain key s4

/-- The function `olsrv2_routing_cleanup`. -/
def olsrv2_routing_cleanup (e : Env) (s : RoutingCore) : RoutingCore :=
  let s1 := { s with _rate_limit_timer := none }
  let s2 := (List.range e.NHDP_MAXIMUM_DOMAINS).foldl
    (fun s i => (s.keys i).foldl (cleanup_entry i) s) s1
  { s2 with _routing_filter_list := [] }

/-- The function `olsrv2_routing_trigger_update`. -/
def olsrv2_routing_trigger_update (s : RoutingCore) : RoutingCore :=
  let s1 := { s with _trigger_dijkstra := true }
  if s1._rate_limit_timer.isSome = false then { s1 with _rate_limit_timer := some 1 }
  else s1

/-- The body of the domain loop of `olsrv2_routing_force_update`. The relax
loop gets one iteration per topology target. -/
def spf_domain (e : Env) (s : RoutingCore) (domain : Nat) : RoutingCore :=
  let s1 := _prepare_routes e domain s
  let s2 := dijkstra_loop e domain (e.tc.tc_tree.length + e.tc.endpoint_tree.length) s1
  let s3 := _handle_nhdp_routes e domain s2
  _process_dijkstra_result e domain s3

/-- The function `olsrv2_routing_force_update`. -/
def olsrv2_routing_force_update (e : Env) (skip_wait : Bool) (s : RoutingCore) : RoutingCore :=
  if s._initiate_shutdown = true then s
  else if s._rate_limit_timer.isSome = true ∧ skip_wait = false then
    { s with _trigger_dijkstra := true }
  else
    let s1 := { s with _rate_limit_timer := none }
    let s2 := e.nhdp_domain_list.foldl (spf_domain e) s1
    let s3 := _process_kernel_queue e s2
    { s3 with _rate_limit_timer := some e.OLSRv2_DIJKSTRA_RATE_LIMITATION }

/-- The body of the entry loop of `olsrv2_routing_set_domain_parameter`. -/
def set_parameter_entry (e : Env) (domain : Nat) (s : RoutingCore) (key : Netaddr) :
    RoutingCore :=
  match s.entry domain key with
  | none => s
  | some rtentry =>
    if rtentry.state_current = true then
      let s1 :=
        if rtentry.in_processing = true then
          os_routing_interrupt_current domain key (os_routing_interrupt_new domain key s)
        else s
      _add_route_to_kernel_queue e domain key
        (s1.modify_entry domain key (fun rt => { rt with state_new := false }))
    else s

/-- The function `olsrv2_routing_set_domain_parameter`. -/
def olsrv2_routing_set_domain_parameter (e : Env) (domain : Nat) (parameter : RoutingDomain)
    (s : RoutingCore) : RoutingCore :=
  if parameter = s._domain_parameter domain then s
  else
    let s1 := { s with _domain_parameter := Function.update s._domain_parameter domain parameter }
    if s1._routing_tree domain = [] then s1
    else
      let s2 := (s1.keys domain).foldl (set_parameter_entry e domain) s1
      let s3 := _process_kernel_queue e s2
      { s3 with _rate_limit_timer := some 100, _trigger_dijkstra := true }

/-- The function `_cb_trigger_dijkstra`. -/
def _cb_trigger_dijkstra (e : Env) (s : RoutingCore) : RoutingCore :=
  if s._trigger_dijkstra = true then
    olsrv2_routing_force_update e false { s with _trigger_dijkstra := false }
  else s

/-- The function `_cb_nhdp_update`. -/
def _cb_nhdp_update (s : RoutingCore) : RoutingCore :=
  olsrv2_routing_trigger_update s

/-- Modelled from the spec: expiry of the one-shot rate-limit timer. The
timer is no longer armed when its callback `_cb_trigger_dijkstra` runs. -/
def rate_limit_timer_expires (e : Env) (s : RoutingCore) : RoutingCore :=
  match s._rate_limit_timer with
  | none => s
  | some _ => _cb_trigger_dijkstra e { s with _rate_limit_timer := none }

/-! ## Shortest paths: the specification side -/

/-- All targets of the topology database. -/
def Tc.targets (tc : Tc) : List Nat := tc.tc_tree ++ tc.endpoint_tree

/-- The topology database is closed: the edges and attachments of a listed
target lead to listed targets (in C they are pointers to live targets). -/
def Tc.closed (tc : Tc) : Prop :=
  ∀ t ∈ tc.targets,
    (∀ ed ∈ tc._edges t, ed.dst ∈ tc.targets) ∧ (∀ a ∈ tc._endpoints t, a.dst ∈ tc.targets)

/-- The `local` flag a target carries during an SPF run: for a node target
whether its originator is a local originator; an endpoint target keeps the
flag it had before the run. -/
def target_is_local (e : Env) (s : RoutingCore) (t : Nat) : Bool :=
  if t ∈ e.tc.tc_tree then e.olsrv2_originator_is_local (e.tc.addr t)
  else (s._dijkstra t).is_local

/-- `Reach e domain loc t c`: there is a path of total cost `c` to target
`t` that starts at the topology node of a symmetric neighbor whose in- and
out-metric are at most `RFC7181_METRIC_MAX` (contributing the out-metric),
follows non-virtual edges and attachments of cost at most
`RFC7181_METRIC_MAX`, and visits only targets that are not local. -/
inductive Reach (e : Env) (domain : Nat) (loc : Nat → Bool) : Nat → Nat → Prop where
  | seed (neigh : NhdpNeighbor) (node : Nat) :
      neigh ∈ e.nhdp_db → 0 < neigh.symmetric →
      olsrv2_tc_node_get e.tc neigh.originator = some node →
      (neigh.domaindata domain).metric_in ≤ e.RFC7181_METRIC_MAX →
      (neigh.domaindata domain).metric_out ≤ e.RFC7181_METRIC_MAX →
      loc node = false →
      Reach e domain loc node (neigh.domaindata domain).metric_out
  | edge (t c : Nat) (ed : TcEdge) :
      Reach e domain loc t c → e.tc.type t = TargetType.OLSRV2_NODE_TARGET →
      ed ∈ e.tc._edges t → ed.virtual = false → ed.cost domain ≤ e.RFC7181_METRIC_MAX →
      loc ed.dst = false →
      Reach e domain loc ed.dst (c + ed.cost domain)
  | attached (t c : Nat) (a : TcAttachment) :
      Reach e domain loc t c → e.tc.type t = TargetType.OLSRV2_NODE_TARGET →
      a ∈ e.tc._endpoints t → a.cost domain ≤ e.RFC7181_METRIC_MAX →
      loc a.dst = false →
      Reach e domain loc a.dst (c + a.cost domain)

/-- The cost `c` is the minimum cost of a path to `t`. -/
def MinCost (e : Env) (domain : Nat) (loc : Nat → Bool) (t c : Nat) : Prop :=
  Reach e domain loc t c ∧ ∀ c', Reach e domain loc t c' → c ≤ c'

/-- No 32-bit overflow of path costs: a minimum path cost plus the cost of a
usable edge or attachment leaving the target stays below `2^32`. -/
def NoOverflow (e : Env) (domain : Nat) (loc : Nat → Bool) : Prop :=
  ∀ t c, MinCost e domain loc t c → e.tc.type t = TargetType.OLSRV2_NODE_TARGET →
    (∀ ed ∈ e.tc._edges t, ed.virtual = false → ed.cost domain ≤ e.RFC7181_METRIC_MAX →
      loc ed.dst = false → c + ed.cost domain < 2 ^ 32) ∧
    (∀ a ∈ e.tc._endpoints t, a.cost domain ≤ e.RFC7181_METRIC_MAX →
      loc a.dst = false → c + a.cost domain < 2 ^ 32)

/-- The invariant of the Dijkstra workspace (scratch records `d`, working
tree `q`) between two relaxations. -/
structure WorkInv (e : Env) (domain : Nat) (loc : Nat → Bool)
    (d : Nat → DijkstraNode) (q : List Nat) : Prop where
  nodup : q.Nodup
  sorted : q.Pairwise (fun a b => (d a).path_cost ≤ (d b).path_cost)
  queued : ∀ t ∈ q, t ∈ e.tc.targets ∧ (d t).done = false
  loc_eq : ∀ t, (d t).is_local = loc t
  reach : ∀ t ∈ e.tc.targets, ((d t).done = true ∨ t ∈ q) →
    Reach e domain loc t (d t).path_cost
  opt : ∀ t ∈ e.tc.targets, (d t).done = true →
    ∀ c, Reach e domain loc t c → (d t).path_cost ≤ c
  mono : ∀ t ∈ e.tc.targets, (d t).done = true → ∀ u ∈ q, (d t).path_cost ≤ (d u).path_cost

/-- Target `u` is done or queued with a path cost of at most `b`. -/
def Bound (e : Env) (d : Nat → DijkstraNode) (q : List Nat) (u b : Nat) : Prop :=
  u ∈ e.tc.targets ∧ ((d u).done = true ∨ u ∈ q) ∧ (d u).path_cost ≤ b

/-- Every seeded neighbor's node is done or queued with at most the
neighbor's out-metric. -/
def Seeded (e : Env) (domain : Nat) (loc : Nat → Bool) (l : List NhdpNeighbor)
    (d : Nat → DijkstraNode) (q : List Nat) : Prop :=
  ∀ neigh ∈ l, ∀ node, 0 < neigh.symmetric →
    olsrv2_tc_node_get e.tc neigh.originator = some node →
    (neigh.domaindata domain).metric_in ≤ e.RFC7181_METRIC_MAX →
    (neigh.domaindata domain).metric_out ≤ e.RFC7181_METRIC_MAX →
    loc node = false →
    Bound e d q node (neigh.domaindata domain).metric_out

/-- Every usable edge and attachment of a done node has been relaxed. -/
def Relaxed (e : Env) (domain : Nat) (loc : Nat → Bool)
    (d : Nat → DijkstraNode) (q : List Nat) : Prop :=
  ∀ t ∈ e.tc.targets, (d t).done = true → e.tc.type t = TargetType.OLSRV2_NODE_TARGET →
    (∀ ed ∈ e.tc._edges t, ed.virtual = false → ed.cost domain ≤ e.RFC7181_METRIC_MAX →
      loc ed.dst = false → Bound e d q ed.dst ((d t).path_cost + ed.cost domain)) ∧
    (∀ a ∈ e.tc._endpoints t, a.cost domain ≤ e.RFC7181_METRIC_MAX →
      loc a.dst = false → Bound e d q a.dst ((d t).path_cost + a.cost domain))

/-- The invariant of the relax loop. -/
def LoopInv (e : Env) (domain : Nat) (loc : Nat → Bool) (s : RoutingCore) : Prop :=
  WorkInv e domain loc s._dijkstra s._dijkstra_working_tree
  ∧ Seeded e domain loc e.nhdp_db s._dijkstra s._dijkstra_working_tree
  ∧ Relaxed e domain loc s._dijkstra s._dijkstra_working_tree

/-- The number of listed targets that are not done. -/
def undone (e : Env) (s : RoutingCore) : Nat :=
  (e.tc.targets.filter (fun t => !(s._dijkstra t).done)).length

/-! ## Concrete scenarios -/

/-- An IPv4 host address. -/
def ip4 (n : Nat) : Netaddr := ⟨n, AF_INET, 32⟩

/-- Scenario S1 of the specification: nodes `1`, `2`, `3` (indices 0, 1, 2),
one edge from node `2` to node `3` of cost 20. -/
def scenario1_tc : Tc :=
  { addr := fun i => ip4 (i + 1)
    type := fun _ => TargetType.OLSRV2_NODE_TARGET
    _edges := fun i => if i = 1 then [⟨2, false, fun _ => 20⟩] else []
    _endpoints := fun _ => []
    tc_tree := [0, 1, 2]
    endpoint_tree := [] }

/-- The symmetric neighbor `2` of scenario S1: metric 10 in both directions,
best link on interface 7 with address `2`. -/
def scenario1_neighbor : NhdpNeighbor :=
  { symmetric := 1
    originator := ip4 2
    _neigh_addresses := [ip4 2]
    _links := []
    domaindata := fun _ => ⟨10, 10, 7, ip4 2⟩ }

/-- The environment of scenario S1: local originator `1`, one domain with
index 0, the metric constants of RFC 7181. -/
def scenario1_env : Env :=
  { RFC7181_METRIC_MAX := 16776960
    RFC7181_METRIC_INFINITE := 16777215
    RFC7181_METRIC_INFINITE_PATH := 4294967295
    OLSRv2_DIJKSTRA_RATE_LIMITATION := 1000
    NHDP_MAXIMUM_DOMAINS := 4
    olsrv2_originator_is_local := fun a => a = ip4 1
    olsrv2_originator_get := fun _ => ip4 1
    olsrv2_routable := fun _ => true
    oonf_class_malloc_fails := fun _ => false
    os_routing_set_fails := fun _ => false
    tc := scenario1_tc
    nhdp_db := [scenario1_neighbor]
    nhdp_domain_list := [0] }

/-- The state of scenario S1 after the first SPF run: both adds in flight. -/
def scenario1_run1 : RoutingCore :=
  olsrv2_routing_force_update scenario1_env true olsrv2_routing_init

/-- The state of scenario S1 after the kernel has confirmed both adds. -/
def scenario1_installed : RoutingCore :=
  os_routing_finished 0 0 (os_routing_finished 0 0 scenario1_run1)

/-- The neighbor of scenario S1 with metric 20 in both directions. -/
def scenario1_neighbor_metric20 : NhdpNeighbor :=
  { scenario1_neighbor with domaindata := fun _ => ⟨20, 20, 7, ip4 2⟩ }

/-- Scenario S1 after the metric of the neighbor has risen to 20. -/
def scenario1_env_metric20 : Env :=
  { scenario1_env with
      nhdp_db := [scenario1_neighbor_metric20] }

/-- Scenario S1 after the neighbor has been lost: empty neighbor database. -/
def scenario1_env_lost : Env :=
  { scenario1_env with nhdp_db := [] }

/-- A topology in which neighbor `2` (direct link of cost 100) is reached
more cheaply through neighbor `3` (link of cost 10, edge `3 → 2` of cost 20). -/
def detour_env : Env :=
  { scenario1_env with
      tc :=
        { addr := fun i => ip4 (i + 1)
          type := fun _ => TargetType.OLSRV2_NODE_TARGET
          _edges := fun i => if i = 2 then [⟨1, false, fun _ => 20⟩] else []
          _endpoints := fun _ => []
          tc_tree := [0, 1, 2]
          endpoint_tree := [] }
      nhdp_db :=
        [ { symmetric := 1, originator := ip4 2, _neigh_addresses := [ip4 2], _links := [],
            domaindata := fun _ => ⟨100, 100, 7, ip4 2⟩ },
          { symmetric := 1, originator := ip4 3, _neigh_addresses := [ip4 3], _links := [],
            domaindata := fun _ => ⟨10, 10, 8, ip4 3⟩ } ] }

/-- A topology in which neighbor `2` announces the local originator `1` as
an attached address (endpoint target with index 2). -/
def attached_self_env : Env :=
  { scenario1_env with
      tc :=
        { addr := fun i => if i = 2 then ip4 1 else ip4 (i + 1)
          type := fun i =>
            if i = 2 then TargetType.OLSRV2_ADDRESS_TARGET else TargetType.OLSRV2_NODE_TARGET
          _edges := fun _ => []
          _endpoints := fun i => if i = 1 then [⟨2, fun _ => 5, fun _ => 1⟩] else []
          tc_tree := [0, 1]
          endpoint_tree := [2] } }

/-- A neighbor database in which the link to neighbor `2` reports the local
originator `1` as a two-hop address. -/
def twohop_self_env : Env :=
  { scenario1_env with
      nhdp_db :=
        [ { scenario1_neighbor with _links := [⟨[⟨ip4 1, false, fun _ => 5⟩]⟩] } ] }

/-! ## Kernel queue: the specification side -/

/-- The `os_routing_set` calls that `_process_kernel_queue` makes for an
entry: a remove of `route_current` if `state_current`, then an add of
`route_new` if `state_new`. -/
def entry_calls (ref : Nat × Netaddr) (rt : RoutingEntry) : List OsOp :=
  (if rt.state_current = true then
      [⟨ref.1, ref.2, RouteSel.route_current, rt.route_current, false⟩] else [])
  ++ (if rt.state_new = true then
      [⟨ref.1, ref.2, RouteSel.route_new, rt.route_new, true⟩] else [])

/-- The calls made for the entry behind an entry pointer. -/
def ref_calls (s : RoutingCore) (ref : Nat × Netaddr) : List OsOp :=
  match s.entry ref.1 ref.2 with
  | none => []
  | some rt => entry_calls ref rt

/-- Single-hop insert: `state_new` is true and the gateway of `route_new`
is unspecified. -/
def single_hop_insert (rt : RoutingEntry) : Prop :=
  rt.state_new = true ∧ netaddr_get_address_family rt.route_new.gw = AF_UNSPEC

/-- Multi-hop insert: `state_new` is true and `route_new` has a gateway. -/
def multi_hop_insert (rt : RoutingEntry) : Prop :=
  rt.state_new = true ∧ netaddr_get_address_family rt.route_new.gw ≠ AF_UNSPEC

/-- Single-hop remove: `state_new` is false and the gateway of
`route_current` is unspecified. -/
def single_hop_remove (rt : RoutingEntry) : Prop :=
  rt.state_new = false ∧ netaddr_get_address_family rt.route_current.gw = AF_UNSPEC

/-- Multi-hop remove: `state_new` is false and `route_current` has a
gateway. -/
def multi_hop_remove (rt : RoutingEntry) : Prop :=
  rt.state_new = false ∧ netaddr_get_address_family rt.route_current.gw ≠ AF_UNSPEC

/-- The entry is put at the head of the kernel queue. -/
def queued_at_head (rt : RoutingEntry) : Bool :=
  if rt.state_new = true then netaddr_get_address_family rt.route_new.gw = AF_UNSPEC
  else netaddr_get_address_family rt.route_current.gw ≠ AF_UNSPEC

/-- The fields of the module state that neither the kernel queue nor the
completion callbacks touch are equal in both states. -/
structure Frame (s s' : RoutingCore) : Prop where
  domain_parameter : s'._domain_parameter = s._domain_parameter
  rate_limit_timer : s'._rate_limit_timer = s._rate_limit_timer
  trigger_dijkstra : s'._trigger_dijkstra = s._trigger_dijkstra
  routing_filter_list : s'._routing_filter_list = s._routing_filter_list
  dijkstra_working_tree : s'._dijkstra_working_tree = s._dijkstra_working_tree
  initiate_shutdown : s'._initiate_shutdown = s._initiate_shutdown
  dijkstra : s'._dijkstra = s._dijkstra
  allocations : s'.allocations = s.allocations

/-- A sequence of enqueues: `_add_route_to_kernel_queue` for each entry
pointer of the list, in order. -/
def enqueue_all (e : Env) (refs : List (Nat × Netaddr)) (s : RoutingCore) : RoutingCore :=
  refs.foldl (fun s r => _add_route_to_kernel_queue e r.1 r.2 s) s

/-- The entry pointer refers to an entry that is put at the head of the queue. -/
def ref_at_head (s : RoutingCore) (r : Nat × Netaddr) : Bool :=
  match s.entry r.1 r.2 with
  | some rt => queued_at_head rt
  | none => false

/-- The entry pointer refers to an entry that is put at the tail of the queue. -/
def ref_at_tail (s : RoutingCore) (r : Nat × Netaddr) : Bool :=
  match s.entry r.1 r.2 with
  | some rt => !queued_at_head rt
  | none => false

/-- Scenario S1 after prepare, relax loop and single-hop pass of the first
SPF run: entry `2` is a single-hop insert, entry `3` a multi-hop insert. -/
def scenario1_spf : RoutingCore :=
  _handle_nhdp_routes scenario1_env 0
    (dijkstra_loop scenario1_env 0 3 (_prepare_routes scenario1_env 0 olsrv2_routing_init))

/-- State `r` differs from state `s` at most in the entry (`d`, `k`), in the
operations in flight and in the undefined-behaviour flag. -/
structure OnlyEntry (d : Nat) (k : Netaddr) (s r : RoutingCore) : Prop where
  frame : Frame s r
  os_calls : r.os_calls = s.os_calls
  kernel_queue : r._kernel_queue = s._kernel_queue
  others : ∀ d' k', ¬(d' = d ∧ k' = k) → r.entry d' k' = s.entry d' k'

/-- Entry `rt'` is entry `rt`, except possibly for a cleared
`in_processing` flag. -/
def same_but_in_processing (rt rt' : RoutingEntry) : Prop :=
  rt' = rt ∨ rt' = { rt with in_processing := false }

/-- The scheduling state of the module (stored domain parameters, rate-limit
timer, pending flag, filter list, shutdown flag) and the routing trees of all
domains other than `d` are equal in both states. -/
structure SpfFrame (d : Nat) (s s' : RoutingCore) : Prop where
  domain_parameter : s'._domain_parameter = s._domain_parameter
  rate_limit_timer : s'._rate_limit_timer = s._rate_limit_timer
  trigger_dijkstra : s'._trigger_dijkstra = s._trigger_dijkstra
  routing_filter_list : s'._routing_filter_list = s._routing_filter_list
  initiate_shutdown : s'._initiate_shutdown = s._initiate_shutdown
  other_trees : ∀ d', d' ≠ d → s'._routing_tree d' = s._routing_tree d'

/-- The part of `olsrv2_routing_force_update` behind its two early returns:
stop the rate-limit timer, run the SPF pipeline for every domain of the
domain list, drain the kernel queue and start the timer with the rate-limit
interval. -/
def run_dijkstra (e : Env) (s : RoutingCore) : RoutingCore :=
  let s1 := { s with _rate_limit_timer := none }
  let s2 := e.nhdp_domain_list.foldl (spf_domain e) s1
  let s3 := _process_kernel_queue e s2
  { s3 with _rate_limit_timer := some e.OLSRv2_DIJKSTRA_RATE_LIMITATION }

/-- The state after `n` calls of `olsrv2_routing_trigger_update`. -/
def trigger_updates : Nat → RoutingCore → RoutingCore
  | 0, s => s
  | n + 1, s => trigger_updates n (olsrv2_routing_trigger_update s)

/-- A routing filter that rejects every route. -/
def reject_all : RoutingFilter := ⟨fun _ _ => false⟩

/-- The state after `olsrv2_routing_init` with the filter `reject_all`
attached to the filter list. -/
def filtered_init : RoutingCore :=
  { olsrv2_routing_init with _routing_filter_list := [reject_all] }

/-- Scenario S1 with the filter `reject_all` attached: the state after the
first `olsrv2_routing_force_update`. -/
def scenario1_filtered : RoutingCore :=
  olsrv2_routing_force_update scenario1_env true filtered_init

/-- Scenario S1 after installation of both routes and
`olsrv2_routing_initiate_shutdown`, followed by two calls of
`olsrv2_routing_trigger_update`. -/
def scenario1_shutdown_triggered : RoutingCore :=
  trigger_updates 2 (olsrv2_routing_initiate_shutdown scenario1_env scenario1_installed)

/-- What the entry loop of `olsrv2_routing_initiate_shutdown` does to one
entry: an entry with `state_current` gets `state_new` cleared. -/
def mark_removed (rt : RoutingEntry) : RoutingEntry :=
  if rt.state_current = true then { rt with state_new := false } else rt

/-- The entry pointers that the loops of `olsrv2_routing_initiate_shutdown`
and `olsrv2_routing_cleanup` visit, in order: for each domain index of the
list, the keys of its routing tree. -/
def all_refs (s : RoutingCore) (ds : List Nat) : List (Nat × Netaddr) :=
  ds.flatMap (fun i => (s.keys i).map (fun k => (i, k)))

/-- Scenario S1 with a remove and an add in flight for the installed entry
`2`: the first SPF run is repeated before its adds complete (a second add is
issued for both entries), the first add for `2` completes with error 0, then
the neighbor is lost and a third run issues the remove of `2`. -/
def scenario1_replacing : RoutingCore :=
  olsrv2_routing_force_update scenario1_env_lost true
    (os_routing_finished 0 0 (olsrv2_routing_force_update scenario1_env true scenario1_run1))

/-- Scenario S1 after both routes are installed, the parameters of domain 0
are changed to protocol 3, table 254, distance 2, and the rate-limit timer
armed by `olsrv2_routing_set_domain_parameter` expires while the two removes
are still in flight. -/
def scenario1_reparametrized : RoutingCore :=
  rate_limit_timer_expires scenario1_env
    (olsrv2_routing_set_domain_parameter scenario1_env 0 ⟨false, 3, 254, 2⟩ scenario1_installed)

/-- The neighbor `2` of scenario S1 after its best link has moved from
interface 7 to interface 8. -/
def scenario1_neighbor_if8 : NhdpNeighbor :=
  { scenario1_neighbor with domaindata := fun _ => ⟨10, 10, 8, ip4 2⟩ }

/-- Scenario S1 with the best link of the neighbor on interface 8. -/
def scenario1_env_if8 : Env :=
  { scenario1_env with nhdp_db := [scenario1_neighbor_if8] }

/-- Scenario S1 with both routes installed, after prepare, relax loop and
single-hop pass of an SPF run with the best link on interface 8: the state
before the reconcile step. -/
def scenario1_if8_spf : RoutingCore :=
  _handle_nhdp_routes scenario1_env_if8 0
    (dijkstra_loop scenario1_env_if8 0 3 (_prepare_routes scenario1_env_if8 0 scenario1_installed))

/-- Scenario S1 with both routes installed, after
`olsrv2_routing_force_update` with the best link on interface 8. -/
def scenario1_if8_run : RoutingCore :=
  olsrv2_routing_force_update scenario1_env_if8 true scenario1_installed

/-- The working tree holds listed targets that are not done, each of them
once. -/
def QueueInv (e : Env) (s : RoutingCore) : Prop :=
  s._dijkstra_working_tree.Nodup
  ∧ ∀ t ∈ s._dijkstra_working_tree, t ∈ e.tc.targets ∧ (s._dijkstra t).done = false

/-- The state after `n` executions of the body of the relax loop
(`_handle_working_queue`). -/
def relax_steps (e : Env) (domain : Nat) : Nat → RoutingCore → RoutingCore
  | 0, s => s
  | n + 1, s => relax_steps e domain n (_handle_working_queue e domain s)

/-- The step from `s` to `s'` pops one target: the first target of the
working tree of `s`, which is listed and not done in `s`, is done in `s'`;
it and every target done in `s` are done and not queued in `s'`. -/
def PopsOne (e : Env) (s s' : RoutingCore) : Prop :=
  ∃ t rest, s._dijkstra_working_tree = t :: rest ∧ t ∈ e.tc.targets
    ∧ (s._dijkstra t).done = false
    ∧ ∀ x, ((s._dijkstra x).done = true ∨ x = t) →
        (s'._dijkstra x).done = true ∧ x ∉ s'._dijkstra_working_tree

/-! # Theorems -/

/-! ## Basic facts about the setters and the working tree -/

@[simp] theorem set_dijkstra_dijkstra (s : RoutingCore) (t : Nat) (n : DijkstraNode) :
    (s.set_dijkstra t n)._dijkstra = Function.update s._dijkstra t n := rfl

@[simp] theorem set_dijkstra_working_tree (s : RoutingCore) (t : Nat) (n : DijkstraNode) :
    (s.set_dijkstra t n)._dijkstra_working_tree = s._dijkstra_working_tree := rfl

@[simp] theorem set_tree_dijkstra (s : RoutingCore) (i : Nat) (l : List RoutingEntry) :
    (s.set_tree i l)._dijkstra = s._dijkstra := rfl

@[simp] theorem set_tree_working_tree (s : RoutingCore) (i : Nat) (l : List RoutingEntry) :
    (s.set_tree i l)._dijkstra_working_tree = s._dijkstra_working_tree := rfl

theorem mem_working_tree_insert (f : Nat → Nat) (u x : Nat) (l : List Nat) :
    x ∈ working_tree_insert f u l ↔ x = u ∨ x ∈ l := by
  induction l with
  | nil => simp [working_tree_insert]
  | cons a l ih =>
    unfold working_tree_insert
    split
    · simp
    · simp [ih]; tauto

theorem nodup_working_tree_insert (f : Nat → Nat) (u : Nat) (l : List Nat)
    (hu : u ∉ l) (hl : l.Nodup) : (working_tree_insert f u l).Nodup := by
  induction l with
  | nil => simp [working_tree_insert]
  | cons a l ih =>
    simp only [List.mem_cons, not_or] at hu
    rw [List.nodup_cons] at hl
    unfold working_tree_insert
    split
    · simp [hu.1, hu.2, hl.1, hl.2]
    · rw [List.nodup_cons]
      refine ⟨?_, ih hu.2 hl.2⟩
      rw [mem_working_tree_insert]
      intro h
      rcases h with h | h
      · exact hu.1 h.symm
      · exact hl.1 h

theorem sorted_working_tree_insert (f : Nat → Nat) (u : Nat) (l : List Nat)
    (hl : l.Pairwise (fun a b => f a ≤ f b)) :
    (working_tree_insert f u l).Pairwise (fun a b => f a ≤ f b) := by
  induction l with
  | nil => simp [working_tree_insert]
  | cons a l ih =>
    rw [List.pairwise_cons] at hl
    unfold working_tree_insert
    split
    · rename_i hlt
      rw [List.pairwise_cons]
      refine ⟨?_, List.pairwise_cons.mpr hl⟩
      intro b hb
      rcases List.mem_cons.mp hb with hb | hb
      · subst hb; exact Nat.le_of_lt hlt
      · exact Nat.le_trans (Nat.le_of_lt hlt) (hl.1 b hb)
    · rename_i hge
      rw [List.pairwise_cons]
      refine ⟨?_, ih hl.2⟩
      intro b hb
      rcases (mem_working_tree_insert f u b l).mp hb with hb | hb
      · subst hb; exact Nat.le_of_not_lt hge
      · exact hl.1 b hb

/-- The four outcomes of `_insert_into_working_tree`. -/
theorem insert_into_working_tree_cases (e : Env) (u : Nat) (neigh : Option NhdpNeighbor)
    (w base dist : Nat) (sh : Bool) (s : RoutingCore) :
    (_insert_into_working_tree e u neigh w base dist sh s = s ∧
      (e.RFC7181_METRIC_INFINITE ≤ w ∨ (s._dijkstra u).is_local = true
        ∨ (s._dijkstra u).done = true
        ∨ (u ∈ s._dijkstra_working_tree ∧ (s._dijkstra u).path_cost ≤ (base + w) % 2 ^ 32)))
    ∨ (w < e.RFC7181_METRIC_INFINITE ∧ (s._dijkstra u).is_local = false
        ∧ (s._dijkstra u).done = false
        ∧ (u ∈ s._dijkstra_working_tree → (base + w) % 2 ^ 32 < (s._dijkstra u).path_cost)
        ∧ (_insert_into_working_tree e u neigh w base dist sh s)._dijkstra
            = Function.update s._dijkstra u
                { s._dijkstra u with path_cost := (base + w) % 2 ^ 32, first_hop := neigh,
                                     distance := dist, single_hop := sh }
        ∧ (_insert_into_working_tree e u neigh w base dist sh s)._dijkstra_working_tree
            = working_tree_insert
                (fun t => ((Function.update s._dijkstra u
                  { s._dijkstra u with path_cost := (base + w) % 2 ^ 32, first_hop := neigh,
                                       distance := dist, single_hop := sh }) t).path_cost)
                u (s._dijkstra_working_tree.erase u)) := by
  unfold _insert_into_working_tree
  by_cases h1 : e.RFC7181_METRIC_INFINITE ≤ w
  · left; simp [h1]
  by_cases h2 : (s._dijkstra u).is_local = true ∨ (s._dijkstra u).done = true
  · left; simp only [h1, h2, if_true, if_false, true_and]
    rcases h2 with h2 | h2 <;> simp [h2]
  by_cases h3 : u ∈ s._dijkstra_working_tree ∧ (s._dijkstra u).path_cost ≤ (base + w) % 2 ^ 32
  · left; simp only [h1, h2, h3, if_true, if_false, true_and]
    simp [h3.1, h3.2]
  right
  simp only [h1, h2, h3, if_false]
  simp only [not_or, Bool.not_eq_true] at h2
  refine ⟨Nat.lt_of_not_le h1, h2.1, h2.2, ?_, ?_, ?_⟩
  · intro hu
    exact Nat.lt_of_not_le (fun h => h3 ⟨hu, h⟩)
  · simp
  · by_cases hu : u ∈ s._dijkstra_working_tree
    · simp [hu]
    · simp [hu, List.erase_of_not_mem hu]

theorem Reach.not_local {e : Env} {domain : Nat} {loc : Nat → Bool} {t c : Nat}
    (h : Reach e domain loc t c) : loc t = false := by
  cases h <;> assumption

/-- One relaxation keeps the workspace invariant, establishes the bound it
was called for and keeps every bound established before. -/
theorem relax_inv (e : Env) (domain : Nat) (loc : Nat → Bool) (u : Nat)
    (neigh : Option NhdpNeighbor) (w base dist : Nat) (sh : Bool) (s : RoutingCore)
    (hI : WorkInv e domain loc s._dijkstra s._dijkstra_working_tree)
    (hu : u ∈ e.tc.targets)
    (hw : w < e.RFC7181_METRIC_INFINITE)
    (hr : loc u = false → Reach e domain loc u (base + w))
    (hlt : loc u = false → base + w < 2 ^ 32)
    (hb : ∀ t ∈ e.tc.targets, (s._dijkstra t).done = true →
      (s._dijkstra t).path_cost ≤ base + w) :
    WorkInv e domain loc (_insert_into_working_tree e u neigh w base dist sh s)._dijkstra
        (_insert_into_working_tree e u neigh w base dist sh s)._dijkstra_working_tree
    ∧ (loc u = false →
        Bound e (_insert_into_working_tree e u neigh w base dist sh s)._dijkstra
          (_insert_into_working_tree e u neigh w base dist sh s)._dijkstra_working_tree
          u (base + w))
    ∧ (∀ x b, Bound e s._dijkstra s._dijkstra_working_tree x b →
        Bound e (_insert_into_working_tree e u neigh w base dist sh s)._dijkstra
          (_insert_into_working_tree e u neigh w base dist sh s)._dijkstra_working_tree x b)
    ∧ (∀ x, ((_insert_into_working_tree e u neigh w base dist sh s)._dijkstra x).done
        = (s._dijkstra x).done)
    ∧ (∀ x, (s._dijkstra x).done = true →
        (_insert_into_working_tree e u neigh w base dist sh s)._dijkstra x = s._dijkstra x) := by
  rcases insert_into_working_tree_cases e u neigh w base dist sh s with
    ⟨heq, hc⟩ | ⟨_, hl, hd, hq, hd', hq'⟩
  · rw [heq]
    refine ⟨hI, ?_, fun _ _ h => h, fun _ => rfl, fun _ _ => rfl⟩
    intro hloc
    have hmod : (base + w) % 2 ^ 32 = base + w := Nat.mod_eq_of_lt (hlt hloc)
    rcases hc with hc | hc | hc | hc
    · exact absurd hw (Nat.not_lt.mpr hc)
    · rw [hI.loc_eq u, hloc] at hc; exact absurd hc (by simp)
    · exact ⟨hu, Or.inl hc, hb u hu hc⟩
    · exact ⟨hu, Or.inr hc.1, hmod ▸ hc.2⟩
  · have hloc : loc u = false := by rw [← hI.loc_eq u]; exact hl
    have hmod : (base + w) % 2 ^ 32 = base + w := Nat.mod_eq_of_lt (hlt hloc)
    rw [hmod] at hd' hq' hq
    rw [hd', hq']
    -- abbreviations
    have hne : ∀ x, x ≠ u → (Function.update s._dijkstra u
        { s._dijkstra u with path_cost := base + w, first_hop := neigh,
                             distance := dist, single_hop := sh }) x = s._dijkstra x :=
      fun x hx => Function.update_noteq hx _ _
    have hdone : ∀ x, ((Function.update s._dijkstra u
        { s._dijkstra u with path_cost := base + w, first_hop := neigh,
                             distance := dist, single_hop := sh }) x).done
        = (s._dijkstra x).done := by
      intro x
      by_cases hx : x = u
      · subst hx; simp
      · rw [hne x hx]
    have hlocal : ∀ x, ((Function.update s._dijkstra u
        { s._dijkstra u with path_cost := base + w, first_hop := neigh,
                             distance := dist, single_hop := sh }) x).is_local
        = (s._dijkstra x).is_local := by
      intro x
      by_cases hx : x = u
      · subst hx; simp
      · rw [hne x hx]
    have hpcu : ((Function.update s._dijkstra u
        { s._dijkstra u with path_cost := base + w, first_hop := neigh,
                             distance := dist, single_hop := sh }) u).path_cost = base + w := by
      simp
    have hmem : ∀ x, x ∈ s._dijkstra_working_tree.erase u ↔
        x ≠ u ∧ x ∈ s._dijkstra_working_tree := fun x => hI.nodup.mem_erase_iff
    refine ⟨?_, ?_, ?_, hdone, ?_⟩
    · constructor
      · apply nodup_working_tree_insert
        · intro h; exact ((hmem u).mp h).1 rfl
        · exact hI.nodup.erase u
      · apply sorted_working_tree_insert
        have hsub := (List.erase_sublist u s._dijkstra_working_tree).subset
        refine (hI.sorted.sublist (List.erase_sublist u _)).imp_of_mem ?_
        intro a b ha hb hab
        rw [hne a ((hmem a).mp ha).1, hne b ((hmem b).mp hb).1]
        exact hab
      · intro t ht
        rw [mem_working_tree_insert] at ht
        rw [hdone]
        rcases ht with ht | ht
        · subst ht; exact ⟨hu, hd⟩
        · exact hI.queued t ((hmem t).mp ht).2
      · intro t; rw [hlocal]; exact hI.loc_eq t
      · intro t ht h
        rw [hdone, mem_working_tree_insert] at h
        by_cases hx : t = u
        · subst hx; rw [hpcu]; exact hr hloc
        · rw [hne t hx]
          apply hI.reach t ht
          rcases h with h | h | h
          · exact Or.inl h
          · exact absurd h hx
          · exact Or.inr ((hmem t).mp h).2
      · intro t ht h c hc
        rw [hdone] at h
        have hx : t ≠ u := by intro hx; subst hx; rw [hd] at h; exact absurd h (by simp)
        rw [hne t hx]
        exact hI.opt t ht h c hc
      · intro t ht h x hx
        rw [hdone] at h
        have htu : t ≠ u := by intro h'; subst h'; rw [hd] at h; exact absurd h (by simp)
        rw [hne t htu]
        rw [mem_working_tree_insert] at hx
        rcases hx with hx | hx
        · subst hx; rw [hpcu]; exact hb t ht h
        · rw [hne x ((hmem x).mp hx).1]
          exact hI.mono t ht h x ((hmem x).mp hx).2
    · intro _
      refine ⟨hu, Or.inr ?_, ?_⟩
      · rw [mem_working_tree_insert]; exact Or.inl rfl
      · rw [hpcu]
    · intro x b ⟨hxT, hx, hxb⟩
      refine ⟨hxT, ?_, ?_⟩
      · rw [hdone, mem_working_tree_insert]
        rcases hx with hx | hx
        · exact Or.inl hx
        · by_cases hxu : x = u
          · exact Or.inr (Or.inl hxu)
          · exact Or.inr (Or.inr ((hmem x).mpr ⟨hxu, hx⟩))
      · by_cases hxu : x = u
        · subst hxu
          rw [hpcu]
          rcases hx with hx | hx
          · rw [hd] at hx; exact absurd hx (by simp)
          · exact Nat.le_trans (Nat.le_of_lt (hq hx)) hxb
        · rw [hne x hxu]; exact hxb
    · intro x hx
      have hxu : x ≠ u := by intro h'; subst h'; rw [hd] at hx; exact absurd hx (by simp)
      exact hne x hxu

theorem tc_node_get_mem {tc : Tc} {a : Netaddr} {node : Nat}
    (h : olsrv2_tc_node_get tc a = some node) : node ∈ tc.tc_tree ∧ tc.addr node = a := by
  unfold olsrv2_tc_node_get at h
  refine ⟨List.mem_of_find?_eq_some h, ?_⟩
  have := List.find?_some h
  simpa using this

theorem foldl_prepare_node (e : Env) (l : List Nat) (s : RoutingCore) :
    (l.foldl (prepare_node e) s)._dijkstra_working_tree = s._dijkstra_working_tree
    ∧ (∀ t ∈ l, ((l.foldl (prepare_node e) s)._dijkstra t).done = false
        ∧ ((l.foldl (prepare_node e) s)._dijkstra t).is_local
            = e.olsrv2_originator_is_local (e.tc.addr t))
    ∧ (∀ t, t ∉ l → (l.foldl (prepare_node e) s)._dijkstra t = s._dijkstra t) := by
  induction l generalizing s with
  | nil => simp
  | cons a l ih =>
    obtain ⟨h1, h2, h3⟩ := ih (prepare_node e s a)
    simp only [List.foldl_cons]
    refine ⟨by rw [h1]; rfl, ?_, ?_⟩
    · intro t ht
      by_cases htl : t ∈ l
      · exact h2 t htl
      · have hta : t = a := by
          rcases List.mem_cons.mp ht with h | h
          · exact h
          · exact absurd h htl
        subst hta
        rw [h3 t htl]
        simp [prepare_node]
    · intro t ht
      simp only [List.mem_cons, not_or] at ht
      rw [h3 t ht.2]
      simp [prepare_node, Function.update_noteq ht.1]

theorem foldl_prepare_endpoint (e : Env) (l : List Nat) (s : RoutingCore) :
    (l.foldl (prepare_endpoint e) s)._dijkstra_working_tree = s._dijkstra_working_tree
    ∧ (∀ t ∈ l, ((l.foldl (prepare_endpoint e) s)._dijkstra t).done = false)
    ∧ (∀ t, ((l.foldl (prepare_endpoint e) s)._dijkstra t).is_local = (s._dijkstra t).is_local)
    ∧ (∀ t, t ∉ l → (l.foldl (prepare_endpoint e) s)._dijkstra t = s._dijkstra t) := by
  induction l generalizing s with
  | nil => simp
  | cons a l ih =>
    obtain ⟨h1, h2, h3, h4⟩ := ih (prepare_endpoint e s a)
    simp only [List.foldl_cons]
    refine ⟨by rw [h1]; rfl, ?_, ?_, ?_⟩
    · intro t ht
      by_cases htl : t ∈ l
      · exact h2 t htl
      · have hta : t = a := by
          rcases List.mem_cons.mp ht with h | h
          · exact h
          · exact absurd h htl
        subst hta
        rw [h4 t htl]
        simp [prepare_endpoint]
    · intro t
      rw [h3 t]
      by_cases hta : t = a
      · subst hta; simp [prepare_endpoint]
      · simp [prepare_endpoint, Function.update_noteq hta]
    · intro t ht
      simp only [List.mem_cons, not_or] at ht
      rw [h4 t ht.2]
      simp [prepare_endpoint, Function.update_noteq ht.1]

/-- The state after the three reset loops of `_prepare_routes`. -/
theorem prepare_reset (e : Env) (domain : Nat) (s : RoutingCore) :
    let s3 := e.tc.endpoint_tree.foldl (prepare_endpoint e)
      (e.tc.tc_tree.foldl (prepare_node e) (prepare_entries domain s))
    s3._dijkstra_working_tree = s._dijkstra_working_tree
    ∧ (∀ t ∈ e.tc.targets, (s3._dijkstra t).done = false)
    ∧ (∀ t, (s3._dijkstra t).is_local = target_is_local e s t) := by
  intro s3
  obtain ⟨a1, a2, a3⟩ := foldl_prepare_node e e.tc.tc_tree (prepare_entries domain s)
  obtain ⟨b1, b2, b3, b4⟩ := foldl_prepare_endpoint e e.tc.endpoint_tree
    (e.tc.tc_tree.foldl (prepare_node e) (prepare_entries domain s))
  refine ⟨?_, ?_, ?_⟩
  · show (e.tc.endpoint_tree.foldl (prepare_endpoint e) _)._dijkstra_working_tree = _
    rw [b1, a1]; rfl
  · intro t ht
    show ((e.tc.endpoint_tree.foldl (prepare_endpoint e) _)._dijkstra t).done = false
    by_cases hte : t ∈ e.tc.endpoint_tree
    · exact b2 t hte
    · rw [b4 t hte]
      have : t ∈ e.tc.tc_tree := by
        rcases List.mem_append.mp ht with h | h
        · exact h
        · exact absurd h hte
      exact (a2 t this).1
  · intro t
    show ((e.tc.endpoint_tree.foldl (prepare_endpoint e) _)._dijkstra t).is_local = _
    rw [b3 t]
    unfold target_is_local
    by_cases htn : t ∈ e.tc.tc_tree
    · rw [if_pos htn]; exact (a2 t htn).2
    · rw [if_neg htn, a3 t htn]; rfl

/-- Seeding with one neighbor keeps the workspace invariant while no target
is done yet. -/
theorem prepare_neighbor_inv (e : Env) (domain : Nat) (loc : Nat → Bool)
    (hmax : e.RFC7181_METRIC_MAX < e.RFC7181_METRIC_INFINITE)
    (hinf : e.RFC7181_METRIC_INFINITE ≤ 2 ^ 32)
    (hfam : ∀ n ∈ e.tc.tc_tree, netaddr_get_address_family (e.tc.addr n) ≠ AF_UNSPEC)
    (neigh : NhdpNeighbor) (hn : neigh ∈ e.nhdp_db) (s : RoutingCore)
    (hI : WorkInv e domain loc s._dijkstra s._dijkstra_working_tree)
    (hnd : ∀ t ∈ e.tc.targets, (s._dijkstra t).done = false) :
    WorkInv e domain loc (prepare_neighbor e domain s neigh)._dijkstra
        (prepare_neighbor e domain s neigh)._dijkstra_working_tree
    ∧ (∀ t ∈ e.tc.targets, ((prepare_neighbor e domain s neigh)._dijkstra t).done = false)
    ∧ (∀ x b, Bound e s._dijkstra s._dijkstra_working_tree x b →
        Bound e (prepare_neighbor e domain s neigh)._dijkstra
          (prepare_neighbor e domain s neigh)._dijkstra_working_tree x b)
    ∧ Seeded e domain loc [neigh] (prepare_neighbor e domain s neigh)._dijkstra
        (prepare_neighbor e domain s neigh)._dijkstra_working_tree := by
  unfold prepare_neighbor
  by_cases hg : 0 < neigh.symmetric ∧ netaddr_get_address_family neigh.originator ≠ AF_UNSPEC
  · rw [if_pos hg]
    cases hget : olsrv2_tc_node_get e.tc neigh.originator with
    | none =>
      refine ⟨hI, hnd, fun _ _ h => h, ?_⟩
      intro n' hn' node _ hnode
      rw [List.mem_singleton] at hn'; subst hn'
      rw [hget] at hnode; exact absurd hnode (by simp)
    | some node =>
      simp only [nhdp_domain_get_neighbordata]
      by_cases hm : e.RFC7181_METRIC_MAX < (neigh.domaindata domain).metric_in
          ∨ e.RFC7181_METRIC_MAX < (neigh.domaindata domain).metric_out
      · rw [if_pos hm]
        refine ⟨hI, hnd, fun _ _ h => h, ?_⟩
        intro n' hn' node' _ _ hin hout
        rw [List.mem_singleton] at hn'; subst hn'
        rcases hm with hm | hm
        · exact absurd hin (Nat.not_le.mpr hm)
        · exact absurd hout (Nat.not_le.mpr hm)
      · rw [if_neg hm]
        simp only [not_or, Nat.not_lt] at hm
        have hnodeT : node ∈ e.tc.targets :=
          List.mem_append.mpr (Or.inl (tc_node_get_mem hget).1)
        have hlt : (neigh.domaindata domain).metric_out < e.RFC7181_METRIC_INFINITE :=
          Nat.lt_of_le_of_lt hm.2 hmax
        obtain ⟨r1, r2, r3, r4, _⟩ := relax_inv e domain loc node (some neigh)
          (neigh.domaindata domain).metric_out 0 0 true s hI hnodeT hlt
          (fun hl => by
            rw [Nat.zero_add]
            exact Reach.seed neigh node hn hg.1 hget hm.1 hm.2 hl)
          (fun _ => by rw [Nat.zero_add]; exact Nat.lt_of_lt_of_le hlt hinf)
          (fun t ht hd => by rw [hnd t ht] at hd; exact absurd hd (by simp))
        refine ⟨r1, ?_, r3, ?_⟩
        · intro t ht; rw [r4 t]; exact hnd t ht
        · intro n' hn' node' _ hnode' _ _ hl
          rw [List.mem_singleton] at hn'; subst hn'
          rw [hget] at hnode'
          have : node = node' := by simpa using hnode'
          subst this
          have := r2 hl
          rwa [Nat.zero_add] at this
  · rw [if_neg hg]
    refine ⟨hI, hnd, fun _ _ h => h, ?_⟩
    intro n' hn' node hsym hnode
    rw [List.mem_singleton] at hn'; subst hn'
    exfalso
    apply hg
    refine ⟨hsym, ?_⟩
    obtain ⟨hmem, haddr⟩ := tc_node_get_mem hnode
    rw [← haddr]
    exact hfam node hmem

theorem foldl_prepare_neighbor_inv (e : Env) (domain : Nat) (loc : Nat → Bool)
    (hmax : e.RFC7181_METRIC_MAX < e.RFC7181_METRIC_INFINITE)
    (hinf : e.RFC7181_METRIC_INFINITE ≤ 2 ^ 32)
    (hfam : ∀ n ∈ e.tc.tc_tree, netaddr_get_address_family (e.tc.addr n) ≠ AF_UNSPEC)
    (l : List NhdpNeighbor) (hl : ∀ n ∈ l, n ∈ e.nhdp_db) (s : RoutingCore)
    (hI : WorkInv e domain loc s._dijkstra s._dijkstra_working_tree)
    (hnd : ∀ t ∈ e.tc.targets, (s._dijkstra t).done = false) :
    WorkInv e domain loc (l.foldl (prepare_neighbor e domain) s)._dijkstra
        (l.foldl (prepare_neighbor e domain) s)._dijkstra_working_tree
    ∧ (∀ t ∈ e.tc.targets, ((l.foldl (prepare_neighbor e domain) s)._dijkstra t).done = false)
    ∧ (∀ x b, Bound e s._dijkstra s._dijkstra_working_tree x b →
        Bound e (l.foldl (prepare_neighbor e domain) s)._dijkstra
          (l.foldl (prepare_neighbor e domain) s)._dijkstra_working_tree x b)
    ∧ Seeded e domain loc l (l.foldl (prepare_neighbor e domain) s)._dijkstra
        (l.foldl (prepare_neighbor e domain) s)._dijkstra_working_tree := by
  induction l generalizing s with
  | nil =>
    refine ⟨hI, hnd, fun _ _ h => h, ?_⟩
    intro n hn; exact absurd hn (List.not_mem_nil n)
  | cons a l ih =>
    obtain ⟨a1, a2, a3, a4⟩ := prepare_neighbor_inv e domain loc hmax hinf hfam a
      (hl a (List.mem_cons_self a l)) s hI hnd
    obtain ⟨b1, b2, b3, b4⟩ := ih (fun n hn => hl n (List.mem_cons_of_mem a hn))
      (prepare_neighbor e domain s a) a1 a2
    simp only [List.foldl_cons]
    refine ⟨b1, b2, fun x b h => b3 x b (a3 x b h), ?_⟩
    intro n hn node h1 h2 h3 h4 h5
    rcases List.mem_cons.mp hn with hn | hn
    · subst hn
      exact b3 _ _ (a4 n (List.mem_singleton.mpr rfl) node h1 h2 h3 h4 h5)
    · exact b4 n hn node h1 h2 h3 h4 h5

theorem modify_entry_dijkstra (s : RoutingCore) (i : Nat) (k : Netaddr)
    (f : RoutingEntry → RoutingEntry) :
    (s.modify_entry i k f)._dijkstra = s._dijkstra
    ∧ (s.modify_entry i k f)._dijkstra_working_tree = s._dijkstra_working_tree := ⟨rfl, rfl⟩

theorem add_entry_dijkstra (e : Env) (i : Nat) (k : Netaddr) (s : RoutingCore) :
    (_add_entry e i k s).1._dijkstra = s._dijkstra
    ∧ (_add_entry e i k s).1._dijkstra_working_tree = s._dijkstra_working_tree := by
  unfold _add_entry
  split
  · exact ⟨rfl, rfl⟩
  · split <;> exact ⟨rfl, rfl⟩

/-- `_update_routing_entry` does not touch the Dijkstra workspace. -/
theorem update_routing_entry_dijkstra (e : Env) (i : Nat) (k : Netaddr)
    (fh : Option NhdpNeighbor) (dist pc : Nat) (sh : Bool) (s : RoutingCore) :
    (_update_routing_entry e i k fh dist pc sh s)._dijkstra = s._dijkstra
    ∧ (_update_routing_entry e i k fh dist pc sh s)._dijkstra_working_tree
        = s._dijkstra_working_tree := by
  have h := add_entry_dijkstra e i k s
  unfold _update_routing_entry
  split
  · rename_i s1 heq
    rw [heq] at h; exact h
  · rename_i s1 heq
    rw [heq] at h
    split
    · exact h
    · split
      · exact h
      · exact h

/-- The optimality argument of Dijkstra's algorithm: the cost of any path is
bounded below by the path cost of its (done) end point or of some queued
target. -/
theorem reach_lower_bound (e : Env) (domain : Nat) (loc : Nat → Bool)
    (d : Nat → DijkstraNode) (q : List Nat)
    (hS : Seeded e domain loc e.nhdp_db d q) (hR : Relaxed e domain loc d q)
    (t c : Nat) (h : Reach e domain loc t c) :
    (t ∈ e.tc.targets ∧ (d t).done = true ∧ (d t).path_cost ≤ c)
    ∨ (∃ y ∈ q, (d y).path_cost ≤ c) := by
  have key : ∀ u b c', Bound e d q u b → b ≤ c' →
      (u ∈ e.tc.targets ∧ (d u).done = true ∧ (d u).path_cost ≤ c')
      ∨ (∃ y ∈ q, (d y).path_cost ≤ c') := by
    intro u b c' ⟨hT, hdq, hb⟩ hbc
    rcases hdq with hd | hq
    · exact Or.inl ⟨hT, hd, Nat.le_trans hb hbc⟩
    · exact Or.inr ⟨u, hq, Nat.le_trans hb hbc⟩
  induction h with
  | seed neigh node hn hsym hget hin hout hl =>
    exact key _ _ _ (hS neigh hn node hsym hget hin hout hl) (Nat.le_refl _)
  | edge t c ed _ hty hed hv hc hl ih =>
    rcases ih with ⟨hT, hd, hpc⟩ | ⟨y, hy, hpc⟩
    · exact key _ _ _ ((hR t hT hd hty).1 ed hed hv hc hl) (Nat.add_le_add_right hpc _)
    · exact Or.inr ⟨y, hy, Nat.le_trans hpc (Nat.le_add_right _ _)⟩
  | attached t c a _ hty ha hc hl ih =>
    rcases ih with ⟨hT, hd, hpc⟩ | ⟨y, hy, hpc⟩
    · exact key _ _ _ ((hR t hT hd hty).2 a ha hc hl) (Nat.add_le_add_right hpc _)
    · exact Or.inr ⟨y, hy, Nat.le_trans hpc (Nat.le_add_right _ _)⟩

/-- Relaxing a list of edges of the done target `t`. -/
theorem foldl_relax_edge_inv (e : Env) (domain : Nat) (loc : Nat → Bool)
    (hmax : e.RFC7181_METRIC_MAX < e.RFC7181_METRIC_INFINITE)
    (hcl : e.tc.closed) (hov : NoOverflow e domain loc)
    (t : Nat) (fh : Option NhdpNeighbor) (htT : t ∈ e.tc.targets)
    (hty : e.tc.type t = TargetType.OLSRV2_NODE_TARGET)
    (l : List TcEdge) (hl : ∀ ed ∈ l, ed ∈ e.tc._edges t) (s : RoutingCore)
    (hI : WorkInv e domain loc s._dijkstra s._dijkstra_working_tree)
    (htd : (s._dijkstra t).done = true)
    (hlast : ∀ x ∈ e.tc.targets, (s._dijkstra x).done = true →
      (s._dijkstra x).path_cost ≤ (s._dijkstra t).path_cost) :
    WorkInv e domain loc (l.foldl (relax_edge e domain t fh) s)._dijkstra
        (l.foldl (relax_edge e domain t fh) s)._dijkstra_working_tree
    ∧ (∀ x b, Bound e s._dijkstra s._dijkstra_working_tree x b →
        Bound e (l.foldl (relax_edge e domain t fh) s)._dijkstra
          (l.foldl (relax_edge e domain t fh) s)._dijkstra_working_tree x b)
    ∧ (∀ x, ((l.foldl (relax_edge e domain t fh) s)._dijkstra x).done = (s._dijkstra x).done)
    ∧ (∀ x, (s._dijkstra x).done = true →
        (l.foldl (relax_edge e domain t fh) s)._dijkstra x = s._dijkstra x)
    ∧ (∀ ed ∈ l, ed.virtual = false → ed.cost domain ≤ e.RFC7181_METRIC_MAX →
        loc ed.dst = false →
        Bound e (l.foldl (relax_edge e domain t fh) s)._dijkstra
          (l.foldl (relax_edge e domain t fh) s)._dijkstra_working_tree ed.dst
          ((s._dijkstra t).path_cost + ed.cost domain)) := by
  induction l generalizing s with
  | nil =>
    refine ⟨hI, fun _ _ h => h, fun _ => rfl, fun _ _ => rfl, ?_⟩
    intro ed hed; exact absurd hed (List.not_mem_nil ed)
  | cons a l ih =>
    simp only [List.foldl_cons]
    have haE : a ∈ e.tc._edges t := hl a (List.mem_cons_self a l)
    have hmin : MinCost e domain loc t (s._dijkstra t).path_cost :=
      ⟨hI.reach t htT (Or.inl htd), hI.opt t htT htd⟩
    -- the first relaxation
    have step : WorkInv e domain loc (relax_edge e domain t fh s a)._dijkstra
          (relax_edge e domain t fh s a)._dijkstra_working_tree
        ∧ (∀ x b, Bound e s._dijkstra s._dijkstra_working_tree x b →
            Bound e (relax_edge e domain t fh s a)._dijkstra
              (relax_edge e domain t fh s a)._dijkstra_working_tree x b)
        ∧ (∀ x, ((relax_edge e domain t fh s a)._dijkstra x).done = (s._dijkstra x).done)
        ∧ (∀ x, (s._dijkstra x).done = true →
            (relax_edge e domain t fh s a)._dijkstra x = s._dijkstra x)
        ∧ (a.virtual = false → a.cost domain ≤ e.RFC7181_METRIC_MAX → loc a.dst = false →
            Bound e (relax_edge e domain t fh s a)._dijkstra
              (relax_edge e domain t fh s a)._dijkstra_working_tree a.dst
              ((s._dijkstra t).path_cost + a.cost domain)) := by
      unfold relax_edge
      by_cases hg : a.virtual = false ∧ a.cost domain ≤ e.RFC7181_METRIC_MAX
      · rw [if_pos hg]
        obtain ⟨r1, r2, r3, r4, r5⟩ := relax_inv e domain loc a.dst fh (a.cost domain)
          (s._dijkstra t).path_cost 0 false s hI ((hcl t htT).1 a haE)
          (Nat.lt_of_le_of_lt hg.2 hmax)
          (fun hloc => Reach.edge t _ a hmin.1 hty haE hg.1 hg.2 hloc)
          (fun hloc => (hov t _ hmin hty).1 a haE hg.1 hg.2 hloc)
          (fun x hx hd => Nat.le_trans (hlast x hx hd) (Nat.le_add_right _ _))
        exact ⟨r1, r3, r4, r5, fun _ _ hloc => r2 hloc⟩
      · rw [if_neg hg]
        exact ⟨hI, fun _ _ h => h, fun _ => rfl, fun _ _ => rfl,
          fun h1 h2 _ => absurd ⟨h1, h2⟩ hg⟩
    obtain ⟨a1, a2, a3, a4, a5⟩ := step
    have htd' : ((relax_edge e domain t fh s a)._dijkstra t).done = true := by
      rw [a3 t]; exact htd
    have hteq : (relax_edge e domain t fh s a)._dijkstra t = s._dijkstra t := a4 t htd
    obtain ⟨b1, b2, b3, b4, b5⟩ := ih (fun ed hed => hl ed (List.mem_cons_of_mem a hed))
      (relax_edge e domain t fh s a) a1 htd'
      (fun x hx hd => by
        rw [a3 x] at hd
        rw [a4 x hd, hteq]
        exact hlast x hx hd)
    refine ⟨b1, fun x b h => b2 x b (a2 x b h), fun x => by rw [b3 x, a3 x], ?_, ?_⟩
    · intro x hx
      have hx' : ((relax_edge e domain t fh s a)._dijkstra x).done = true := by
        rw [a3 x]; exact hx
      rw [b4 x hx', a4 x hx]
    · intro ed hed h1 h2 h3
      rcases List.mem_cons.mp hed with hed | hed
      · subst hed
        exact b2 _ _ (a5 h1 h2 h3)
      · have := b5 ed hed h1 h2 h3
        rwa [hteq] at this

/-- Relaxing a list of attachments of the done target `t`. -/
theorem foldl_relax_attached_inv (e : Env) (domain : Nat) (loc : Nat → Bool)
    (hmax : e.RFC7181_METRIC_MAX < e.RFC7181_METRIC_INFINITE)
    (hcl : e.tc.closed) (hov : NoOverflow e domain loc)
    (t : Nat) (fh : Option NhdpNeighbor) (htT : t ∈ e.tc.targets)
    (hty : e.tc.type t = TargetType.OLSRV2_NODE_TARGET)
    (l : List TcAttachment) (hl : ∀ a ∈ l, a ∈ e.tc._endpoints t) (s : RoutingCore)
    (hI : WorkInv e domain loc s._dijkstra s._dijkstra_working_tree)
    (htd : (s._dijkstra t).done = true)
    (hlast : ∀ x ∈ e.tc.targets, (s._dijkstra x).done = true →
      (s._dijkstra x).path_cost ≤ (s._dijkstra t).path_cost) :
    WorkInv e domain loc (l.foldl (relax_attached e domain t fh) s)._dijkstra
        (l.foldl (relax_attached e domain t fh) s)._dijkstra_working_tree
    ∧ (∀ x b, Bound e s._dijkstra s._dijkstra_working_tree x b →
        Bound e (l.foldl (relax_attached e domain t fh) s)._dijkstra
          (l.foldl (relax_attached e domain t fh) s)._dijkstra_working_tree x b)
    ∧ (∀ x, ((l.foldl (relax_attached e domain t fh) s)._dijkstra x).done
        = (s._dijkstra x).done)
    ∧ (∀ x, (s._dijkstra x).done = true →
        (l.foldl (relax_attached e domain t fh) s)._dijkstra x = s._dijkstra x)
    ∧ (∀ a ∈ l, a.cost domain ≤ e.RFC7181_METRIC_MAX → loc a.dst = false →
        Bound e (l.foldl (relax_attached e domain t fh) s)._dijkstra
          (l.foldl (relax_attached e domain t fh) s)._dijkstra_working_tree a.dst
          ((s._dijkstra t).path_cost + a.cost domain)) := by
  induction l generalizing s with
  | nil =>
    refine ⟨hI, fun _ _ h => h, fun _ => rfl, fun _ _ => rfl, ?_⟩
    intro a ha; exact absurd ha (List.not_mem_nil a)
  | cons a l ih =>
    simp only [List.foldl_cons]
    have haE : a ∈ e.tc._endpoints t := hl a (List.mem_cons_self a l)
    have hmin : MinCost e domain loc t (s._dijkstra t).path_cost :=
      ⟨hI.reach t htT (Or.inl htd), hI.opt t htT htd⟩
    have step : WorkInv e domain loc (relax_attached e domain t fh s a)._dijkstra
          (relax_attached e domain t fh s a)._dijkstra_working_tree
        ∧ (∀ x b, Bound e s._dijkstra s._dijkstra_working_tree x b →
            Bound e (relax_attached e domain t fh s a)._dijkstra
              (relax_attached e domain t fh s a)._dijkstra_working_tree x b)
        ∧ (∀ x, ((relax_attached e domain t fh s a)._dijkstra x).done = (s._dijkstra x).done)
        ∧ (∀ x, (s._dijkstra x).done = true →
            (relax_attached e domain t fh s a)._dijkstra x = s._dijkstra x)
        ∧ (a.cost domain ≤ e.RFC7181_METRIC_MAX → loc a.dst = false →
            Bound e (relax_attached e domain t fh s a)._dijkstra
              (relax_attached e domain t fh s a)._dijkstra_working_tree a.dst
              ((s._dijkstra t).path_cost + a.cost domain)) := by
      unfold relax_attached
      by_cases hg : a.cost domain ≤ e.RFC7181_METRIC_MAX
      · rw [if_pos hg]
        obtain ⟨r1, r2, r3, r4, r5⟩ := relax_inv e domain loc a.dst fh (a.cost domain)
          (s._dijkstra t).path_cost (a.distance domain) false s hI ((hcl t htT).2 a haE)
          (Nat.lt_of_le_of_lt hg hmax)
          (fun hloc => Reach.attached t _ a hmin.1 hty haE hg hloc)
          (fun hloc => (hov t _ hmin hty).2 a haE hg hloc)
          (fun x hx hd => Nat.le_trans (hlast x hx hd) (Nat.le_add_right _ _))
        exact ⟨r1, r3, r4, r5, fun _ hloc => r2 hloc⟩
      · rw [if_neg hg]
        exact ⟨hI, fun _ _ h => h, fun _ => rfl, fun _ _ => rfl, fun h1 _ => absurd h1 hg⟩
    obtain ⟨a1, a2, a3, a4, a5⟩ := step
    have htd' : ((relax_attached e domain t fh s a)._dijkstra t).done = true := by
      rw [a3 t]; exact htd
    have hteq : (relax_attached e domain t fh s a)._dijkstra t = s._dijkstra t := a4 t htd
    obtain ⟨b1, b2, b3, b4, b5⟩ := ih (fun x hx => hl x (List.mem_cons_of_mem a hx))
      (relax_attached e domain t fh s a) a1 htd'
      (fun x hx hd => by
        rw [a3 x] at hd
        rw [a4 x hd, hteq]
        exact hlast x hx hd)
    refine ⟨b1, fun x b h => b2 x b (a2 x b h), fun x => by rw [b3 x, a3 x], ?_, ?_⟩
    · intro x hx
      have hx' : ((relax_attached e domain t fh s a)._dijkstra x).done = true := by
        rw [a3 x]; exact hx
      rw [b4 x hx', a4 x hx]
    · intro x hx h2 h3
      rcases List.mem_cons.mp hx with hx | hx
      · subst hx
        exact b2 _ _ (a5 h2 h3)
      · have := b5 x hx h2 h3
        rwa [hteq] at this

/-- One step of the relax loop keeps the loop invariant and marks a target
done that was not done before. -/
theorem handle_working_queue_inv (e : Env) (domain : Nat) (loc : Nat → Bool)
    (hmax : e.RFC7181_METRIC_MAX < e.RFC7181_METRIC_INFINITE)
    (hcl : e.tc.closed) (hov : NoOverflow e domain loc)
    (s : RoutingCore) (t : Nat) (rest : List Nat)
    (hq : s._dijkstra_working_tree = t :: rest)
    (hinv : LoopInv e domain loc s) :
    LoopInv e domain loc (_handle_working_queue e domain s)
    ∧ t ∈ e.tc.targets ∧ (s._dijkstra t).done = false
    ∧ ((_handle_working_queue e domain s)._dijkstra t).done = true
    ∧ (∀ x, (s._dijkstra x).done = true →
        ((_handle_working_queue e domain s)._dijkstra x).done = true) := by
  obtain ⟨hI, hS, hR⟩ := hinv
  have htq : t ∈ s._dijkstra_working_tree := by rw [hq]; exact List.mem_cons_self t rest
  obtain ⟨htT, htnd⟩ := hI.queued t htq
  have hnodup := hI.nodup
  have hsorted := hI.sorted
  rw [hq] at hnodup hsorted
  rw [List.nodup_cons] at hnodup
  rw [List.pairwise_cons] at hsorted
  -- the state after the pop
  let s1 : RoutingCore := { s with _dijkstra_working_tree := rest }.set_dijkstra t
      { s._dijkstra t with done := true }
  have hd1 : s1._dijkstra = Function.update s._dijkstra t { s._dijkstra t with done := true } :=
    rfl
  have hq1 : s1._dijkstra_working_tree = rest := rfl
  have hne : ∀ x, x ≠ t → s1._dijkstra x = s._dijkstra x := by
    intro x hx; rw [hd1]; exact Function.update_noteq hx _ _
  have hpc : ∀ x, (s1._dijkstra x).path_cost = (s._dijkstra x).path_cost := by
    intro x
    by_cases hx : x = t
    · subst hx; rw [hd1]; simp
    · rw [hne x hx]
  have hloc1 : ∀ x, (s1._dijkstra x).is_local = (s._dijkstra x).is_local := by
    intro x
    by_cases hx : x = t
    · subst hx; rw [hd1]; simp
    · rw [hne x hx]
  have hdt : (s1._dijkstra t).done = true := by rw [hd1]; simp
  have hdone1 : ∀ x, (s1._dijkstra x).done = true ↔ (x = t ∨ (s._dijkstra x).done = true) := by
    intro x
    by_cases hx : x = t
    · subst hx; simp [hdt]
    · rw [hne x hx]; simp [hx]
  have hopt : ∀ c, Reach e domain loc t c → (s._dijkstra t).path_cost ≤ c := by
    intro c hc
    rcases reach_lower_bound e domain loc _ _ hS hR t c hc with ⟨_, hd, _⟩ | ⟨y, hy, hyc⟩
    · rw [htnd] at hd; exact absurd hd (by simp)
    · refine Nat.le_trans ?_ hyc
      rw [hq] at hy
      rcases List.mem_cons.mp hy with hy | hy
      · subst hy; exact Nat.le_refl _
      · exact hsorted.1 y hy
  have hI1 : WorkInv e domain loc s1._dijkstra s1._dijkstra_working_tree := by
    rw [hq1]
    constructor
    · exact hnodup.2
    · refine hsorted.2.imp ?_
      intro a b hab; rw [hpc a, hpc b]; exact hab
    · intro x hx
      have hxt : x ≠ t := by intro h; subst h; exact hnodup.1 hx
      rw [hne x hxt]
      exact hI.queued x (by rw [hq]; exact List.mem_cons_of_mem t hx)
    · intro x; rw [hloc1 x]; exact hI.loc_eq x
    · intro x hx h
      rw [hpc x]
      apply hI.reach x hx
      rw [hdone1 x] at h
      rcases h with (h | h) | h
      · subst h; exact Or.inr htq
      · exact Or.inl h
      · exact Or.inr (by rw [hq]; exact List.mem_cons_of_mem t h)
    · intro x hx h c hc
      rw [hpc x]
      rw [hdone1 x] at h
      rcases h with h | h
      · subst h; exact hopt c hc
      · exact hI.opt x hx h c hc
    · intro x hx h y hy
      rw [hpc x, hpc y]
      rw [hdone1 x] at h
      rcases h with h | h
      · subst h; exact hsorted.1 y hy
      · exact hI.mono x hx h y (by rw [hq]; exact List.mem_cons_of_mem t hy)
  have hB1 : ∀ x b, Bound e s._dijkstra s._dijkstra_working_tree x b →
      Bound e s1._dijkstra s1._dijkstra_working_tree x b := by
    intro x b ⟨hxT, hx, hxb⟩
    refine ⟨hxT, ?_, by rw [hpc x]; exact hxb⟩
    rw [hdone1 x, hq1]
    rcases hx with hx | hx
    · exact Or.inl (Or.inr hx)
    · rw [hq] at hx
      rcases List.mem_cons.mp hx with hx | hx
      · exact Or.inl (Or.inl hx)
      · exact Or.inr hx
  have hlast1 : ∀ x ∈ e.tc.targets, (s1._dijkstra x).done = true →
      (s1._dijkstra x).path_cost ≤ (s1._dijkstra t).path_cost := by
    intro x hx h
    rw [hpc x, hpc t]
    rw [hdone1 x] at h
    rcases h with h | h
    · subst h; exact Nat.le_refl _
    · exact hI.mono x hx h t htq
  -- the state after `_update_routing_entry`
  obtain ⟨hd2, hq2⟩ := update_routing_entry_dijkstra e domain (e.tc.addr t)
    (s1._dijkstra t).first_hop (s1._dijkstra t).distance (s1._dijkstra t).path_cost
    (s1._dijkstra t).single_hop s1
  -- relaxed / seeded facts transported along bounds
  have finish : ∀ r : RoutingCore,
      WorkInv e domain loc r._dijkstra r._dijkstra_working_tree →
      (∀ x b, Bound e s1._dijkstra s1._dijkstra_working_tree x b →
        Bound e r._dijkstra r._dijkstra_working_tree x b) →
      (∀ x, (r._dijkstra x).done = (s1._dijkstra x).done) →
      (∀ x, (s1._dijkstra x).done = true → r._dijkstra x = s1._dijkstra x) →
      (e.tc.type t = TargetType.OLSRV2_NODE_TARGET →
        (∀ ed ∈ e.tc._edges t, ed.virtual = false → ed.cost domain ≤ e.RFC7181_METRIC_MAX →
          loc ed.dst = false →
          Bound e r._dijkstra r._dijkstra_working_tree ed.dst
            ((s1._dijkstra t).path_cost + ed.cost domain)) ∧
        (∀ a ∈ e.tc._endpoints t, a.cost domain ≤ e.RFC7181_METRIC_MAX →
          loc a.dst = false →
          Bound e r._dijkstra r._dijkstra_working_tree a.dst
            ((s1._dijkstra t).path_cost + a.cost domain))) →
      LoopInv e domain loc r ∧ t ∈ e.tc.targets ∧ (s._dijkstra t).done = false
        ∧ (r._dijkstra t).done = true
        ∧ (∀ x, (s._dijkstra x).done = true → (r._dijkstra x).done = true) := by
    intro r hIr hBr hdr heqr hrel
    refine ⟨⟨hIr, ?_, ?_⟩, htT, htnd, by rw [hdr t]; exact hdt, ?_⟩
    · intro n hn node h1 h2 h3 h4 h5
      exact hBr _ _ (hB1 _ _ (hS n hn node h1 h2 h3 h4 h5))
    · intro x hx hxd hxty
      have hxd1 : (s1._dijkstra x).done = true := by rw [← hdr x]; exact hxd
      rw [heqr x hxd1]
      by_cases hxt : x = t
      · subst hxt; exact hrel hxty
      · have hxd0 : (s._dijkstra x).done = true := by
          rcases (hdone1 x).mp hxd1 with h | h
          · exact absurd h hxt
          · exact h
        rw [hne x hxt]
        obtain ⟨r1, r2⟩ := hR x hx hxd0 hxty
        exact ⟨fun ed hed h1 h2 h3 => hBr _ _ (hB1 _ _ (r1 ed hed h1 h2 h3)),
          fun a ha h2 h3 => hBr _ _ (hB1 _ _ (r2 a ha h2 h3))⟩
    · intro x hx
      rw [hdr x, hdone1 x]; exact Or.inr hx
  -- unfold the step
  have hstep : _handle_working_queue e domain s =
      (if e.tc.type t = TargetType.OLSRV2_NODE_TARGET then
        (e.tc._endpoints t).foldl (relax_attached e domain t
            ((_update_routing_entry e domain (e.tc.addr t)
              (s1._dijkstra t).first_hop (s1._dijkstra t).distance
              (s1._dijkstra t).path_cost (s1._dijkstra t).single_hop s1)._dijkstra t).first_hop)
          ((e.tc._edges t).foldl (relax_edge e domain t
            ((_update_routing_entry e domain (e.tc.addr t)
              (s1._dijkstra t).first_hop (s1._dijkstra t).distance
              (s1._dijkstra t).path_cost (s1._dijkstra t).single_hop s1)._dijkstra t).first_hop)
            (_update_routing_entry e domain (e.tc.addr t)
              (s1._dijkstra t).first_hop (s1._dijkstra t).distance
              (s1._dijkstra t).path_cost (s1._dijkstra t).single_hop s1))
      else
        _update_routing_entry e domain (e.tc.addr t)
          (s1._dijkstra t).first_hop (s1._dijkstra t).distance
          (s1._dijkstra t).path_cost (s1._dijkstra t).single_hop s1) := by
    unfold _handle_working_queue
    rw [hq]
  rw [hstep]
  generalize _update_routing_entry e domain (e.tc.addr t)
      (s1._dijkstra t).first_hop (s1._dijkstra t).distance
      (s1._dijkstra t).path_cost (s1._dijkstra t).single_hop s1 = s2 at hd2 hq2 ⊢
  have hI2 : WorkInv e domain loc s2._dijkstra s2._dijkstra_working_tree := by
    rw [hd2, hq2]; exact hI1
  by_cases hty : e.tc.type t = TargetType.OLSRV2_NODE_TARGET
  · rw [if_pos hty]
    obtain ⟨a1, a2, a3, a4, a5⟩ := foldl_relax_edge_inv e domain loc hmax hcl hov t
      (s2._dijkstra t).first_hop htT hty (e.tc._edges t) (fun _ h => h) s2 hI2
      (by rw [hd2]; exact hdt) (by rw [hd2]; exact hlast1)
    generalize (e.tc._edges t).foldl (relax_edge e domain t (s2._dijkstra t).first_hop) s2
      = s3 at a1 a2 a3 a4 a5 ⊢
    have hdt3 : (s3._dijkstra t).done = true := by rw [a3 t, hd2]; exact hdt
    have heq3 : ∀ x, (s1._dijkstra x).done = true → s3._dijkstra x = s1._dijkstra x := by
      intro x hx; rw [a4 x (by rw [hd2]; exact hx), hd2]
    obtain ⟨b1, b2, b3, b4, b5⟩ := foldl_relax_attached_inv e domain loc hmax hcl hov t
      (s2._dijkstra t).first_hop htT hty (e.tc._endpoints t) (fun _ h => h) s3 a1 hdt3
      (by
        intro x hx hd
        have hd1' : (s1._dijkstra x).done = true := by rw [a3 x, hd2] at hd; exact hd
        rw [heq3 x hd1', heq3 t hdt]
        exact hlast1 x hx hd1')
    apply finish _ b1
    · intro x b h
      apply b2; apply a2; rw [hd2, hq2]; exact h
    · intro x; rw [b3 x, a3 x, hd2]
    · intro x hx
      rw [b4 x (by rw [a3 x, hd2]; exact hx), heq3 x hx]
    · intro _
      refine ⟨?_, ?_⟩
      · intro ed hed h1 h2 h3
        have := a5 ed hed h1 h2 h3
        rw [hd2] at this
        exact b2 _ _ this
      · intro a ha h2 h3
        have := b5 a ha h2 h3
        rwa [heq3 t hdt] at this
  · rw [if_neg hty]
    apply finish _ hI2
    · intro x b h; rw [hd2, hq2]; exact h
    · intro x; rw [hd2]
    · intro x _; rw [hd2]
    · intro h; exact absurd h hty

theorem filter_length_lt (l : List Nat) (p q : Nat → Bool) (h : ∀ x, q x = true → p x = true)
    (t : Nat) (ht : t ∈ l) (hp : p t = true) (hq : q t = false) :
    (l.filter q).length < (l.filter p).length := by
  induction l with
  | nil => exact absurd ht (List.not_mem_nil t)
  | cons a l ih =>
    have hle : (l.filter q).length ≤ (l.filter p).length := by
      rw [← List.countP_eq_length_filter, ← List.countP_eq_length_filter]
      exact List.countP_mono_left (fun x _ hx => h x hx)
    by_cases hat : a = t
    · subst hat
      rw [List.filter_cons_of_pos hp, List.filter_cons_of_neg (by simp [hq])]
      exact Nat.lt_succ_of_le hle
    · have htl : t ∈ l := by
        rcases List.mem_cons.mp ht with h' | h'
        · exact absurd h'.symm hat
        · exact h'
      have := ih htl
      by_cases hqa : q a = true
      · rw [List.filter_cons_of_pos hqa, List.filter_cons_of_pos (h a hqa)]
        exact Nat.succ_lt_succ this
      · rw [List.filter_cons_of_neg hqa]
        by_cases hpa : p a = true
        · rw [List.filter_cons_of_pos hpa]
          exact Nat.lt_succ_of_lt this
        · rw [List.filter_cons_of_neg hpa]
          exact this

/-- With one iteration for every target that is not done, the relax loop
ends with an empty working tree and keeps the loop invariant. -/
theorem dijkstra_loop_inv (e : Env) (domain : Nat) (loc : Nat → Bool)
    (hmax : e.RFC7181_METRIC_MAX < e.RFC7181_METRIC_INFINITE)
    (hcl : e.tc.closed) (hov : NoOverflow e domain loc)
    (fuel : Nat) (s : RoutingCore) (hinv : LoopInv e domain loc s)
    (hfuel : undone e s ≤ fuel) :
    (dijkstra_loop e domain fuel s)._dijkstra_working_tree = []
    ∧ LoopInv e domain loc (dijkstra_loop e domain fuel s) := by
  induction fuel generalizing s with
  | zero =>
    unfold dijkstra_loop
    refine ⟨?_, hinv⟩
    cases hq : s._dijkstra_working_tree with
    | nil => rfl
    | cons t rest =>
      exfalso
      have htq : t ∈ s._dijkstra_working_tree := by rw [hq]; exact List.mem_cons_self t rest
      obtain ⟨htT, htd⟩ := hinv.1.queued t htq
      have hz : undone e s = 0 := Nat.le_zero.mp hfuel
      unfold undone at hz
      have hnil := List.length_eq_zero.mp hz
      have : t ∈ e.tc.targets.filter (fun t => !(s._dijkstra t).done) := by
        rw [List.mem_filter]; exact ⟨htT, by simp [htd]⟩
      rw [hnil] at this
      exact absurd this (List.not_mem_nil t)
  | succ fuel ih =>
    unfold dijkstra_loop
    cases hq : s._dijkstra_working_tree with
    | nil => simp [hq, hinv]
    | cons t rest =>
      simp only [if_neg (List.cons_ne_nil t rest)]
      obtain ⟨h1, htT, htd, htd', hmono⟩ :=
        handle_working_queue_inv e domain loc hmax hcl hov s t rest hq hinv
      apply ih _ h1
      have hlt : undone e (_handle_working_queue e domain s) < undone e s := by
        unfold undone
        apply filter_length_lt _ _ _ _ t htT
        · simp [htd]
        · simp [htd']
        · intro x hx
          simp only [Bool.not_eq_true', Bool.not_eq_eq_eq_not, Bool.not_true] at hx ⊢
          cases hxd : (s._dijkstra x).done with
          | false => rfl
          | true => rw [hmono x hxd] at hx; exact absurd hx (by simp)
      omega

/-- C1: after `_prepare_routes` and the relax loop of an SPF run, started
with an empty working tree on a closed topology and without 32-bit overflow
of path costs, the working tree is empty, every target marked done carries
the minimum cost over all paths from a seeded symmetric neighbor along usable
edges and attachments through non-local targets, and every target reachable
by such a path is marked done. -/
theorem dijkstra_computes_shortest_paths (e : Env) (domain : Nat) (s : RoutingCore)
    (hq : s._dijkstra_working_tree = [])
    (hcl : e.tc.closed)
    (hfam : ∀ n ∈ e.tc.tc_tree, netaddr_get_address_family (e.tc.addr n) ≠ AF_UNSPEC)
    (hmax : e.RFC7181_METRIC_MAX < e.RFC7181_METRIC_INFINITE)
    (hinf : e.RFC7181_METRIC_INFINITE ≤ 2 ^ 32)
    (hov : NoOverflow e domain (target_is_local e s)) :
    (dijkstra_loop e domain (e.tc.tc_tree.length + e.tc.endpoint_tree.length)
        (_prepare_routes e domain s))._dijkstra_working_tree = []
    ∧ (∀ t ∈ e.tc.targets,
        ((dijkstra_loop e domain (e.tc.tc_tree.length + e.tc.endpoint_tree.length)
          (_prepare_routes e domain s))._dijkstra t).done = true →
        MinCost e domain (target_is_local e s) t
          ((dijkstra_loop e domain (e.tc.tc_tree.length + e.tc.endpoint_tree.length)
            (_prepare_routes e domain s))._dijkstra t).path_cost)
    ∧ (∀ t c, Reach e domain (target_is_local e s) t c →
        t ∈ e.tc.targets ∧
        ((dijkstra_loop e domain (e.tc.tc_tree.length + e.tc.endpoint_tree.length)
          (_prepare_routes e domain s))._dijkstra t).done = true)
    ∧ (∀ t,
        ((dijkstra_loop e domain (e.tc.tc_tree.length + e.tc.endpoint_tree.length)
          (_prepare_routes e domain s))._dijkstra t).is_local = target_is_local e s t) := by
  obtain ⟨p1, p2, p3⟩ := prepare_reset e domain s
  have hI0 : WorkInv e domain (target_is_local e s)
      (e.tc.endpoint_tree.foldl (prepare_endpoint e)
        (e.tc.tc_tree.foldl (prepare_node e) (prepare_entries domain s)))._dijkstra
      (e.tc.endpoint_tree.foldl (prepare_endpoint e)
        (e.tc.tc_tree.foldl (prepare_node e) (prepare_entries domain s)))._dijkstra_working_tree := by
    rw [p1, hq]
    constructor
    · exact List.nodup_nil
    · exact List.Pairwise.nil
    · intro t ht; exact absurd ht (List.not_mem_nil t)
    · exact p3
    · intro t ht h
      rcases h with h | h
      · rw [p2 t ht] at h; exact absurd h (by simp)
      · exact absurd h (List.not_mem_nil t)
    · intro t ht h
      rw [p2 t ht] at h; exact absurd h (by simp)
    · intro t ht h
      rw [p2 t ht] at h; exact absurd h (by simp)
  obtain ⟨q1, q2, _, q4⟩ := foldl_prepare_neighbor_inv e domain (target_is_local e s)
    hmax hinf hfam e.nhdp_db (fun _ h => h) _ hI0 p2
  have hP : LoopInv e domain (target_is_local e s) (_prepare_routes e domain s) := by
    refine ⟨q1, q4, ?_⟩
    intro t ht hd
    have : ((_prepare_routes e domain s)._dijkstra t).done = false := q2 t ht
    rw [this] at hd; exact absurd hd (by simp)
  have hfuel : undone e (_prepare_routes e domain s)
      ≤ e.tc.tc_tree.length + e.tc.endpoint_tree.length := by
    unfold undone
    refine Nat.le_trans (List.length_filter_le _ _) ?_
    simp [Tc.targets]
  obtain ⟨r1, r2, r3, r4⟩ := dijkstra_loop_inv e domain (target_is_local e s) hmax hcl hov
    _ _ hP hfuel
  refine ⟨r1, ?_, ?_, r2.loc_eq⟩
  · intro t ht hd
    exact ⟨r2.reach t ht (Or.inl hd), r2.opt t ht hd⟩
  · intro t c hr
    rcases reach_lower_bound e domain (target_is_local e s) _ _ r3 r4 t c hr with
      ⟨hT, hd, _⟩ | ⟨y, hy, _⟩
    · exact ⟨hT, hd⟩
    · rw [r1] at hy; exact absurd hy (List.not_mem_nil y)

theorem scenario1_reach_neighbor :
    Reach scenario1_env 0 (target_is_local scenario1_env olsrv2_routing_init) 1 10 :=
  Reach.seed scenario1_neighbor 1 (List.mem_singleton.mpr rfl) (by decide) (by decide)
    (by decide) (by decide) (by decide)

theorem scenario1_no_overflow :
    NoOverflow scenario1_env 0 (target_is_local scenario1_env olsrv2_routing_init) := by
  intro t c hmin _
  refine ⟨?_, ?_⟩
  · intro ed hed _ _ _
    by_cases ht : t = 1
    · subst ht
      have hc : c ≤ 10 := hmin.2 10 scenario1_reach_neighbor
      have hed' : ed.cost 0 = 20 := by
        simp [scenario1_env, scenario1_tc] at hed
        rw [hed]
      rw [hed']
      omega
    · simp [scenario1_env, scenario1_tc, ht] at hed
  · intro a ha
    simp [scenario1_env, scenario1_tc] at ha

theorem scenario1_closed : scenario1_env.tc.closed := by
  intro t _
  refine ⟨?_, ?_⟩
  · intro ed hed
    by_cases ht : t = 1
    · subst ht
      simp [scenario1_env, scenario1_tc] at hed
      rw [hed]
      simp [scenario1_env, scenario1_tc, Tc.targets]
    · simp [scenario1_env, scenario1_tc, ht] at hed
  · intro a ha
    simp [scenario1_env, scenario1_tc] at ha

/-- Witness for C1: scenario S1 satisfies the hypotheses; its relax loop ends
with an empty working tree and node `3` done at the minimum cost 30. -/
theorem dijkstra_computes_shortest_paths_witness :
    (dijkstra_loop scenario1_env 0 3
        (_prepare_routes scenario1_env 0 olsrv2_routing_init))._dijkstra_working_tree = []
    ∧ MinCost scenario1_env 0 (target_is_local scenario1_env olsrv2_routing_init) 2 30 := by
  have h := dijkstra_computes_shortest_paths scenario1_env 0 olsrv2_routing_init rfl
    scenario1_closed (by decide) (by decide) (by decide) scenario1_no_overflow
  exact ⟨h.1, h.2.1 2 (by decide) (by decide)⟩

/-! ## The code at concrete inputs -/

/-- C2 (code at the failing input): in the detour topology the relax loop
offers cost 30 for neighbor `2` (through neighbor `3`), then the single-hop
pass offers cost 100 (direct link); the entry is not installed, and the later,
higher cost overwrites the earlier, cheaper one. -/
theorem later_higher_cost_overwrites :
    ((dijkstra_loop detour_env 0 3
        (_prepare_routes detour_env 0 olsrv2_routing_init)).entry 0 (ip4 2)).map
      (fun rt => (rt.cost, rt.state_current)) = some (30, false)
    ∧ ((_handle_nhdp_routes detour_env 0 (dijkstra_loop detour_env 0 3
        (_prepare_routes detour_env 0 olsrv2_routing_init))).entry 0 (ip4 2)).map
      (fun rt => rt.cost) = some 100 := by
  decide

/-- C3 (code at the failing input): in scenario S1, with both routes
installed, no operation in flight and nothing changed, a second SPF run
issues a remove and an add for each of the two entries. -/
theorem unchanged_run_reinstalls :
    scenario1_installed.os_pending = []
    ∧ scenario1_installed.os_calls.length = 2
    ∧ ((olsrv2_routing_force_update scenario1_env true scenario1_installed).os_calls.drop 2).map
        (fun op => (op.dst, op.set))
      = [(ip4 2, false), (ip4 2, true), (ip4 3, false), (ip4 3, true)] := by
  decide

/-- C5 (counterexample): after the second SPF run of scenario S1 the entry
for `2` has two kernel operations in flight, the remove of `route_current` and
the add of `route_new`, issued without a completion callback in between. -/
theorem two_operations_in_flight :
    ((olsrv2_routing_force_update scenario1_env true scenario1_installed).os_pending.filter
        (fun op => op.domain = 0 ∧ op.dst = ip4 2)).map (fun op => (op.sel, op.set))
      = [(RouteSel.route_current, false), (RouteSel.route_new, true)] := by
  decide

/-- C6 (code at the failing input): an attached address equal to the
local originator, and a two-hop address equal to the local originator, each
get a routing entry. -/
theorem self_route_is_created :
    attached_self_env.olsrv2_originator_is_local (ip4 1) = true
    ∧ twohop_self_env.olsrv2_originator_is_local (ip4 1) = true
    ∧ ((olsrv2_routing_force_update attached_self_env true olsrv2_routing_init).entry 0
        (ip4 1)).map (fun rt => (rt.state_new, rt.cost)) = some (true, 15)
    ∧ ((olsrv2_routing_force_update twohop_self_env true olsrv2_routing_init).entry 0
        (ip4 1)).map (fun rt => (rt.state_new, rt.cost)) = some (true, 15) := by
  decide

/-- C7 (counterexample): the first SPF run of scenario S1 leaves two adds in
flight; after a second run in which the neighbor is gone, both entries are
still in the table with `state_current = false` and `state_new = false`. -/
theorem dead_entry_survives_force_update :
    ((olsrv2_routing_force_update scenario1_env_lost true scenario1_run1)._routing_tree 0).map
        (fun rt => (rt.route_new.dst, rt.state_current, rt.state_new))
      = [(ip4 2, false, false), (ip4 3, false, false)] := by
  decide

/-- C8 (code at the failing input): the entry for `2` is installed with
cost 10; when the metric has risen to 20, `_update_routing_entry` is called for
it with path cost 20 and leaves `state_new` false; after the run the entry has
`state_new = false` and its route is removed from the kernel. -/
theorem installed_cheaper_entry_is_dropped :
    ((_prepare_routes scenario1_env_metric20 0 scenario1_installed).entry 0 (ip4 2)).map
        (fun rt => (rt.state_current, rt.cost)) = some (true, 10)
    ∧ ((_update_routing_entry scenario1_env_metric20 0 (ip4 2)
          (some scenario1_neighbor_metric20) 0 20 true
          (_prepare_routes scenario1_env_metric20 0 scenario1_installed)).entry 0 (ip4 2)).map
        (fun rt => rt.state_new) = some false
    ∧ ((olsrv2_routing_force_update scenario1_env_metric20 true scenario1_installed).entry 0
        (ip4 2)).map (fun rt => rt.state_new) = some false
    ∧ ((olsrv2_routing_force_update scenario1_env_metric20 true
          scenario1_installed).os_calls.drop 2).map (fun op => (op.dst, op.set))
      = [(ip4 3, false), (ip4 2, false)] := by
  decide

/-- C10 (counterexample): on an empty routing table a changed parameter
record is stored, but the rate-limit timer is not armed and the pending flag
is not set. -/
theorem set_parameter_on_empty_table :
    (⟨false, 3, 100, 2⟩ : RoutingDomain) ≠ olsrv2_routing_init._domain_parameter 0
    ∧ olsrv2_routing_init._routing_tree 0 = []
    ∧ (olsrv2_routing_set_domain_parameter scenario1_env 0 ⟨false, 3, 100, 2⟩
        olsrv2_routing_init)._domain_parameter 0 = ⟨false, 3, 100, 2⟩
    ∧ (olsrv2_routing_set_domain_parameter scenario1_env 0 ⟨false, 3, 100, 2⟩
        olsrv2_routing_init)._rate_limit_timer = none
    ∧ (olsrv2_routing_set_domain_parameter scenario1_env 0 ⟨false, 3, 100, 2⟩
        olsrv2_routing_init)._trigger_dijkstra = false := by
  decide

/-! ## Entry pointers -/

theorem find_map_key (l : List RoutingEntry) (k k' : Netaddr)
    (f : RoutingEntry → RoutingEntry) (hf : ∀ rt, (f rt).route_new.dst = rt.route_new.dst) :
    avl_find_element (l.map (fun rt => if rt.route_new.dst = k then f rt else rt)) k'
      = (avl_find_element l k').map (fun rt => if k' = k then f rt else rt) := by
  unfold avl_find_element
  induction l with
  | nil => rfl
  | cons a l ih =>
    rw [List.map_cons, List.find?_cons, List.find?_cons]
    by_cases hak : a.route_new.dst = k
    · by_cases hak' : a.route_new.dst = k'
      · have hkk : k' = k := hak' ▸ hak
        simp [hak, hak', hf, hkk]
      · have hkk : ¬ k = k' := fun h => hak' (hak.trans h)
        simp [hak, hkk, hf, ih]
    · by_cases hak' : a.route_new.dst = k'
      · have hkk : ¬ k' = k := fun h => hak (hak'.trans h)
        simp [hak, hak', hkk]
      · simp [hak, hak', ih]

theorem find_congr (l : List RoutingEntry) (p q : RoutingEntry → Bool)
    (h : ∀ x ∈ l, p x = q x) : l.find? p = l.find? q := by
  induction l with
  | nil => rfl
  | cons a l ih =>
    rw [List.find?_cons, List.find?_cons, h a (List.mem_cons_self a l),
      ih (fun x hx => h x (List.mem_cons_of_mem a hx))]

theorem entry_set_tree (s : RoutingCore) (d : Nat) (l : List RoutingEntry) (d' : Nat)
    (k' : Netaddr) :
    (s.set_tree d l).entry d' k'
      = if d' = d then avl_find_element l k' else s.entry d' k' := by
  unfold RoutingCore.entry RoutingCore.set_tree
  by_cases h : d' = d
  · subst h; simp
  · simp [h, Function.update_noteq h]

/-- Reading through an entry pointer after a write through an entry pointer. -/
theorem entry_modify_entry (s : RoutingCore) (d : Nat) (k : Netaddr)
    (f : RoutingEntry → RoutingEntry) (hf : ∀ rt, (f rt).route_new.dst = rt.route_new.dst)
    (d' : Nat) (k' : Netaddr) :
    (s.modify_entry d k f).entry d' k'
      = if d' = d ∧ k' = k then (s.entry d' k').map f else s.entry d' k' := by
  unfold RoutingCore.modify_entry
  rw [entry_set_tree]
  by_cases h : d' = d
  · subst h
    rw [if_pos rfl, find_map_key _ _ _ _ hf]
    unfold RoutingCore.entry
    by_cases hk : k' = k
    · simp [hk]
    · simp [hk]
  · simp [h]

/-- Reading through an entry pointer after `_remove_entry`. -/
theorem entry_remove_entry (s : RoutingCore) (d : Nat) (k : Netaddr) (d' : Nat) (k' : Netaddr) :
    (_remove_entry d k s).entry d' k'
      = if d' = d ∧ k' = k then none else s.entry d' k' := by
  unfold _remove_entry
  rw [entry_set_tree]
  by_cases h : d' = d
  · subst h
    unfold avl_remove avl_find_element RoutingCore.entry avl_find_element
    rw [List.find?_filter]
    by_cases hk : k' = k
    · subst hk
      simp only [and_self, if_true]
      rw [List.find?_eq_none]
      intro x _
      simp
    · simp only [if_pos rfl, hk, and_false, if_false]
      apply find_congr
      intro x _
      by_cases hx : x.route_new.dst = k'
      · have : x.route_new.dst ≠ k := fun h => hk (hx ▸ h)
        simp [hx, this, hk]
      · simp [hx]
  · simp [h]

theorem keys_modify_entry (s : RoutingCore) (d : Nat) (k : Netaddr)
    (f : RoutingEntry → RoutingEntry) (hf : ∀ rt, (f rt).route_new.dst = rt.route_new.dst)
    (d' : Nat) : (s.modify_entry d k f).keys d' = s.keys d' := by
  unfold RoutingCore.keys RoutingCore.modify_entry RoutingCore.set_tree
  by_cases h : d' = d
  · subst h
    simp only [Function.update_same, List.map_map]
    apply List.map_congr_left
    intro rt _
    simp only [Function.comp]
    split
    · exact hf rt
    · rfl
  · simp [Function.update_noteq h]

theorem Frame.frame_refl (s : RoutingCore) : Frame s s := ⟨rfl, rfl, rfl, rfl, rfl, rfl, rfl, rfl⟩

theorem Frame.frame_trans {a b c : RoutingCore} (h1 : Frame a b) (h2 : Frame b c) : Frame a c :=
  ⟨h2.1.trans h1.1, h2.2.trans h1.2, h2.3.trans h1.3, h2.4.trans h1.4, h2.5.trans h1.5,
    h2.6.trans h1.6, h2.7.trans h1.7, h2.8.trans h1.8⟩

theorem frame_modify_entry (s : RoutingCore) (d : Nat) (k : Netaddr)
    (f : RoutingEntry → RoutingEntry) : Frame s (s.modify_entry d k f) :=
  ⟨rfl, rfl, rfl, rfl, rfl, rfl, rfl, rfl⟩

theorem frame_remove_entry (s : RoutingCore) (d : Nat) (k : Netaddr) :
    Frame s (_remove_entry d k s) :=
  ⟨rfl, rfl, rfl, rfl, rfl, rfl, rfl, rfl⟩

/-! ## The drain of the kernel queue -/

theorem entry_congr {s s' : RoutingCore} (h : s'._routing_tree = s._routing_tree)
    (d : Nat) (k : Netaddr) : s'.entry d k = s.entry d k := by
  unfold RoutingCore.entry; rw [h]

theorem os_routing_set_spec (e : Env) (op : OsOp) (s : RoutingCore) :
    (os_routing_set e op s).1._routing_tree = s._routing_tree
    ∧ (os_routing_set e op s).1._kernel_queue = s._kernel_queue
    ∧ (os_routing_set e op s).1.os_calls = s.os_calls ++ [op]
    ∧ ((os_routing_set e op s).1.os_pending = s.os_pending
        ∨ (os_routing_set e op s).1.os_pending = s.os_pending ++ [op])
    ∧ Frame s (os_routing_set e op s).1 := by
  unfold os_routing_set
  split
  · exact ⟨rfl, rfl, rfl, Or.inl rfl, ⟨rfl, rfl, rfl, rfl, rfl, rfl, rfl, rfl⟩⟩
  · exact ⟨rfl, rfl, rfl, Or.inr rfl, ⟨rfl, rfl, rfl, rfl, rfl, rfl, rfl, rfl⟩⟩

/-- The effect of the body of the drain loop on one queued entry. -/
theorem process_kernel_entry_spec (e : Env) (s : RoutingCore) (ref : Nat × Netaddr) :
    (∀ d k, (process_kernel_entry e s ref).entry d k
        = if d = ref.1 ∧ k = ref.2 then
            (s.entry d k).map (fun rt => { rt with in_processing := true })
          else s.entry d k)
    ∧ (process_kernel_entry e s ref).os_calls = s.os_calls ++ ref_calls s ref
    ∧ (∃ l, l.Sublist (ref_calls s ref)
        ∧ (process_kernel_entry e s ref).os_pending = s.os_pending ++ l)
    ∧ (process_kernel_entry e s ref)._kernel_queue = s._kernel_queue
    ∧ Frame s (process_kernel_entry e s ref) := by
  unfold process_kernel_entry ref_calls
  cases hent : s.entry ref.1 ref.2 with
  | none =>
    refine ⟨?_, by simp, ⟨[], List.Sublist.refl _, by simp⟩, rfl, Frame.frame_refl s⟩
    intro d k
    by_cases h : d = ref.1 ∧ k = ref.2
    · rw [if_pos h, h.1, h.2, hent]; rfl
    · rw [if_neg h]
  | some rt =>
    simp only
    have hm := entry_modify_entry s ref.1 ref.2 (fun rt => { rt with in_processing := true })
      (fun _ => rfl)
    have hmq : (s.modify_entry ref.1 ref.2
        (fun rt => { rt with in_processing := true }))._kernel_queue = s._kernel_queue := rfl
    have hmc : (s.modify_entry ref.1 ref.2
        (fun rt => { rt with in_processing := true })).os_calls = s.os_calls := rfl
    have hmp : (s.modify_entry ref.1 ref.2
        (fun rt => { rt with in_processing := true })).os_pending = s.os_pending := rfl
    have hmf := frame_modify_entry s ref.1 ref.2 (fun rt => { rt with in_processing := true })
    generalize s.modify_entry ref.1 ref.2 (fun rt => { rt with in_processing := true }) = s1
      at hm hmq hmc hmp hmf
    unfold entry_calls
    by_cases hc : rt.state_current = true
    · obtain ⟨a1, a2, a3, a4, a5⟩ := os_routing_set_spec e
        ⟨ref.1, ref.2, RouteSel.route_current, rt.route_current, false⟩ s1
      by_cases hn : rt.state_new = true
      · obtain ⟨b1, b2, b3, b4, b5⟩ := os_routing_set_spec e
          ⟨ref.1, ref.2, RouteSel.route_new, rt.route_new, true⟩
          (os_routing_set e ⟨ref.1, ref.2, RouteSel.route_current, rt.route_current, false⟩ s1).1
        simp only [hc, hn, if_true]
        refine ⟨?_, ?_, ?_, ?_, ?_⟩
        · intro d k; rw [entry_congr b1, entry_congr a1, hm]
        · rw [b3, a3, hmc]; simp
        · rcases a4 with a4 | a4 <;> rcases b4 with b4 | b4
          · exact ⟨[], by simp, by rw [b4, a4, hmp]; simp⟩
          · exact ⟨[_], List.Sublist.cons _ (List.Sublist.refl _), by rw [b4, a4, hmp]⟩
          · exact ⟨[_], List.Sublist.cons₂ _ (List.nil_sublist _), by rw [b4, a4, hmp]⟩
          · exact ⟨[_, _], List.Sublist.refl _, by rw [b4, a4, hmp]; simp⟩
        · rw [b2, a2, hmq]
        · exact hmf.frame_trans (a5.frame_trans b5)
      · simp only [hc, hn, if_true, if_false, Bool.false_eq_true]
        refine ⟨?_, ?_, ?_, ?_, ?_⟩
        · intro d k; rw [entry_congr a1, hm]
        · rw [a3, hmc]; simp
        · rcases a4 with a4 | a4
          · exact ⟨[], by simp, by rw [a4, hmp]; simp⟩
          · exact ⟨_, List.Sublist.refl _, by simp [a4, hmp]⟩
        · rw [a2, hmq]
        · exact hmf.frame_trans a5
    · by_cases hn : rt.state_new = true
      · obtain ⟨b1, b2, b3, b4, b5⟩ := os_routing_set_spec e
          ⟨ref.1, ref.2, RouteSel.route_new, rt.route_new, true⟩ s1
        simp only [hc, hn, if_true, if_false, Bool.false_eq_true]
        refine ⟨?_, ?_, ?_, ?_, ?_⟩
        · intro d k; rw [entry_congr b1, hm]
        · rw [b3, hmc]; simp
        · rcases b4 with b4 | b4
          · exact ⟨[], by simp, by rw [b4, hmp]; simp⟩
          · exact ⟨_, List.Sublist.refl _, by simp [b4, hmp]⟩
        · rw [b2, hmq]
        · exact hmf.frame_trans b5
      · simp only [hc, hn, if_false, Bool.false_eq_true]
        refine ⟨?_, ?_, ?_, ?_, ?_⟩
        · intro d k; rw [hm]
        · rw [hmc]; simp
        · exact ⟨[], by simp, by rw [hmp]; simp⟩
        · exact hmq
        · exact hmf

theorem ref_calls_congr {s s' : RoutingCore} (ref : Nat × Netaddr)
    (h : s'.entry ref.1 ref.2
      = (s.entry ref.1 ref.2).map (fun rt => { rt with in_processing := true })
      ∨ s'.entry ref.1 ref.2 = s.entry ref.1 ref.2) :
    ref_calls s' ref = ref_calls s ref := by
  unfold ref_calls
  rcases h with h | h
  · rw [h]
    cases s.entry ref.1 ref.2 with
    | none => rfl
    | some rt => rfl
  · rw [h]

/-- The drain makes the calls of the queued entries in queue order, gives
back an empty queue and changes entries only in `in_processing`. -/
theorem process_kernel_list_spec (e : Env) (q : List (Nat × Netaddr)) (s : RoutingCore) :
    (process_kernel_list e q s).os_calls = s.os_calls ++ q.flatMap (ref_calls s)
    ∧ (∃ l, l.Sublist (q.flatMap (ref_calls s))
        ∧ (process_kernel_list e q s).os_pending = s.os_pending ++ l)
    ∧ (∀ d k, (process_kernel_list e q s).entry d k
        = if (d, k) ∈ q then (s.entry d k).map (fun rt => { rt with in_processing := true })
          else s.entry d k)
    ∧ (q ≠ [] → (process_kernel_list e q s)._kernel_queue = [])
    ∧ (q = [] → process_kernel_list e q s = s)
    ∧ Frame s (process_kernel_list e q s) := by
  induction q generalizing s with
  | nil =>
    unfold process_kernel_list
    refine ⟨by simp, ⟨[], by simp, by simp⟩, fun d k => by simp, fun h => absurd rfl h,
      fun _ => rfl, Frame.frame_refl s⟩
  | cons ref rest ih =>
    unfold process_kernel_list
    obtain ⟨a1, a2, ⟨la, a3, a3'⟩, a4, a5⟩ :=
      process_kernel_entry_spec e { s with _kernel_queue := rest } ref
    have hs : ∀ d k, ({ s with _kernel_queue := rest } : RoutingCore).entry d k = s.entry d k :=
      fun _ _ => rfl
    have hrc0 : ∀ r, ref_calls ({ s with _kernel_queue := rest } : RoutingCore) r
        = ref_calls s r := fun _ => rfl
    have hrc : ∀ r, ref_calls (process_kernel_entry e { s with _kernel_queue := rest } ref) r
        = ref_calls s r := by
      intro r
      rw [← hrc0 r]
      apply ref_calls_congr
      rw [a1 r.1 r.2]
      by_cases h : r.1 = ref.1 ∧ r.2 = ref.2
      · left; rw [if_pos h]
      · right; rw [if_neg h]
    obtain ⟨b1, ⟨lb, b2, b2'⟩, b3, b4, b5, b6⟩ :=
      ih (process_kernel_entry e { s with _kernel_queue := rest } ref)
    have hfm : rest.flatMap
        (ref_calls (process_kernel_entry e { s with _kernel_queue := rest } ref))
        = rest.flatMap (ref_calls s) := by
      congr 1; funext r; exact hrc r
    rw [hfm] at b1 b2
    rw [hrc0] at a2 a3
    refine ⟨?_, ?_, ?_, ?_, fun h => absurd h (List.cons_ne_nil _ _), ?_⟩
    · rw [b1, a2]; simp [List.flatMap_cons]
    · refine ⟨la ++ lb, ?_, ?_⟩
      · rw [List.flatMap_cons]; exact List.Sublist.append a3 b2
      · rw [b2', a3']; simp
    · intro d k
      rw [b3 d k, a1 d k, hs]
      have hiff : (d, k) = ref ↔ (d = ref.1 ∧ k = ref.2) := by
        constructor
        · intro h; rw [← h]; exact ⟨rfl, rfl⟩
        · intro h; exact Prod.ext h.1 h.2
      simp only [List.mem_cons, hiff]
      cases s.entry d k with
      | none =>
        by_cases hin : (d, k) ∈ rest <;> by_cases hr : d = ref.1 ∧ k = ref.2 <;> simp [hin, hr]
      | some rt =>
        by_cases hin : (d, k) ∈ rest <;> by_cases hr : d = ref.1 ∧ k = ref.2 <;> simp [hin, hr]
    · intro _
      cases rest with
      | nil => rw [b5 rfl, a4]
      | cons r rest' => exact b4 (List.cons_ne_nil _ _)
    · have f0 : Frame s ({ s with _kernel_queue := rest } : RoutingCore) :=
        ⟨rfl, rfl, rfl, rfl, rfl, rfl, rfl, rfl⟩
      exact f0.frame_trans (a5.frame_trans b6)

/-! ## Enqueueing on the kernel queue -/

/-- The effect of `_add_route_to_kernel_queue`: the entry goes to the head
or the tail of the queue, only `route_new.src_ip` of this entry can change. -/
theorem add_route_to_kernel_queue_spec (e : Env) (d : Nat) (k : Netaddr) (s : RoutingCore) :
    (∀ d' k', ¬(d' = d ∧ k' = k) →
        (_add_route_to_kernel_queue e d k s).entry d' k' = s.entry d' k')
    ∧ (∀ rt, s.entry d k = some rt →
        ∃ rt', (_add_route_to_kernel_queue e d k s).entry d k = some rt'
          ∧ rt'.state_new = rt.state_new ∧ rt'.state_current = rt.state_current
          ∧ rt'.route_current = rt.route_current ∧ rt'.route_new.gw = rt.route_new.gw
          ∧ rt'.in_processing = rt.in_processing
          ∧ (rt.state_new = false → rt' = rt)
          ∧ (_add_route_to_kernel_queue e d k s)._kernel_queue
              = if queued_at_head rt = true then (d, k) :: s._kernel_queue
                else s._kernel_queue ++ [(d, k)])
    ∧ (s.entry d k = none → _add_route_to_kernel_queue e d k s = s)
    ∧ (_add_route_to_kernel_queue e d k s).os_calls = s.os_calls
    ∧ (_add_route_to_kernel_queue e d k s).os_pending = s.os_pending
    ∧ (∀ d', (_add_route_to_kernel_queue e d k s).keys d' = s.keys d')
    ∧ Frame s (_add_route_to_kernel_queue e d k s) := by
  unfold _add_route_to_kernel_queue
  cases hent : s.entry d k with
  | none =>
    exact ⟨fun _ _ _ => rfl, fun rt h => by simp at h, fun _ => rfl, rfl, rfl, fun _ => rfl,
      Frame.frame_refl s⟩
  | some rt =>
    simp only
    have hm := entry_modify_entry s d k (fun rt =>
      { rt with route_new := { rt.route_new with src_ip := e.olsrv2_originator_get AF_INET } })
      (fun _ => rfl)
    have hk := keys_modify_entry s d k (fun rt =>
      { rt with route_new := { rt.route_new with src_ip := e.olsrv2_originator_get AF_INET } })
      (fun _ => rfl)
    by_cases hn : rt.state_new = true
    · rw [if_pos hn]
      -- the state after the optional write of `src_ip`
      have h1 : ∃ s1 : RoutingCore,
          (if (s._domain_parameter rt.domain).use_srcip_in_routes = true
              ∧ netaddr_get_address_family rt.route_new.dst = AF_INET then
            s.modify_entry d k (fun rt =>
              { rt with route_new :=
                  { rt.route_new with src_ip := e.olsrv2_originator_get AF_INET } })
          else s) = s1
          ∧ (∀ d' k', ¬(d' = d ∧ k' = k) → s1.entry d' k' = s.entry d' k')
          ∧ (∃ rt', s1.entry d k = some rt'
              ∧ rt'.state_new = rt.state_new ∧ rt'.state_current = rt.state_current
              ∧ rt'.route_current = rt.route_current ∧ rt'.route_new.gw = rt.route_new.gw
              ∧ rt'.in_processing = rt.in_processing)
          ∧ s1._kernel_queue = s._kernel_queue ∧ s1.os_calls = s.os_calls
          ∧ s1.os_pending = s.os_pending ∧ (∀ d', s1.keys d' = s.keys d') ∧ Frame s s1 := by
        split
        · refine ⟨_, rfl, ?_, ?_, rfl, rfl, rfl, hk, frame_modify_entry _ _ _ _⟩
          · intro d' k' h; rw [hm, if_neg h]
          · refine ⟨{ rt with route_new :=
                { rt.route_new with src_ip := e.olsrv2_originator_get AF_INET } },
              ?_, rfl, rfl, rfl, rfl, rfl⟩
            rw [hm, if_pos ⟨rfl, rfl⟩, hent]; rfl
        · exact ⟨s, rfl, fun _ _ _ => rfl, ⟨rt, hent, rfl, rfl, rfl, rfl, rfl⟩, rfl, rfl, rfl,
            fun _ => rfl, Frame.frame_refl s⟩
      obtain ⟨s1, hs1, a1, ⟨rt', a2, a3, a4, a5, a6, a7⟩, a8, a9, a10, a11, a12⟩ := h1
      rw [hs1]
      have hhead : queued_at_head rt = decide (netaddr_get_address_family rt.route_new.gw
          = AF_UNSPEC) := by
        unfold queued_at_head; rw [if_pos hn]
      by_cases hg : netaddr_get_address_family rt.route_new.gw = AF_UNSPEC
      · rw [if_pos hg]
        refine ⟨fun d' k' h => a1 d' k' h, ?_, fun h => by simp at h, a9, a10, a11,
          ⟨a12.1, a12.2, a12.3, a12.4, a12.5, a12.6, a12.7, a12.8⟩⟩
        intro rt0 h0
        have : rt0 = rt := by simpa using h0.symm
        subst this
        refine ⟨rt', a2, a3, a4, a5, a6, a7, fun h => by rw [hn] at h; simp at h, ?_⟩
        rw [hhead]; simp [hg, a8]
      · rw [if_neg hg]
        refine ⟨fun d' k' h => a1 d' k' h, ?_, fun h => by simp at h, a9, a10, a11,
          ⟨a12.1, a12.2, a12.3, a12.4, a12.5, a12.6, a12.7, a12.8⟩⟩
        intro rt0 h0
        have : rt0 = rt := by simpa using h0.symm
        subst this
        refine ⟨rt', a2, a3, a4, a5, a6, a7, fun h => by rw [hn] at h; simp at h, ?_⟩
        rw [hhead]; simp [hg, a8]
    · have hn' : rt.state_new = false := by simpa using hn
      rw [if_neg hn]
      have hhead : queued_at_head rt = decide (netaddr_get_address_family rt.route_current.gw
          ≠ AF_UNSPEC) := by
        unfold queued_at_head; rw [if_neg hn]
      by_cases hg : netaddr_get_address_family rt.route_current.gw = AF_UNSPEC
      · rw [if_pos hg]
        refine ⟨fun _ _ _ => rfl, ?_, fun h => by simp at h, rfl, rfl, fun _ => rfl,
          ⟨rfl, rfl, rfl, rfl, rfl, rfl, rfl, rfl⟩⟩
        intro rt0 h0
        have : rt0 = rt := by simpa using h0.symm
        subst this
        refine ⟨rt0, hent, rfl, rfl, rfl, rfl, rfl, fun _ => rfl, ?_⟩
        rw [hhead]; simp [hg]
      · rw [if_neg hg]
        refine ⟨fun _ _ _ => rfl, ?_, fun h => by simp at h, rfl, rfl, fun _ => rfl,
          ⟨rfl, rfl, rfl, rfl, rfl, rfl, rfl, rfl⟩⟩
        intro rt0 h0
        have : rt0 = rt := by simpa using h0.symm
        subst this
        refine ⟨rt0, hent, rfl, rfl, rfl, rfl, rfl, fun _ => rfl, ?_⟩
        rw [hhead]; simp [hg]

theorem enqueue_all_queue (e : Env) (refs : List (Nat × Netaddr)) (hnd : refs.Nodup)
    (s : RoutingCore) :
    (enqueue_all e refs s)._kernel_queue
      = (refs.filter (ref_at_head s)).reverse ++ s._kernel_queue ++ refs.filter (ref_at_tail s)
    ∧ (enqueue_all e refs s).os_calls = s.os_calls
    ∧ (enqueue_all e refs s).os_pending = s.os_pending := by
  induction refs generalizing s with
  | nil => simp [enqueue_all]
  | cons a rest ih =>
    rw [List.nodup_cons] at hnd
    obtain ⟨a1, a2, a3, a4, a5, _, _⟩ := add_route_to_kernel_queue_spec e a.1 a.2 s
    obtain ⟨b1, b2, b3⟩ := ih hnd.2 (_add_route_to_kernel_queue e a.1 a.2 s)
    have hother : ∀ r ∈ rest,
        (_add_route_to_kernel_queue e a.1 a.2 s).entry r.1 r.2 = s.entry r.1 r.2 := by
      intro r hr
      apply a1
      intro h
      have : r = a := Prod.ext h.1 h.2
      rw [this] at hr
      exact hnd.1 hr
    have hh : rest.filter (ref_at_head (_add_route_to_kernel_queue e a.1 a.2 s))
        = rest.filter (ref_at_head s) := by
      apply List.filter_congr
      intro r hr
      unfold ref_at_head; rw [hother r hr]
    have ht : rest.filter (ref_at_tail (_add_route_to_kernel_queue e a.1 a.2 s))
        = rest.filter (ref_at_tail s) := by
      apply List.filter_congr
      intro r hr
      unfold ref_at_tail; rw [hother r hr]
    have hfold : enqueue_all e (a :: rest) s
        = enqueue_all e rest (_add_route_to_kernel_queue e a.1 a.2 s) := rfl
    rw [hfold, b1, b2, b3, hh, ht]
    refine ⟨?_, a4, a5⟩
    cases hent : s.entry a.1 a.2 with
    | none =>
      rw [a3 hent]
      have h1 : ref_at_head s a = false := by unfold ref_at_head; rw [hent]
      have h2 : ref_at_tail s a = false := by unfold ref_at_tail; rw [hent]
      rw [List.filter_cons_of_neg (by simp [h1]), List.filter_cons_of_neg (by simp [h2])]
    | some rt =>
      obtain ⟨rt', _, _, _, _, _, _, _, hq⟩ := a2 rt hent
      rw [hq]
      by_cases hhd : queued_at_head rt = true
      · have h1 : ref_at_head s a = true := by unfold ref_at_head; rw [hent]; exact hhd
        have h2 : ref_at_tail s a = false := by unfold ref_at_tail; rw [hent]; simp [hhd]
        rw [if_pos hhd, List.filter_cons_of_pos h1, List.filter_cons_of_neg (by simp [h2])]
        simp
      · have h1 : ref_at_head s a = false := by
          unfold ref_at_head; rw [hent]; simpa using hhd
        have h2 : ref_at_tail s a = true := by unfold ref_at_tail; rw [hent]; simpa using hhd
        rw [if_neg hhd, List.filter_cons_of_neg (by simp [h1]), List.filter_cons_of_pos h2]
        simp

theorem flatMap_split {α β : Type} (f : α → List β) (l1 l2 l3 : List α) (a b : α) :
    (l1 ++ a :: l2 ++ b :: l3).flatMap f
      = l1.flatMap f ++ f a ++ l2.flatMap f ++ f b ++ l3.flatMap f := by
  simp [List.flatMap_append, List.flatMap_cons]

/-- The drain leaves the kernel queue empty. -/
theorem process_kernel_queue_empty (e : Env) (s : RoutingCore) :
    (_process_kernel_queue e s)._kernel_queue = [] := by
  obtain ⟨_, _, _, d4, d5, _⟩ := process_kernel_list_spec e s._kernel_queue s
  unfold _process_kernel_queue
  by_cases h : s._kernel_queue = []
  · rw [d5 h]; exact h
  · exact d4 h

/-- C4: after a sequence of enqueues of distinct entries onto an empty
kernel queue, every single-hop insert stands before every multi-hop insert
and every multi-hop remove before every single-hop remove; the drain makes the
kernel calls of the entries in this order and leaves the queue empty. -/
theorem kernel_queue_dispatch_order (e : Env) (s : RoutingCore) (refs : List (Nat × Netaddr))
    (hq : s._kernel_queue = []) (hnd : refs.Nodup) :
    (∀ a b rta rtb, a ∈ refs → b ∈ refs →
      s.entry a.1 a.2 = some rta → s.entry b.1 b.2 = some rtb →
      ((single_hop_insert rta ∧ multi_hop_insert rtb)
        ∨ (multi_hop_remove rta ∧ single_hop_remove rtb)) →
      (∃ l1 l2 l3, (enqueue_all e refs s)._kernel_queue = l1 ++ a :: l2 ++ b :: l3)
      ∧ (∃ c1 c2 c3, (_process_kernel_queue e (enqueue_all e refs s)).os_calls
          = (enqueue_all e refs s).os_calls ++ c1 ++ ref_calls (enqueue_all e refs s) a
            ++ c2 ++ ref_calls (enqueue_all e refs s) b ++ c3))
    ∧ (_process_kernel_queue e (enqueue_all e refs s)).os_calls
        = (enqueue_all e refs s).os_calls
          ++ (enqueue_all e refs s)._kernel_queue.flatMap (ref_calls (enqueue_all e refs s))
    ∧ (_process_kernel_queue e (enqueue_all e refs s))._kernel_queue = [] := by
  obtain ⟨hqueue, _, _⟩ := enqueue_all_queue e refs hnd s
  rw [hq, List.append_nil] at hqueue
  obtain ⟨d1, _, _, _, _, _⟩ := process_kernel_list_spec e
    (enqueue_all e refs s)._kernel_queue (enqueue_all e refs s)
  have hdrain : (_process_kernel_queue e (enqueue_all e refs s)).os_calls
      = (enqueue_all e refs s).os_calls
        ++ (enqueue_all e refs s)._kernel_queue.flatMap (ref_calls (enqueue_all e refs s)) := d1
  refine ⟨?_, hdrain, ?_⟩
  · intro a b rta rtb ha hb hea heb hcls
    have hah : ref_at_head s a = true := by
      unfold ref_at_head queued_at_head; rw [hea]
      rcases hcls with ⟨h, _⟩ | ⟨h, _⟩
      · simp [h.1, h.2]
      · simp [h.1, h.2]
    have hbt : ref_at_tail s b = true := by
      unfold ref_at_tail queued_at_head; rw [heb]
      rcases hcls with ⟨_, h⟩ | ⟨_, h⟩
      · simp [h.1, h.2]
      · simp [h.1, h.2]
    have ha' : a ∈ (refs.filter (ref_at_head s)).reverse :=
      List.mem_reverse.mpr (List.mem_filter.mpr ⟨ha, hah⟩)
    have hb' : b ∈ refs.filter (ref_at_tail s) := List.mem_filter.mpr ⟨hb, hbt⟩
    obtain ⟨x1, x2, hx⟩ := List.append_of_mem ha'
    obtain ⟨y1, y2, hy⟩ := List.append_of_mem hb'
    have hdec : (enqueue_all e refs s)._kernel_queue = x1 ++ a :: (x2 ++ y1) ++ b :: y2 := by
      rw [hqueue, hx, hy]; simp
    refine ⟨⟨x1, x2 ++ y1, y2, hdec⟩, ?_⟩
    refine ⟨x1.flatMap (ref_calls (enqueue_all e refs s)),
      (x2 ++ y1).flatMap (ref_calls (enqueue_all e refs s)),
      y2.flatMap (ref_calls (enqueue_all e refs s)), ?_⟩
    rw [hdrain, hdec, flatMap_split]
    simp [List.append_assoc]
  · exact process_kernel_queue_empty e _

/-- Witness for C4: in scenario S1 the multi-hop insert for `3` is enqueued
first and the single-hop insert for `2` second; the calls for `2` are made
before the calls for `3`. -/
theorem kernel_queue_dispatch_order_witness :
    (∃ l1 l2 l3, (enqueue_all scenario1_env [(0, ip4 3), (0, ip4 2)]
        scenario1_spf)._kernel_queue = l1 ++ (0, ip4 2) :: l2 ++ (0, ip4 3) :: l3)
    ∧ (_process_kernel_queue scenario1_env (enqueue_all scenario1_env
        [(0, ip4 3), (0, ip4 2)] scenario1_spf))._kernel_queue = [] := by
  have h := kernel_queue_dispatch_order scenario1_env scenario1_spf [(0, ip4 3), (0, ip4 2)]
    (by decide) (by decide)
  refine ⟨?_, h.2.2⟩
  have h1 := h.1 (0, ip4 2) (0, ip4 3)
    ((scenario1_spf.entry 0 (ip4 2)).get (by decide))
    ((scenario1_spf.entry 0 (ip4 3)).get (by decide))
    (by decide) (by decide) (by simp) (by simp)
    (Or.inl ⟨⟨by decide, by decide⟩, ⟨by decide, by decide⟩⟩)
  exact h1.1

/-! ## Operations in flight after a drain -/

theorem ref_calls_filter (s : RoutingCore) (r : Nat × Netaddr) (d : Nat) (k : Netaddr)
    (sel : RouteSel) :
    ((ref_calls s r).filter
        (fun op => decide (op.domain = d ∧ op.dst = k ∧ op.sel = sel))).length
      ≤ if r = (d, k) then 1 else 0 := by
  unfold ref_calls
  cases s.entry r.1 r.2 with
  | none => simp
  | some rt =>
    unfold entry_calls
    by_cases hr : r = (d, k)
    · subst hr
      cases sel <;> by_cases hc : rt.state_current = true <;> by_cases hn : rt.state_new = true
        <;> simp [hc, hn, List.filter_cons]
    · have hf : ∀ sel', ¬ (r.1 = d ∧ r.2 = k ∧ sel' = sel) :=
        fun _ h => hr (Prod.ext h.1 h.2.1)
      by_cases hc : rt.state_current = true <;> by_cases hn : rt.state_new = true
        <;> simp [hc, hn, hr, hf, List.filter_cons]

theorem flatMap_ref_calls_filter (s : RoutingCore) (q : List (Nat × Netaddr)) (d : Nat)
    (k : Netaddr) (sel : RouteSel) :
    ((q.flatMap (ref_calls s)).filter
        (fun op => decide (op.domain = d ∧ op.dst = k ∧ op.sel = sel))).length
      ≤ (q.filter (fun r => decide (r = (d, k)))).length := by
  induction q with
  | nil => simp
  | cons r rest ih =>
    rw [List.flatMap_cons, List.filter_append, List.length_append]
    have h := ref_calls_filter s r d k sel
    by_cases hr : r = (d, k)
    · rw [if_pos hr] at h
      rw [List.filter_cons_of_pos (by simp [hr]), List.length_cons]; omega
    · rw [if_neg hr] at h
      rw [List.filter_cons_of_neg (by simp [hr])]; omega

theorem nodup_filter_eq_length {α : Type} [DecidableEq α] (q : List α) (hnd : q.Nodup) (a : α) :
    (q.filter (fun r => decide (r = a))).length ≤ 1 := by
  induction q with
  | nil => simp
  | cons r rest ih =>
    rw [List.nodup_cons] at hnd
    by_cases hr : r = a
    · subst hr
      rw [List.filter_cons_of_pos (by simp)]
      have : rest.filter (fun x => decide (x = r)) = [] := by
        rw [List.filter_eq_nil_iff]
        intro x hx
        simp only [decide_eq_true_eq]
        intro h; subst h; exact hnd.1 hx
      rw [this]; simp
    · rw [List.filter_cons_of_neg (by simp [hr])]
      exact ih hnd.2

/-- C5 (amended): a drain that starts with no operation in flight and a
queue of distinct entries leaves, for every entry, at most one operation in
flight on `route_current` (a remove) and at most one on `route_new` (an add);
for an entry that is replaced (`state_current` and `state_new`), the add of
`route_new` is issued directly after the remove of `route_current`, as the
next `os_routing_set` call, without waiting for the completion of the remove. -/
theorem drain_issues_remove_then_add (e : Env) (s : RoutingCore)
    (hp : s.os_pending = []) (hnd : s._kernel_queue.Nodup) :
    (∀ d k sel, ((_process_kernel_queue e s).os_pending.filter
        (fun op => decide (op.domain = d ∧ op.dst = k ∧ op.sel = sel))).length ≤ 1)
    ∧ (∀ op ∈ (_process_kernel_queue e s).os_pending,
        (op.sel = RouteSel.route_current ∧ op.set = false)
        ∨ (op.sel = RouteSel.route_new ∧ op.set = true))
    ∧ (∀ d k rt, (d, k) ∈ s._kernel_queue → s.entry d k = some rt →
        rt.state_current = true → rt.state_new = true →
        ∃ c1 c2, (_process_kernel_queue e s).os_calls
          = c1 ++ [⟨d, k, RouteSel.route_current, rt.route_current, false⟩,
                   ⟨d, k, RouteSel.route_new, rt.route_new, true⟩] ++ c2) := by
  obtain ⟨d1, ⟨l, d2, d3⟩, _⟩ := process_kernel_list_spec e s._kernel_queue s
  have hpend : (_process_kernel_queue e s).os_pending = l := by
    show (process_kernel_list e s._kernel_queue s).os_pending = l
    rw [d3, hp]; rfl
  refine ⟨?_, ?_, ?_⟩
  · intro d k sel
    rw [hpend]
    refine Nat.le_trans (List.Sublist.length_le (List.Sublist.filter _ d2)) ?_
    refine Nat.le_trans (flatMap_ref_calls_filter s s._kernel_queue d k sel) ?_
    exact nodup_filter_eq_length _ hnd (d, k)
  · intro op hop
    rw [hpend] at hop
    obtain ⟨ref, _, hop'⟩ := List.mem_flatMap.mp (d2.subset hop)
    unfold ref_calls at hop'
    cases hent : s.entry ref.1 ref.2 with
    | none => rw [hent] at hop'; exact absurd hop' (List.not_mem_nil op)
    | some rt =>
      rw [hent] at hop'
      unfold entry_calls at hop'
      rcases List.mem_append.mp hop' with h | h
      · left
        split at h
        · rw [List.mem_singleton.mp h]; exact ⟨rfl, rfl⟩
        · exact absurd h (List.not_mem_nil op)
      · right
        split at h
        · rw [List.mem_singleton.mp h]; exact ⟨rfl, rfl⟩
        · exact absurd h (List.not_mem_nil op)
  · intro d k rt hmem hent hc hn
    obtain ⟨q1, q2, hq⟩ := List.append_of_mem hmem
    have hcalls : ref_calls s (d, k)
        = [⟨d, k, RouteSel.route_current, rt.route_current, false⟩,
           ⟨d, k, RouteSel.route_new, rt.route_new, true⟩] := by
      unfold ref_calls; rw [hent]; unfold entry_calls; simp [hc, hn]
    refine ⟨s.os_calls ++ q1.flatMap (ref_calls s), q2.flatMap (ref_calls s), ?_⟩
    show (process_kernel_list e s._kernel_queue s).os_calls = _
    rw [d1, hq, List.flatMap_append, List.flatMap_cons, hcalls]
    simp [List.append_assoc]

/-- Witness for C5 (amended): the second SPF run of scenario S1, stopped
before its drain, has both installed entries queued and nothing in flight;
after the drain, entry `2` has one add in flight, issued right after its
remove. -/
theorem drain_issues_remove_then_add_witness :
    ((_process_kernel_queue scenario1_env
        (spf_domain scenario1_env scenario1_installed 0)).os_pending.filter
        (fun op => decide (op.domain = 0 ∧ op.dst = ip4 2 ∧ op.sel = RouteSel.route_new))).length
      ≤ 1
    ∧ ∃ rt c1 c2, (spf_domain scenario1_env scenario1_installed 0).entry 0 (ip4 2) = some rt
        ∧ (_process_kernel_queue scenario1_env
            (spf_domain scenario1_env scenario1_installed 0)).os_calls
          = c1 ++ [⟨0, ip4 2, RouteSel.route_current, rt.route_current, false⟩,
                   ⟨0, ip4 2, RouteSel.route_new, rt.route_new, true⟩] ++ c2 := by
  have h := drain_issues_remove_then_add scenario1_env
    (spf_domain scenario1_env scenario1_installed 0) (by decide) (by decide)
  refine ⟨h.1 0 (ip4 2) RouteSel.route_new, ?_⟩
  obtain ⟨c1, c2, hc⟩ := h.2.2 0 (ip4 2)
    (((spf_domain scenario1_env scenario1_installed 0).entry 0 (ip4 2)).get (by decide))
    (by decide) (by simp) (by decide) (by decide)
  exact ⟨_, c1, c2, by simp, hc⟩

/-! ## Completion callbacks and dead entries -/

/-- C7 (amended): the completion callbacks destroy dead entries. After the
remove callback with error 0 or `ESRCH`, and after the add callback with any
error code, the entry the callback was delivered for is either gone from its
table or has `state_current` or `state_new` set. -/
theorem callbacks_leave_no_dead_entry (d : Nat) (k : Netaddr) (s : RoutingCore) :
    (∀ error rt, (error = 0 ∨ error = ESRCH) →
        (_cb_route_current_finished d k error s).entry d k = some rt →
        rt.state_current = true ∨ rt.state_new = true)
    ∧ (∀ error rt, (_cb_route_new_finished d k error s).entry d k = some rt →
        rt.state_current = true ∨ rt.state_new = true) := by
  refine ⟨?_, ?_⟩
  · intro error rt herr h
    unfold _cb_route_current_finished at h
    cases hent : s.entry d k with
    | none => rw [hent] at h; simp only at h; rw [hent] at h; exact absurd h (by simp)
    | some rt0 =>
      rw [hent] at h
      simp only at h
      have hcond : ¬ (error ≠ ESRCH ∧ error ≠ 0) := by
        rcases herr with h0 | h0
        · exact fun hh => hh.2 h0
        · exact fun hh => hh.1 h0
      rw [if_neg hcond] at h
      by_cases hn : rt0.state_new = true
      · rw [if_pos hn, entry_modify_entry, if_pos ⟨rfl, rfl⟩,
          entry_modify_entry, if_pos ⟨rfl, rfl⟩, hent] at h
        · simp only [Option.map_some', Option.some.injEq] at h
          right; rw [← h]; exact hn
        · intro _; rfl
        · intro _; rfl
      · rw [if_neg hn, entry_remove_entry, if_pos ⟨rfl, rfl⟩] at h
        exact absurd h (by simp)
  · intro error rt h
    unfold _cb_route_new_finished at h
    cases hent : s.entry d k with
    | none => rw [hent] at h; simp only at h; rw [hent] at h; exact absurd h (by simp)
    | some rt0 =>
      rw [hent] at h
      simp only at h
      by_cases herr : error ≠ 0
      · rw [if_pos herr] at h
        by_cases hc : rt0.state_current = false
        · rw [if_pos hc, entry_remove_entry, if_pos ⟨rfl, rfl⟩] at h
          exact absurd h (by simp)
        · rw [if_neg hc, entry_modify_entry, if_pos ⟨rfl, rfl⟩, hent] at h
          · simp only [Option.map_some', Option.some.injEq] at h
            left; rw [← h]; simpa using hc
          · intro _; rfl
      · rw [if_neg herr, entry_modify_entry, if_pos ⟨rfl, rfl⟩,
          entry_modify_entry, if_pos ⟨rfl, rfl⟩, hent] at h
        · simp only [Option.map_some', Option.some.injEq] at h
          left; rw [← h]
        · intro _; rfl
        · intro _; rfl

/-- Witness for C7 (amended): in scenario S1 a failed add destroys the
not yet installed entry for `2`, a successful add leaves it installed. -/
theorem callbacks_leave_no_dead_entry_witness :
    (_cb_route_new_finished 0 (ip4 2) 5 scenario1_run1).entry 0 (ip4 2) = none
    ∧ ((_cb_route_new_finished 0 (ip4 2) 0 scenario1_run1).entry 0 (ip4 2)).map
        (fun rt => rt.state_current) = some true
    ∧ ∀ rt, (_cb_route_new_finished 0 (ip4 2) 0 scenario1_run1).entry 0 (ip4 2) = some rt →
        rt.state_current = true ∨ rt.state_new = true :=
  ⟨by decide, by decide,
    fun rt h => (callbacks_leave_no_dead_entry 0 (ip4 2) scenario1_run1).2 0 rt h⟩

/-! ## Interrupts and callbacks on an installed entry -/

theorem OnlyEntry.only_refl (d : Nat) (k : Netaddr) (s : RoutingCore) : OnlyEntry d k s s :=
  ⟨Frame.frame_refl s, rfl, rfl, fun _ _ _ => rfl⟩

theorem OnlyEntry.only_trans {d : Nat} {k : Netaddr} {a b c : RoutingCore}
    (h1 : OnlyEntry d k a b) (h2 : OnlyEntry d k b c) : OnlyEntry d k a c :=
  ⟨h1.frame.frame_trans h2.frame, h2.os_calls.trans h1.os_calls,
    h2.kernel_queue.trans h1.kernel_queue,
    fun d' k' h => (h2.others d' k' h).trans (h1.others d' k' h)⟩

theorem onlyEntry_modify_entry (s : RoutingCore) (d : Nat) (k : Netaddr)
    (f : RoutingEntry → RoutingEntry) (hf : ∀ rt, (f rt).route_new.dst = rt.route_new.dst) :
    OnlyEntry d k s (s.modify_entry d k f) :=
  ⟨frame_modify_entry s d k f, rfl, rfl,
    fun d' k' h => by rw [entry_modify_entry s d k f hf, if_neg h]⟩

theorem onlyEntry_remove_entry (s : RoutingCore) (d : Nat) (k : Netaddr) :
    OnlyEntry d k s (_remove_entry d k s) :=
  ⟨frame_remove_entry s d k, rfl, rfl, fun d' k' h => by rw [entry_remove_entry, if_neg h]⟩

theorem onlyEntry_os_cancel (s : RoutingCore) (d : Nat) (k : Netaddr) (sel : RouteSel) :
    OnlyEntry d k s (os_cancel s d k sel) :=
  ⟨⟨rfl, rfl, rfl, rfl, rfl, rfl, rfl, rfl⟩, rfl, rfl, fun _ _ _ => rfl⟩

theorem same_but_in_processing.sbp_trans {a b c : RoutingEntry}
    (h1 : same_but_in_processing a b) (h2 : same_but_in_processing b c) :
    same_but_in_processing a c := by
  unfold same_but_in_processing at *
  rcases h1 with h1 | h1 <;> rcases h2 with h2 | h2 <;> subst h1 <;> subst h2 <;> simp

/-- The add callback changes only its entry; an installed entry survives an
error with `in_processing` cleared. -/
theorem cb_route_new_finished_spec (d : Nat) (k : Netaddr) (error : Int) (s : RoutingCore) :
    OnlyEntry d k s (_cb_route_new_finished d k error s)
    ∧ (∀ rt, s.entry d k = some rt → rt.state_current = true → error ≠ 0 →
        (_cb_route_new_finished d k error s).entry d k
          = some { rt with in_processing := false }) := by
  unfold _cb_route_new_finished
  cases hent : s.entry d k with
  | none => exact ⟨OnlyEntry.only_refl d k s, fun rt h => by simp at h⟩
  | some rt0 =>
    simp only
    have hm := onlyEntry_modify_entry s d k (fun rt => { rt with in_processing := false })
      (fun _ => rfl)
    have he : (s.modify_entry d k (fun rt => { rt with in_processing := false })).entry d k
        = some { rt0 with in_processing := false } := by
      rw [entry_modify_entry, if_pos ⟨rfl, rfl⟩, hent]
      · rfl
      · intro _; rfl
    by_cases herr : error ≠ 0
    · rw [if_pos herr]
      by_cases hc : rt0.state_current = false
      · rw [if_pos hc]
        refine ⟨hm.only_trans (onlyEntry_remove_entry _ d k), ?_⟩
        intro rt h hcur
        have : rt = rt0 := by simpa using h.symm
        subst this
        rw [hc] at hcur; exact absurd hcur (by simp)
      · rw [if_neg hc]
        refine ⟨hm, ?_⟩
        intro rt h _ _
        have : rt = rt0 := by simpa using h.symm
        subst this
        exact he
    · rw [if_neg herr]
      refine ⟨hm.only_trans (onlyEntry_modify_entry _ d k _ (fun _ => rfl)), ?_⟩
      intro rt _ _ h; exact absurd h herr

/-- Interrupting `route_new` changes only its entry; an installed entry
survives, at most with `in_processing` cleared. -/
theorem os_routing_interrupt_new_spec (d : Nat) (k : Netaddr) (s : RoutingCore) :
    OnlyEntry d k s (os_routing_interrupt_new d k s)
    ∧ (∀ rt, s.entry d k = some rt → rt.state_current = true →
        ∃ rt', (os_routing_interrupt_new d k s).entry d k = some rt'
          ∧ same_but_in_processing rt rt') := by
  unfold os_routing_interrupt_new
  by_cases hp : os_is_pending s d k RouteSel.route_new = true
  · rw [if_pos hp]
    have hc := onlyEntry_os_cancel s d k RouteSel.route_new
    have hce : (os_cancel s d k RouteSel.route_new).entry d k = s.entry d k := rfl
    simp only
    cases hent : (os_cancel s d k RouteSel.route_new).entry d k with
    | none =>
      refine ⟨hc, ?_⟩
      intro rt h; rw [← hce, hent] at h; exact absurd h (by simp)
    | some rt0 =>
      simp only
      have hrt0 : s.entry d k = some rt0 := by rw [← hce]; exact hent
      cases hcb : rt0.route_new.cb_finished with
      | NULL =>
        refine ⟨hc, ?_⟩
        intro rt h _
        exact ⟨rt, by rw [← h, hrt0, hent, ← hrt0, h], Or.inl rfl⟩
      | _cb_route_new_finished =>
        obtain ⟨a1, a2⟩ := cb_route_new_finished_spec d k (-1)
          (os_cancel s d k RouteSel.route_new)
        refine ⟨hc.only_trans a1, ?_⟩
        intro rt h hcur
        have : rt = rt0 := by rw [hrt0] at h; simpa using h.symm
        subst this
        exact ⟨_, a2 rt hent hcur (by decide), Or.inr rfl⟩
      | _cb_route_current_finished =>
        refine ⟨hc.only_trans ⟨⟨rfl, rfl, rfl, rfl, rfl, rfl, rfl, rfl⟩, rfl, rfl,
          fun _ _ _ => rfl⟩, ?_⟩
        intro rt h _
        have : rt = rt0 := by rw [hrt0] at h; simpa using h.symm
        subst this
        exact ⟨rt, hent, Or.inl rfl⟩
  · rw [if_neg hp]
    exact ⟨OnlyEntry.only_refl d k s, fun rt h _ => ⟨rt, h, Or.inl rfl⟩⟩

/-- The remove callback changes only its entry; on an error other than
`ESRCH` an installed entry survives with `in_processing` cleared. -/
theorem cb_route_current_finished_spec (d : Nat) (k : Netaddr) (error : Int)
    (s : RoutingCore) :
    OnlyEntry d k s (_cb_route_current_finished d k error s)
    ∧ (∀ rt, s.entry d k = some rt → rt.state_current = true →
        error ≠ ESRCH → error ≠ 0 →
        (_cb_route_current_finished d k error s).entry d k
          = some { rt with in_processing := false }) := by
  unfold _cb_route_current_finished
  cases hent : s.entry d k with
  | none => exact ⟨OnlyEntry.only_refl d k s, fun rt h => by simp at h⟩
  | some rt0 =>
    simp only
    have hm := onlyEntry_modify_entry s d k (fun rt => { rt with in_processing := false })
      (fun _ => rfl)
    have he : (s.modify_entry d k (fun rt => { rt with in_processing := false })).entry d k
        = some { rt0 with in_processing := false } := by
      rw [entry_modify_entry, if_pos ⟨rfl, rfl⟩, hent]
      · rfl
      · intro _; rfl
    by_cases herr : error ≠ ESRCH ∧ error ≠ 0
    · rw [if_pos herr]
      obtain ⟨a1, a2⟩ := os_routing_interrupt_new_spec d k
        (s.modify_entry d k (fun rt => { rt with in_processing := false }))
      refine ⟨hm.only_trans a1, ?_⟩
      intro rt h hcur _ _
      have : rt = rt0 := by simpa using h.symm
      subst this
      obtain ⟨rt', h1, h2⟩ := a2 _ he hcur
      rw [h1]
      rcases h2 with h2 | h2
      · rw [h2]
      · rw [h2]
    · rw [if_neg herr]
      by_cases hn : rt0.state_new = true
      · rw [if_pos hn]
        refine ⟨hm.only_trans (onlyEntry_modify_entry _ d k _ (fun _ => rfl)), ?_⟩
        intro rt _ _ h1 h2; exact absurd ⟨h1, h2⟩ herr
      · rw [if_neg hn]
        refine ⟨hm.only_trans (onlyEntry_remove_entry _ d k), ?_⟩
        intro rt _ _ h1 h2; exact absurd ⟨h1, h2⟩ herr

/-- Interrupting `route_current` changes only its entry; an installed entry
survives, at most with `in_processing` cleared. -/
theorem os_routing_interrupt_current_spec (d : Nat) (k : Netaddr) (s : RoutingCore) :
    OnlyEntry d k s (os_routing_interrupt_current d k s)
    ∧ (∀ rt, s.entry d k = some rt → rt.state_current = true →
        ∃ rt', (os_routing_interrupt_current d k s).entry d k = some rt'
          ∧ same_but_in_processing rt rt') := by
  unfold os_routing_interrupt_current
  by_cases hp : os_is_pending s d k RouteSel.route_current = true
  · rw [if_pos hp]
    have hc := onlyEntry_os_cancel s d k RouteSel.route_current
    have hce : (os_cancel s d k RouteSel.route_current).entry d k = s.entry d k := rfl
    simp only
    cases hent : (os_cancel s d k RouteSel.route_current).entry d k with
    | none =>
      refine ⟨hc, ?_⟩
      intro rt h; rw [← hce, hent] at h; exact absurd h (by simp)
    | some rt0 =>
      simp only
      have hrt0 : s.entry d k = some rt0 := by rw [← hce]; exact hent
      cases hcb : rt0.route_current.cb_finished with
      | NULL =>
        refine ⟨hc, ?_⟩
        intro rt h _
        have : rt = rt0 := by rw [hrt0] at h; simpa using h.symm
        subst this
        exact ⟨rt, hent, Or.inl rfl⟩
      | _cb_route_current_finished =>
        obtain ⟨a1, a2⟩ := cb_route_current_finished_spec d k (-1)
          (os_cancel s d k RouteSel.route_current)
        refine ⟨hc.only_trans a1, ?_⟩
        intro rt h hcur
        have : rt = rt0 := by rw [hrt0] at h; simpa using h.symm
        subst this
        exact ⟨_, a2 rt hent hcur (by decide) (by decide), Or.inr rfl⟩
      | _cb_route_new_finished =>
        refine ⟨hc.only_trans ⟨⟨rfl, rfl, rfl, rfl, rfl, rfl, rfl, rfl⟩, rfl, rfl,
          fun _ _ _ => rfl⟩, ?_⟩
        intro rt h _
        have : rt = rt0 := by rw [hrt0] at h; simpa using h.symm
        subst this
        exact ⟨rt, hent, Or.inl rfl⟩
  · rw [if_neg hp]
    exact ⟨OnlyEntry.only_refl d k s, fun rt h _ => ⟨rt, h, Or.inl rfl⟩⟩

/-! ## Changing the domain parameters -/

/-- The body of the entry loop of `olsrv2_routing_set_domain_parameter`:
an installed entry gets `state_new = false` and is enqueued, nothing else
changes except `in_processing` of this entry and the operations in flight. -/
theorem set_parameter_entry_spec (e : Env) (d : Nat) (s : RoutingCore) (k : Netaddr) :
    Frame s (set_parameter_entry e d s k)
    ∧ (set_parameter_entry e d s k).os_calls = s.os_calls
    ∧ (∀ d' k', ¬(d' = d ∧ k' = k) → (set_parameter_entry e d s k).entry d' k' = s.entry d' k')
    ∧ (∀ rt, s.entry d k = some rt → rt.state_current = true →
        ∃ rt', (set_parameter_entry e d s k).entry d k = some rt'
          ∧ rt'.state_new = false ∧ rt'.state_current = true
          ∧ rt'.route_current = rt.route_current
          ∧ ((set_parameter_entry e d s k)._kernel_queue = (d, k) :: s._kernel_queue
            ∨ (set_parameter_entry e d s k)._kernel_queue = s._kernel_queue ++ [(d, k)]))
    ∧ ((s.entry d k = none ∨ ∃ rt, s.entry d k = some rt ∧ rt.state_current = false) →
        set_parameter_entry e d s k = s) := by
  unfold set_parameter_entry
  cases hent : s.entry d k with
  | none =>
    exact ⟨Frame.frame_refl s, rfl, fun _ _ _ => rfl, fun rt h => by simp at h, fun _ => rfl⟩
  | some rt0 =>
    simp only
    by_cases hc : rt0.state_current = true
    · rw [if_pos hc]
      -- the state after the optional interrupts
      have h1 : ∃ s1 : RoutingCore,
          (if rt0.in_processing = true then
            os_routing_interrupt_current d k (os_routing_interrupt_new d k s)
          else s) = s1
          ∧ OnlyEntry d k s s1
          ∧ ∃ rt1, s1.entry d k = some rt1 ∧ same_but_in_processing rt0 rt1 := by
        split
        · obtain ⟨a1, a2⟩ := os_routing_interrupt_new_spec d k s
          obtain ⟨rt1, a3, a4⟩ := a2 rt0 hent hc
          obtain ⟨b1, b2⟩ := os_routing_interrupt_current_spec d k
            (os_routing_interrupt_new d k s)
          have hc1 : rt1.state_current = true := by
            rcases a4 with a4 | a4 <;> rw [a4] <;> exact hc
          obtain ⟨rt2, b3, b4⟩ := b2 rt1 a3 hc1
          exact ⟨_, rfl, a1.only_trans b1, rt2, b3, a4.sbp_trans b4⟩
        · exact ⟨s, rfl, OnlyEntry.only_refl d k s, rt0, hent, Or.inl rfl⟩
      obtain ⟨s1, hs1, o1, rt1, e1, sb1⟩ := h1
      rw [hs1]
      have o2 := onlyEntry_modify_entry s1 d k (fun rt => { rt with state_new := false })
        (fun _ => rfl)
      have e2 : (s1.modify_entry d k (fun rt => { rt with state_new := false })).entry d k
          = some { rt1 with state_new := false } := by
        rw [entry_modify_entry, if_pos ⟨rfl, rfl⟩, e1]
        · rfl
        · intro _; rfl
      obtain ⟨q1, q2, _, q4, _, _, q7⟩ := add_route_to_kernel_queue_spec e d k
        (s1.modify_entry d k (fun rt => { rt with state_new := false }))
      obtain ⟨rt3, r1, r2, r3, r4, _, _, _, r8⟩ := q2 _ e2
      have hq12 : (s1.modify_entry d k (fun rt => { rt with state_new := false }))._kernel_queue
          = s._kernel_queue := o1.kernel_queue
      refine ⟨(o1.frame.frame_trans o2.frame).frame_trans q7, ?_, ?_, ?_, ?_⟩
      · rw [q4]; exact o1.os_calls
      · intro d' k' h
        rw [q1 d' k' h, o2.others d' k' h, o1.others d' k' h]
      · intro rt h _
        have : rt = rt0 := by simpa using h.symm
        subst this
        refine ⟨rt3, r1, r2, ?_, ?_, ?_⟩
        · rw [r3]
          rcases sb1 with h' | h' <;> rw [h'] <;> exact hc
        · rw [r4]
          rcases sb1 with h' | h' <;> rw [h']
        · rw [r8, hq12]
          split
          · exact Or.inl rfl
          · exact Or.inr rfl
      · intro h
        rcases h with h | ⟨rt, h, h'⟩
        · exact absurd h (by simp)
        · have : rt = rt0 := by simpa using h.symm
          subst this
          rw [hc] at h'; exact absurd h' (by simp)
    · rw [if_neg hc]
      refine ⟨Frame.frame_refl s, rfl, fun _ _ _ => rfl, ?_, fun _ => rfl⟩
      intro rt h hcur
      have : rt = rt0 := by simpa using h.symm
      subst this
      exact absurd hcur hc

theorem frame_foldl_set_parameter_entry (e : Env) (d : Nat) (todo : List Netaddr)
    (s : RoutingCore) : Frame s (todo.foldl (set_parameter_entry e d) s) := by
  induction todo generalizing s with
  | nil => exact Frame.frame_refl s
  | cons a rest ih =>
    exact (set_parameter_entry_spec e d s a).1.frame_trans (ih (set_parameter_entry e d s a))

/-- After `olsrv2_routing_set_domain_parameter` the record is stored. -/
theorem set_domain_parameter_stored (e : Env) (d : Nat) (p : RoutingDomain) (s : RoutingCore) :
    (olsrv2_routing_set_domain_parameter e d p s)._domain_parameter d = p := by
  unfold olsrv2_routing_set_domain_parameter
  by_cases h : p = s._domain_parameter d
  · rw [if_pos h]; exact h.symm
  · rw [if_neg h]
    simp only
    split
    · simp
    · have f1 := frame_foldl_set_parameter_entry e d
        (({ s with _domain_parameter := Function.update s._domain_parameter d p } :
          RoutingCore).keys d)
        { s with _domain_parameter := Function.update s._domain_parameter d p }
      obtain ⟨_, _, _, _, _, f2⟩ := process_kernel_list_spec e
        ((({ s with _domain_parameter := Function.update s._domain_parameter d p } :
          RoutingCore).keys d).foldl (set_parameter_entry e d)
          { s with _domain_parameter := Function.update s._domain_parameter d p })._kernel_queue
        ((({ s with _domain_parameter := Function.update s._domain_parameter d p } :
          RoutingCore).keys d).foldl (set_parameter_entry e d)
          { s with _domain_parameter := Function.update s._domain_parameter d p })
      show (_process_kernel_queue e _)._domain_parameter d = p
      unfold _process_kernel_queue
      rw [f2.domain_parameter, f1.domain_parameter]
      simp

/-- C9: `olsrv2_routing_set_domain_parameter` with the stored record changes
nothing, and calling it twice with the same record gives the same state
(entries, queue, timer, pending flag, kernel calls) as calling it once. -/
theorem set_domain_parameter_idempotent (e : Env) (d : Nat) (p : RoutingDomain)
    (s : RoutingCore) :
    (s._domain_parameter d = p → olsrv2_routing_set_domain_parameter e d p s = s)
    ∧ olsrv2_routing_set_domain_parameter e d p (olsrv2_routing_set_domain_parameter e d p s)
        = olsrv2_routing_set_domain_parameter e d p s := by
  have h1 : ∀ s' : RoutingCore, s'._domain_parameter d = p →
      olsrv2_routing_set_domain_parameter e d p s' = s' := by
    intro s' h
    unfold olsrv2_routing_set_domain_parameter
    rw [if_pos h.symm]
  exact ⟨h1 s, h1 _ (set_domain_parameter_stored e d p s)⟩

theorem find_of_nodup_keys (l : List RoutingEntry)
    (hnd : (l.map (fun rt => rt.route_new.dst)).Nodup) (rt : RoutingEntry) (h : rt ∈ l) :
    avl_find_element l rt.route_new.dst = some rt := by
  unfold avl_find_element
  induction l with
  | nil => exact absurd h (List.not_mem_nil rt)
  | cons a l ih =>
    rw [List.map_cons, List.nodup_cons] at hnd
    rw [List.find?_cons]
    rcases List.mem_cons.mp h with h | h
    · subst h; simp
    · have hne : a.route_new.dst ≠ rt.route_new.dst := by
        intro heq
        apply hnd.1
        rw [heq]
        exact List.mem_map_of_mem _ h
      simp only [hne, decide_False]
      exact ih hnd.2 h

/-- The entry loop of `olsrv2_routing_set_domain_parameter` over distinct
keys: every installed entry ends with `state_new = false`, unchanged
`route_current`, and in the kernel queue; nothing else is queued. -/
theorem foldl_set_parameter_entry_spec (e : Env) (d : Nat) (todo : List Netaddr)
    (hnd : todo.Nodup) (s : RoutingCore) :
    (todo.foldl (set_parameter_entry e d) s).os_calls = s.os_calls
    ∧ (∀ d' k', ¬(d' = d ∧ k' ∈ todo) →
        (todo.foldl (set_parameter_entry e d) s).entry d' k' = s.entry d' k')
    ∧ (∀ ref ∈ s._kernel_queue, ref ∈ (todo.foldl (set_parameter_entry e d) s)._kernel_queue)
    ∧ (∀ k ∈ todo, ∀ rt, s.entry d k = some rt → rt.state_current = true →
        ∃ rt', (todo.foldl (set_parameter_entry e d) s).entry d k = some rt'
          ∧ rt'.state_new = false ∧ rt'.state_current = true
          ∧ rt'.route_current = rt.route_current
          ∧ (d, k) ∈ (todo.foldl (set_parameter_entry e d) s)._kernel_queue)
    ∧ (∀ ref ∈ (todo.foldl (set_parameter_entry e d) s)._kernel_queue,
        ref ∈ s._kernel_queue
        ∨ ∃ rt', (todo.foldl (set_parameter_entry e d) s).entry ref.1 ref.2 = some rt'
            ∧ rt'.state_new = false ∧ rt'.state_current = true) := by
  induction todo generalizing s with
  | nil =>
    refine ⟨rfl, fun _ _ _ => rfl, fun _ h => h, ?_, fun _ h => Or.inl h⟩
    intro k hk; exact absurd hk (List.not_mem_nil k)
  | cons a rest ih =>
    rw [List.nodup_cons] at hnd
    obtain ⟨_, a2, a3, a4, a5⟩ := set_parameter_entry_spec e d s a
    obtain ⟨b1, b2, b3, b4, b5⟩ := ih hnd.2 (set_parameter_entry e d s a)
    simp only [List.foldl_cons]
    have hkeep : (rest.foldl (set_parameter_entry e d) (set_parameter_entry e d s a)).entry d a
        = (set_parameter_entry e d s a).entry d a :=
      b2 d a (fun h => hnd.1 h.2)
    -- what the first step did to the queue
    have hstep : (set_parameter_entry e d s a)._kernel_queue = s._kernel_queue
        ∨ (∃ rt', (set_parameter_entry e d s a).entry d a = some rt'
            ∧ rt'.state_new = false ∧ rt'.state_current = true
            ∧ ((set_parameter_entry e d s a)._kernel_queue = (d, a) :: s._kernel_queue
              ∨ (set_parameter_entry e d s a)._kernel_queue = s._kernel_queue ++ [(d, a)])) := by
      cases hent : s.entry d a with
      | none => left; rw [a5 (Or.inl hent)]
      | some rt =>
        by_cases hc : rt.state_current = true
        · right
          obtain ⟨rt', c1, c2, c3, _, c5⟩ := a4 rt hent hc
          exact ⟨rt', c1, c2, c3, c5⟩
        · left; rw [a5 (Or.inr ⟨rt, hent, by simpa using hc⟩)]
    have hsub : ∀ ref ∈ s._kernel_queue, ref ∈ (set_parameter_entry e d s a)._kernel_queue := by
      intro ref href
      rcases hstep with h | ⟨_, _, _, _, h | h⟩
      · rw [h]; exact href
      · rw [h]; exact List.mem_cons_of_mem _ href
      · rw [h]; exact List.mem_append_left _ href
    refine ⟨by rw [b1, a2], ?_, fun ref href => b3 ref (hsub ref href), ?_, ?_⟩
    · intro d' k' h
      have h1 : ¬(d' = d ∧ k' ∈ rest) := fun hh => h ⟨hh.1, List.mem_cons_of_mem a hh.2⟩
      have h2 : ¬(d' = d ∧ k' = a) := fun hh => h ⟨hh.1, hh.2 ▸ List.mem_cons_self a rest⟩
      rw [b2 d' k' h1, a3 d' k' h2]
    · intro k hk rt hent hc
      rcases List.mem_cons.mp hk with hk | hk
      · subst hk
        obtain ⟨rt', c1, c2, c3, c4, c5⟩ := a4 rt hent hc
        refine ⟨rt', by rw [hkeep]; exact c1, c2, c3, c4, ?_⟩
        apply b3
        rcases c5 with c5 | c5
        · rw [c5]; exact List.mem_cons_self _ _
        · rw [c5]; exact List.mem_append_right _ (List.mem_singleton.mpr rfl)
      · have hka : ¬(d = d ∧ k = a) := by
          intro hh; rw [hh.2] at hk; exact hnd.1 hk
        exact b4 k hk rt (by rw [a3 d k hka]; exact hent) hc
    · intro ref href
      rcases b5 ref href with h | h
      · rcases hstep with h' | ⟨rt', c1, c2, c3, h'⟩
        · left; rw [h'] at h; exact h
        · have hcase : ref ∈ s._kernel_queue ∨ ref = (d, a) := by
            rcases h' with h' | h'
            · rw [h'] at h
              rcases List.mem_cons.mp h with h | h
              · exact Or.inr h
              · exact Or.inl h
            · rw [h'] at h
              rcases List.mem_append.mp h with h | h
              · exact Or.inl h
              · exact Or.inr (List.mem_singleton.mp h)
          rcases hcase with hcase | hcase
          · exact Or.inl hcase
          · right
            rw [hcase]
            exact ⟨rt', by rw [hkeep]; exact c1, c2, c3⟩
      · exact Or.inr h

/-- C10 (amended): `olsrv2_routing_set_domain_parameter` with a record that
differs from the stored one stores the record. On a non-empty routing table it
sets `state_new` to false on every installed entry of the domain, issues a
kernel remove of the unchanged `route_current` of each, issues no add, arms the
rate-limit timer for 100 ms and sets the pending flag. On an empty routing
table it only stores the record. -/
theorem set_domain_parameter_teardown (e : Env) (d : Nat) (p : RoutingDomain)
    (s : RoutingCore) (hne : p ≠ s._domain_parameter d) (hq : s._kernel_queue = [])
    (hkeys : (s.keys d).Nodup) :
    (olsrv2_routing_set_domain_parameter e d p s)._domain_parameter d = p
    ∧ (s._routing_tree d = [] →
        olsrv2_routing_set_domain_parameter e d p s
          = { s with _domain_parameter := Function.update s._domain_parameter d p })
    ∧ (s._routing_tree d ≠ [] →
        (olsrv2_routing_set_domain_parameter e d p s)._rate_limit_timer = some 100
        ∧ (olsrv2_routing_set_domain_parameter e d p s)._trigger_dijkstra = true
        ∧ ∃ calls, (olsrv2_routing_set_domain_parameter e d p s).os_calls = s.os_calls ++ calls
            ∧ (∀ op ∈ calls, op.set = false)
            ∧ ∀ rt ∈ s._routing_tree d, rt.state_current = true →
                (⟨d, rt.route_new.dst, RouteSel.route_current, rt.route_current, false⟩ : OsOp)
                  ∈ calls
                ∧ ∃ rt', (olsrv2_routing_set_domain_parameter e d p s).entry d rt.route_new.dst
                    = some rt'
                  ∧ rt'.state_new = false ∧ rt'.state_current = true
                  ∧ rt'.route_current = rt.route_current) := by
  refine ⟨set_domain_parameter_stored e d p s, ?_, ?_⟩
  · intro hempty
    unfold olsrv2_routing_set_domain_parameter
    rw [if_neg hne]
    simp only
    rw [if_pos hempty]
  · intro hnonempty
    -- name the intermediate states
    let s1 : RoutingCore :=
      { s with _domain_parameter := Function.update s._domain_parameter d p }
    let s2 : RoutingCore := (s1.keys d).foldl (set_parameter_entry e d) s1
    let s3 : RoutingCore := _process_kernel_queue e s2
    have hr : olsrv2_routing_set_domain_parameter e d p s
        = { s3 with _rate_limit_timer := some 100, _trigger_dijkstra := true } := by
      unfold olsrv2_routing_set_domain_parameter
      rw [if_neg hne]
      simp only
      rw [if_neg hnonempty]
    rw [hr]
    obtain ⟨a1, _, _, a4, a5⟩ := foldl_set_parameter_entry_spec e d (s1.keys d) hkeys s1
    obtain ⟨b1, _, b3, _, _, _⟩ := process_kernel_list_spec e s2._kernel_queue s2
    have hcalls : s3.os_calls = s.os_calls ++ s2._kernel_queue.flatMap (ref_calls s2) := by
      show (process_kernel_list e s2._kernel_queue s2).os_calls = _
      rw [b1]
      show (List.foldl (set_parameter_entry e d) s1 (s1.keys d)).os_calls ++ _ = _
      rw [a1]
    refine ⟨rfl, rfl, s2._kernel_queue.flatMap (ref_calls s2), hcalls, ?_, ?_⟩
    · intro op hop
      obtain ⟨ref, href, hop'⟩ := List.mem_flatMap.mp hop
      rcases a5 ref href with h | ⟨rt', h1, h2, h3⟩
      · have : s1._kernel_queue = [] := hq
        rw [this] at h; exact absurd h (List.not_mem_nil ref)
      · unfold ref_calls at hop'
        have h1' : s2.entry ref.1 ref.2 = some rt' := h1
        rw [h1'] at hop'
        unfold entry_calls at hop'
        simp only [h2, h3, if_true, Bool.false_eq_true, if_false, List.append_nil,
          List.mem_singleton] at hop'
        rw [hop']
    · intro rt hrt hcur
      have hfind : s1.entry d rt.route_new.dst = some rt :=
        find_of_nodup_keys (s._routing_tree d) hkeys rt hrt
      have hkey : rt.route_new.dst ∈ s1.keys d := List.mem_map_of_mem _ hrt
      obtain ⟨rt', c1, c2, c3, c4, c5⟩ := a4 _ hkey rt hfind hcur
      have c1' : s2.entry d rt.route_new.dst = some rt' := c1
      have c5' : (d, rt.route_new.dst) ∈ s2._kernel_queue := c5
      refine ⟨?_, ?_⟩
      · apply List.mem_flatMap.mpr
        refine ⟨(d, rt.route_new.dst), c5', ?_⟩
        unfold ref_calls
        simp only [c1']
        unfold entry_calls
        simp [c2, c3, c4]
      · refine ⟨{ rt' with in_processing := true }, ?_, c2, c3, c4⟩
        show (process_kernel_list e s2._kernel_queue s2).entry d rt.route_new.dst = _
        rw [b3, if_pos c5', c1']
        rfl

/-- Witness for C10 (amended): scenario S1 with both routes installed and a
changed parameter record; both routes are removed and the timer is armed. -/
theorem set_domain_parameter_teardown_witness :
    (olsrv2_routing_set_domain_parameter scenario1_env 0 ⟨false, 3, 100, 2⟩
        scenario1_installed)._domain_parameter 0 = ⟨false, 3, 100, 2⟩
    ∧ (olsrv2_routing_set_domain_parameter scenario1_env 0 ⟨false, 3, 100, 2⟩
        scenario1_installed)._rate_limit_timer = some 100 := by
  have h := set_domain_parameter_teardown scenario1_env 0 ⟨false, 3, 100, 2⟩
    scenario1_installed (by decide) (by decide) (by decide)
  exact ⟨h.1, (h.2.2 (by decide)).1⟩

/-- Witness for C9: in scenario S1 with both routes installed, setting the
stored record again changes nothing, and setting a new record twice gives the
state of setting it once. -/
theorem set_domain_parameter_idempotent_witness :
    olsrv2_routing_set_domain_parameter scenario1_env 0 ⟨false, 0, 0, 0⟩ scenario1_installed
      = scenario1_installed
    ∧ olsrv2_routing_set_domain_parameter scenario1_env 0 ⟨false, 3, 100, 2⟩
        (olsrv2_routing_set_domain_parameter scenario1_env 0 ⟨false, 3, 100, 2⟩
          scenario1_installed)
      = olsrv2_routing_set_domain_parameter scenario1_env 0 ⟨false, 3, 100, 2⟩
          scenario1_installed :=
  ⟨(set_domain_parameter_idempotent scenario1_env 0 ⟨false, 0, 0, 0⟩ scenario1_installed).1
      (by decide),
    (set_domain_parameter_idempotent scenario1_env 0 ⟨false, 3, 100, 2⟩ scenario1_installed).2⟩

/-! ## What an SPF run leaves alone -/

theorem SpfFrame.spf_refl (d : Nat) (s : RoutingCore) : SpfFrame d s s :=
  ⟨rfl, rfl, rfl, rfl, rfl, fun _ _ => rfl⟩

theorem SpfFrame.spf_trans {d : Nat} {a b c : RoutingCore} (h1 : SpfFrame d a b)
    (h2 : SpfFrame d b c) : SpfFrame d a c :=
  ⟨h2.1.trans h1.1, h2.2.trans h1.2, h2.3.trans h1.3, h2.4.trans h1.4, h2.5.trans h1.5,
    fun d' hd => (h2.6 d' hd).trans (h1.6 d' hd)⟩

theorem spfFrame_set_tree (s : RoutingCore) (d : Nat) (l : List RoutingEntry) :
    SpfFrame d s (s.set_tree d l) :=
  ⟨rfl, rfl, rfl, rfl, rfl, fun d' hd => by
    unfold RoutingCore.set_tree
    exact Function.update_noteq hd _ _⟩

theorem spfFrame_modify_entry (s : RoutingCore) (d : Nat) (k : Netaddr)
    (f : RoutingEntry → RoutingEntry) : SpfFrame d s (s.modify_entry d k f) :=
  spfFrame_set_tree s d _

theorem spfFrame_remove_entry (s : RoutingCore) (d : Nat) (k : Netaddr) :
    SpfFrame d s (_remove_entry d k s) :=
  spfFrame_set_tree s d _

theorem spfFrame_of_frame {s s' : RoutingCore} (d : Nat) (h : Frame s s')
    (ht : s'._routing_tree = s._routing_tree) : SpfFrame d s s' :=
  ⟨h.domain_parameter, h.rate_limit_timer, h.trigger_dijkstra, h.routing_filter_list,
    h.initiate_shutdown, fun d' _ => by rw [ht]⟩

theorem spfFrame_foldl {α : Type} (d : Nat) (f : RoutingCore → α → RoutingCore)
    (h : ∀ s a, SpfFrame d s (f s a)) (l : List α) (s : RoutingCore) :
    SpfFrame d s (l.foldl f s) := by
  induction l generalizing s with
  | nil => exact SpfFrame.spf_refl d s
  | cons a l ih => exact (h s a).spf_trans (ih (f s a))

theorem spfFrame_insert_into_working_tree (e : Env) (d target : Nat)
    (neigh : Option NhdpNeighbor) (linkcost pathcost distance : Nat) (single_hop : Bool)
    (s : RoutingCore) :
    SpfFrame d s
      (_insert_into_working_tree e target neigh linkcost pathcost distance single_hop s) := by
  unfold _insert_into_working_tree
  dsimp only
  split_ifs
  all_goals exact ⟨rfl, rfl, rfl, rfl, rfl, fun _ _ => rfl⟩

theorem spfFrame_add_entry (e : Env) (d : Nat) (pfx : Netaddr) (s : RoutingCore) :
    SpfFrame d s (_add_entry e d pfx s).1 := by
  unfold _add_entry
  split
  · exact SpfFrame.spf_refl d s
  · split_ifs
    · exact ⟨rfl, rfl, rfl, rfl, rfl, fun _ _ => rfl⟩
    · exact SpfFrame.spf_trans (b := { s with allocations := s.allocations + 1 })
        ⟨rfl, rfl, rfl, rfl, rfl, fun _ _ => rfl⟩ (spfFrame_set_tree _ d _)

theorem spfFrame_update_routing_entry (e : Env) (d : Nat) (destination : Netaddr)
    (first_hop : Option NhdpNeighbor) (distance pathcost : Nat) (single_hop : Bool)
    (s : RoutingCore) :
    SpfFrame d s
      (_update_routing_entry e d destination first_hop distance pathcost single_hop s) := by
  have h := spfFrame_add_entry e d destination s
  unfold _update_routing_entry
  rcases hadd : _add_entry e d destination s with ⟨s1, b⟩
  rw [hadd] at h
  cases b
  · exact h
  · simp only
    split
    · exact h
    · split_ifs
      · exact h
      · exact h.spf_trans (spfFrame_modify_entry _ _ _ _)

theorem spfFrame_prepare_neighbor (e : Env) (d : Nat) (s : RoutingCore) (neigh : NhdpNeighbor) :
    SpfFrame d s (prepare_neighbor e d s neigh) := by
  unfold prepare_neighbor
  split_ifs
  · split
    · exact SpfFrame.spf_refl d s
    · dsimp only
      split_ifs
      · exact SpfFrame.spf_refl d s
      · exact spfFrame_insert_into_working_tree _ _ _ _ _ _ _ _ _
  · exact SpfFrame.spf_refl d s

theorem spfFrame_prepare_routes (e : Env) (d : Nat) (s : RoutingCore) :
    SpfFrame d s (_prepare_routes e d s) := by
  have h1 : SpfFrame d s (prepare_entries d s) := spfFrame_set_tree s d _
  have h2 := spfFrame_foldl d (prepare_node e)
    (fun s _ => ⟨rfl, rfl, rfl, rfl, rfl, fun _ _ => rfl⟩) e.tc.tc_tree (prepare_entries d s)
  have h3 := spfFrame_foldl d (prepare_endpoint e)
    (fun s _ => ⟨rfl, rfl, rfl, rfl, rfl, fun _ _ => rfl⟩) e.tc.endpoint_tree
    (e.tc.tc_tree.foldl (prepare_node e) (prepare_entries d s))
  have h4 := spfFrame_foldl d (prepare_neighbor e d) (spfFrame_prepare_neighbor e d) e.nhdp_db
    (e.tc.endpoint_tree.foldl (prepare_endpoint e)
      (e.tc.tc_tree.foldl (prepare_node e) (prepare_entries d s)))
  exact ((h1.spf_trans h2).spf_trans h3).spf_trans h4

theorem spfFrame_relax_edge (e : Env) (d target : Nat) (first_hop : Option NhdpNeighbor)
    (s : RoutingCore) (tc_edge : TcEdge) :
    SpfFrame d s (relax_edge e d target first_hop s tc_edge) := by
  unfold relax_edge
  split_ifs
  · exact spfFrame_insert_into_working_tree _ _ _ _ _ _ _ _ _
  · exact SpfFrame.spf_refl d s

theorem spfFrame_relax_attached (e : Env) (d target : Nat) (first_hop : Option NhdpNeighbor)
    (s : RoutingCore) (tc_attached : TcAttachment) :
    SpfFrame d s (relax_attached e d target first_hop s tc_attached) := by
  unfold relax_attached
  split_ifs
  · exact spfFrame_insert_into_working_tree _ _ _ _ _ _ _ _ _
  · exact SpfFrame.spf_refl d s

theorem spfFrame_handle_working_queue (e : Env) (d : Nat) (s : RoutingCore) :
    SpfFrame d s (_handle_working_queue e d s) := by
  unfold _handle_working_queue
  split
  · exact SpfFrame.spf_refl d s
  · rename_i target rest _
    have h1 : SpfFrame d s
        ({ s with _dijkstra_working_tree := rest }.set_dijkstra target
          { s._dijkstra target with done := true }) :=
      ⟨rfl, rfl, rfl, rfl, rfl, fun _ _ => rfl⟩
    have h2 := h1.spf_trans (spfFrame_update_routing_entry e d (e.tc.addr target)
      (({ s with _dijkstra_working_tree := rest }.set_dijkstra target
          { s._dijkstra target with done := true })._dijkstra target).first_hop
      (({ s with _dijkstra_working_tree := rest }.set_dijkstra target
          { s._dijkstra target with done := true })._dijkstra target).distance
      (({ s with _dijkstra_working_tree := rest }.set_dijkstra target
          { s._dijkstra target with done := true })._dijkstra target).path_cost
      (({ s with _dijkstra_working_tree := rest }.set_dijkstra target
          { s._dijkstra target with done := true })._dijkstra target).single_hop _)
    dsimp only
    split_ifs
    · exact (h2.spf_trans (spfFrame_foldl d _ (spfFrame_relax_edge e d target _) _ _)).spf_trans
        (spfFrame_foldl d _ (spfFrame_relax_attached e d target _) _ _)
    · exact h2

theorem spfFrame_dijkstra_loop (e : Env) (d : Nat) (fuel : Nat) (s : RoutingCore) :
    SpfFrame d s (dijkstra_loop e d fuel s) := by
  induction fuel generalizing s with
  | zero => exact SpfFrame.spf_refl d s
  | succ n ih =>
    unfold dijkstra_loop
    split_ifs
    · exact SpfFrame.spf_refl d s
    · exact (spfFrame_handle_working_queue e d s).spf_trans (ih _)

theorem spfFrame_nhdp_l2hop_route (e : Env) (d : Nat) (neigh : NhdpNeighbor) (neighcost : Nat)
    (s : RoutingCore) (l2hop : NhdpL2hop) :
    SpfFrame d s (nhdp_l2hop_route e d neigh neighcost s l2hop) := by
  unfold nhdp_l2hop_route
  split_ifs
  · exact SpfFrame.spf_refl d s
  · exact SpfFrame.spf_refl d s
  · exact SpfFrame.spf_refl d s
  · exact spfFrame_update_routing_entry _ _ _ _ _ _ _ _

theorem spfFrame_nhdp_neighbor_routes (e : Env) (d : Nat) (s : RoutingCore)
    (neigh : NhdpNeighbor) : SpfFrame d s (nhdp_neighbor_routes e d s neigh) := by
  unfold nhdp_neighbor_routes
  dsimp only
  split_ifs
  · exact SpfFrame.spf_refl d s
  · refine SpfFrame.spf_trans (spfFrame_foldl d _ ?_ neigh._neigh_addresses s)
      (spfFrame_foldl d _ ?_ neigh._links _)
    · intro s a
      dsimp only
      split_ifs
      · exact SpfFrame.spf_refl d s
      · exact spfFrame_update_routing_entry _ _ _ _ _ _ _ _
    · intro s lnk
      exact spfFrame_foldl d _ (spfFrame_nhdp_l2hop_route e d neigh _) _ _

theorem spfFrame_handle_nhdp_routes (e : Env) (d : Nat) (s : RoutingCore) :
    SpfFrame d s (_handle_nhdp_routes e d s) :=
  spfFrame_foldl d _ (spfFrame_nhdp_neighbor_routes e d) _ _

theorem spfFrame_add_route_to_kernel_queue (e : Env) (d : Nat) (k : Netaddr) (s : RoutingCore) :
    SpfFrame d s (_add_route_to_kernel_queue e d k s) := by
  unfold _add_route_to_kernel_queue
  split
  · exact SpfFrame.spf_refl d s
  · dsimp only
    split_ifs
    all_goals first
      | exact ⟨rfl, rfl, rfl, rfl, rfl, fun _ _ => rfl⟩
      | exact SpfFrame.spf_trans (spfFrame_modify_entry s d k _)
          ⟨rfl, rfl, rfl, rfl, rfl, fun _ _ => rfl⟩

theorem run_filters_eq (d : Nat) (route : OsRoute) (s : RoutingCore) :
    run_filters d route s = s := by
  unfold run_filters
  generalize s._routing_filter_list = l
  induction l with
  | nil => rfl
  | cons a l ih => simp

theorem spfFrame_process_result_entry (e : Env) (d : Nat) (s : RoutingCore) (k : Netaddr) :
    SpfFrame d s (process_result_entry e d s k) := by
  unfold process_result_entry
  split
  · exact SpfFrame.spf_refl d s
  · dsimp only
    rw [run_filters_eq]
    split_ifs
    · exact (spfFrame_modify_entry s d k _).spf_trans (spfFrame_modify_entry _ d k _)
    · exact ((spfFrame_modify_entry s d k _).spf_trans (spfFrame_modify_entry _ d k _)).spf_trans
        (spfFrame_add_route_to_kernel_queue _ _ _ _)
    · exact (spfFrame_modify_entry s d k _).spf_trans
        (spfFrame_add_route_to_kernel_queue _ _ _ _)

theorem spfFrame_process_dijkstra_result (e : Env) (d : Nat) (s : RoutingCore) :
    SpfFrame d s (_process_dijkstra_result e d s) :=
  spfFrame_foldl d _ (spfFrame_process_result_entry e d) _ _

/-- The SPF pipeline of one domain leaves the scheduling state and the
routing trees of the other domains alone. -/
theorem spfFrame_spf_domain (e : Env) (s : RoutingCore) (d : Nat) :
    SpfFrame d s (spf_domain e s d) :=
  (((spfFrame_prepare_routes e d s).spf_trans (spfFrame_dijkstra_loop e d _ _)).spf_trans
    (spfFrame_handle_nhdp_routes e d _)).spf_trans (spfFrame_process_dijkstra_result e d _)

theorem foldl_spf_domain_sched (e : Env) (l : List Nat) (s : RoutingCore) :
    (l.foldl (spf_domain e) s)._trigger_dijkstra = s._trigger_dijkstra
    ∧ (l.foldl (spf_domain e) s)._initiate_shutdown = s._initiate_shutdown
    ∧ (l.foldl (spf_domain e) s)._domain_parameter = s._domain_parameter
    ∧ (l.foldl (spf_domain e) s)._routing_filter_list = s._routing_filter_list := by
  induction l generalizing s with
  | nil => exact ⟨rfl, rfl, rfl, rfl⟩
  | cons d l ih =>
    obtain ⟨h1, h2, h3, h4⟩ := ih (spf_domain e s d)
    have h := spfFrame_spf_domain e s d
    exact ⟨h1.trans h.trigger_dijkstra, h2.trans h.initiate_shutdown,
      h3.trans h.domain_parameter, h4.trans h.routing_filter_list⟩

theorem frame_process_kernel_queue (e : Env) (s : RoutingCore) :
    Frame s (_process_kernel_queue e s) :=
  (process_kernel_list_spec e s._kernel_queue s).2.2.2.2.2

/-- An SPF run leaves the pending flag, the shutdown flag, the stored
parameters and the filter list alone and starts the rate-limit timer. -/
theorem run_dijkstra_sched (e : Env) (s : RoutingCore) :
    (run_dijkstra e s)._trigger_dijkstra = s._trigger_dijkstra
    ∧ (run_dijkstra e s)._initiate_shutdown = s._initiate_shutdown
    ∧ (run_dijkstra e s)._domain_parameter = s._domain_parameter
    ∧ (run_dijkstra e s)._routing_filter_list = s._routing_filter_list
    ∧ (run_dijkstra e s)._rate_limit_timer = some e.OLSRv2_DIJKSTRA_RATE_LIMITATION
    ∧ (run_dijkstra e s)._kernel_queue = [] := by
  obtain ⟨h1, h2, h3, h4⟩ :=
    foldl_spf_domain_sched e e.nhdp_domain_list { s with _rate_limit_timer := none }
  have hf := frame_process_kernel_queue e
    (e.nhdp_domain_list.foldl (spf_domain e) { s with _rate_limit_timer := none })
  have hq := process_kernel_queue_empty e
    (e.nhdp_domain_list.foldl (spf_domain e) { s with _rate_limit_timer := none })
  unfold run_dijkstra
  exact ⟨hf.trigger_dijkstra.trans h1, hf.initiate_shutdown.trans h2,
    hf.domain_parameter.trans h3, hf.routing_filter_list.trans h4, rfl, hq⟩

theorem force_update_eq (e : Env) (skip_wait : Bool) (s : RoutingCore) :
    olsrv2_routing_force_update e skip_wait s
      = if s._initiate_shutdown = true then s
        else if s._rate_limit_timer.isSome = true ∧ skip_wait = false then
          { s with _trigger_dijkstra := true }
        else run_dijkstra e s := rfl

theorem trigger_updates_succ (n : Nat) (s : RoutingCore) :
    trigger_updates (n + 1) s = olsrv2_routing_trigger_update (trigger_updates n s) := by
  induction n generalizing s with
  | zero => rfl
  | succ n ih =>
    show trigger_updates (n + 1) (olsrv2_routing_trigger_update s) = _
    rw [ih]
    rfl

theorem trigger_update_eq (s : RoutingCore) :
    olsrv2_routing_trigger_update s
      = { s with _trigger_dijkstra := true
                 _rate_limit_timer := if s._rate_limit_timer.isSome = true
                                      then s._rate_limit_timer else some 1 } := by
  unfold olsrv2_routing_trigger_update
  cases h : s._rate_limit_timer <;> simp [h]

/-! ## Trigger and rate limiter -/

theorem trigger_updates_eq (n : Nat) (hn : 1 ≤ n) (s : RoutingCore) :
    trigger_updates n s = olsrv2_routing_trigger_update s := by
  induction n with
  | zero => omega
  | succ n ih =>
    rw [trigger_updates_succ]
    by_cases h : n = 0
    · subst h; rfl
    · rw [ih (by omega), trigger_update_eq, trigger_update_eq]
      cases ht : s._rate_limit_timer <;> simp [ht]

/-- C12: `olsrv2_routing_trigger_update` sets the pending flag; a timer that
is not armed is armed with delay 1 and an armed timer keeps its deadline;
routing trees, kernel queue, kernel calls and operations in flight (indeed
all other fields) are untouched; two calls in a row give the state of one
call. -/
theorem trigger_update_sets_flag_and_arms_timer (s : RoutingCore) :
    (olsrv2_routing_trigger_update s)._trigger_dijkstra = true
    ∧ (s._rate_limit_timer = none →
        (olsrv2_routing_trigger_update s)._rate_limit_timer = some 1)
    ∧ (∀ t, s._rate_limit_timer = some t →
        (olsrv2_routing_trigger_update s)._rate_limit_timer = some t)
    ∧ (olsrv2_routing_trigger_update s)._routing_tree = s._routing_tree
    ∧ (olsrv2_routing_trigger_update s)._kernel_queue = s._kernel_queue
    ∧ (olsrv2_routing_trigger_update s).os_calls = s.os_calls
    ∧ (olsrv2_routing_trigger_update s).os_pending = s.os_pending
    ∧ olsrv2_routing_trigger_update s
        = { s with _trigger_dijkstra := true
                   _rate_limit_timer := (olsrv2_routing_trigger_update s)._rate_limit_timer }
    ∧ olsrv2_routing_trigger_update (olsrv2_routing_trigger_update s)
        = olsrv2_routing_trigger_update s := by
  rw [trigger_update_eq, trigger_update_eq]
  cases ht : s._rate_limit_timer <;> simp [ht]

/-- C13: `olsrv2_routing_force_update` has three cases. When the core is
shutting down the state is returned unchanged. When it is not shutting down,
the rate-limit timer is armed and `skip_wait` is false, only the pending flag
is set. In the remaining case, not shutting down and (timer not armed or
`skip_wait`), and only then, the SPF run `run_dijkstra` is performed, and the
timer is armed with the rate-limit interval on return. -/
theorem force_update_runs_spf_iff (e : Env) (skip_wait : Bool) (s : RoutingCore) :
    (s._initiate_shutdown = true → olsrv2_routing_force_update e skip_wait s = s)
    ∧ (s._initiate_shutdown = false ∧ s._rate_limit_timer.isSome = true ∧ skip_wait = false →
        olsrv2_routing_force_update e skip_wait s = { s with _trigger_dijkstra := true })
    ∧ (s._initiate_shutdown = false ∧ (s._rate_limit_timer.isSome = false ∨ skip_wait = true) →
        olsrv2_routing_force_update e skip_wait s = run_dijkstra e s
        ∧ (olsrv2_routing_force_update e skip_wait s)._rate_limit_timer
            = some e.OLSRv2_DIJKSTRA_RATE_LIMITATION) := by
  rw [force_update_eq]
  refine ⟨fun h => by rw [if_pos h], fun h => ?_, fun h => ?_⟩
  · rw [if_neg (by simp [h.1]), if_pos h.2]
  · have h2 : ¬(s._rate_limit_timer.isSome = true ∧ skip_wait = false) := by
      rcases h.2 with h2 | h2
      · simp [h2]
      · simp [h2]
    rw [if_neg (by simp [h.1]), if_neg h2]
    exact ⟨rfl, (run_dijkstra_sched e s).2.2.2.2.1⟩

/-- C11: when the core is not shutting down, `n ≥ 1` calls of
`olsrv2_routing_trigger_update` in a row (timer armed or idle at the start)
give the state of one call, with the timer armed; the next expiry of the
timer performs one SPF run (`run_dijkstra`) on the state with the pending
flag cleared, and the flag is clear afterwards; the expiry after that only
lets the timer run out: no SPF run. -/
theorem triggers_coalesce_into_one_run (e e2 : Env) (s : RoutingCore) (n : Nat) (hn : 1 ≤ n)
    (hs : s._initiate_shutdown = false) :
    trigger_updates n s = olsrv2_routing_trigger_update s
    ∧ (trigger_updates n s)._rate_limit_timer.isSome = true
    ∧ rate_limit_timer_expires e (trigger_updates n s)
        = run_dijkstra e
            { trigger_updates n s with _rate_limit_timer := none, _trigger_dijkstra := false }
    ∧ (rate_limit_timer_expires e (trigger_updates n s))._trigger_dijkstra = false
    ∧ rate_limit_timer_expires e2 (rate_limit_timer_expires e (trigger_updates n s))
        = { rate_limit_timer_expires e (trigger_updates n s) with _rate_limit_timer := none } := by
  have h1 := trigger_updates_eq n hn s
  obtain ⟨t, ht⟩ : ∃ t, (olsrv2_routing_trigger_update s)._rate_limit_timer = some t := by
    rw [trigger_update_eq]
    cases h : s._rate_limit_timer <;> simp [h]
  have hflag : (olsrv2_routing_trigger_update s)._trigger_dijkstra = true := by
    rw [trigger_update_eq]
  have hsd : (olsrv2_routing_trigger_update s)._initiate_shutdown = false := by
    rw [trigger_update_eq]; exact hs
  have hexp : rate_limit_timer_expires e (olsrv2_routing_trigger_update s)
      = run_dijkstra e { olsrv2_routing_trigger_update s with
          _rate_limit_timer := none, _trigger_dijkstra := false } := by
    unfold rate_limit_timer_expires
    rw [ht]
    unfold _cb_trigger_dijkstra
    rw [if_pos hflag, force_update_eq]
    rw [if_neg (by simp [hsd]), if_neg (by simp)]
  obtain ⟨r1, _, _, _, r5, _⟩ := run_dijkstra_sched e
    { olsrv2_routing_trigger_update s with _rate_limit_timer := none, _trigger_dijkstra := false }
  rw [h1, hexp]
  refine ⟨rfl, by rw [ht]; rfl, rfl, r1, ?_⟩
  unfold rate_limit_timer_expires
  rw [r5]
  unfold _cb_trigger_dijkstra
  rw [if_neg (by simp [r1])]

theorem triggers_coalesce_into_one_run_witness :
    (1 ≤ 3 ∧ olsrv2_routing_init._initiate_shutdown = false)
    ∧ (rate_limit_timer_expires scenario1_env
        (trigger_updates 3 olsrv2_routing_init))._trigger_dijkstra = false :=
  ⟨⟨by decide, rfl⟩,
    (triggers_coalesce_into_one_run scenario1_env scenario1_env olsrv2_routing_init 3
      (by decide) rfl).2.2.2.1⟩

/-! ## The completion callbacks, case by case -/

theorem cb_route_new_finished_os_pending (d : Nat) (k : Netaddr) (error : Int)
    (s : RoutingCore) : (_cb_route_new_finished d k error s).os_pending = s.os_pending := by
  unfold _cb_route_new_finished
  split
  · rfl
  · dsimp only
    split_ifs <;> rfl

theorem os_routing_interrupt_new_os_pending (d : Nat) (k : Netaddr) (s : RoutingCore) :
    (os_routing_interrupt_new d k s).os_pending
      = s.os_pending.eraseP
          (fun op => op.domain = d ∧ op.dst = k ∧ op.sel = RouteSel.route_new) := by
  unfold os_routing_interrupt_new
  by_cases hp : os_is_pending s d k RouteSel.route_new = true
  · rw [if_pos hp]
    dsimp only
    split
    · rfl
    · split
      · rfl
      · rw [cb_route_new_finished_os_pending]; rfl
      · rfl
  · rw [if_neg hp]
    unfold os_is_pending at hp
    rw [List.eraseP_of_forall_not]
    intro op hop hop2
    apply hp
    rw [List.any_eq_true]
    exact ⟨op, hop, hop2⟩

/-- C16: the remove callback with error `ESRCH` gives exactly the state of
the remove callback with error 0. In that state `in_processing` is cleared;
the entry is gone from its table when `state_new` was false and is kept with
`state_current` false when `state_new` was true. The operations in flight and
the calls made to the kernel are those of the state before: no add is
interrupted and nothing is issued. -/
theorem remove_callback_esrch_like_success (d : Nat) (k : Netaddr) (s : RoutingCore) :
    _cb_route_current_finished d k ESRCH s = _cb_route_current_finished d k 0 s
    ∧ (∀ rt, s.entry d k = some rt →
        (rt.state_new = false → (_cb_route_current_finished d k 0 s).entry d k = none)
        ∧ (rt.state_new = true → (_cb_route_current_finished d k 0 s).entry d k
            = some { rt with in_processing := false, state_current := false }))
    ∧ (_cb_route_current_finished d k 0 s).os_pending = s.os_pending
    ∧ (_cb_route_current_finished d k 0 s).os_calls = s.os_calls := by
  have h0 : ¬((0 : Int) ≠ ESRCH ∧ (0 : Int) ≠ 0) := by simp
  have h3 : ¬(ESRCH ≠ ESRCH ∧ ESRCH ≠ 0) := by simp
  unfold _cb_route_current_finished
  cases hent : s.entry d k with
  | none => exact ⟨rfl, fun rt h => by simp at h, rfl, rfl⟩
  | some rt0 =>
    dsimp only
    rw [if_neg h0, if_neg h3]
    refine ⟨rfl, ?_, ?_, ?_⟩
    · intro rt hrt
      cases hrt
      constructor
      · intro hn
        rw [if_neg (by simp [hn]), entry_remove_entry, if_pos ⟨rfl, rfl⟩]
      · intro hn
        rw [if_pos hn, entry_modify_entry, if_pos ⟨rfl, rfl⟩, entry_modify_entry,
          if_pos ⟨rfl, rfl⟩, hent]
        · rfl
        · intro _; rfl
        · intro _; rfl
    · split_ifs <;> rfl
    · split_ifs <;> rfl

/-- C17: for an entry with `state_current` true and an error that is neither
0 nor `ESRCH` (the cancel value -1 included) the remove callback is
`os_routing_interrupt` on `route_new` after clearing `in_processing`: the
entry stays in its table, equal to the entry before except for the cleared
`in_processing`; the oldest add in flight for its `route_new` is taken out of
the operations in flight; no call is made to the kernel. -/
theorem remove_callback_error_keeps_entry (d : Nat) (k : Netaddr) (error : Int)
    (s : RoutingCore) (rt : RoutingEntry) (h0 : error ≠ 0) (h1 : error ≠ ESRCH)
    (hent : s.entry d k = some rt) (hc : rt.state_current = true) :
    (_cb_route_current_finished d k error s).entry d k = some { rt with in_processing := false }
    ∧ _cb_route_current_finished d k error s
        = os_routing_interrupt_new d k
            (s.modify_entry d k (fun rt => { rt with in_processing := false }))
    ∧ (_cb_route_current_finished d k error s).os_pending
        = s.os_pending.eraseP
            (fun op => op.domain = d ∧ op.dst = k ∧ op.sel = RouteSel.route_new)
    ∧ (_cb_route_current_finished d k error s).os_calls = s.os_calls := by
  obtain ⟨c1, c2⟩ := cb_route_current_finished_spec d k error s
  have heq : _cb_route_current_finished d k error s
      = os_routing_interrupt_new d k
          (s.modify_entry d k (fun rt => { rt with in_processing := false })) := by
    unfold _cb_route_current_finished
    rw [hent]
    dsimp only
    rw [if_pos ⟨h1, h0⟩]
  refine ⟨c2 rt hent hc h1 h0, heq, ?_, c1.os_calls⟩
  rw [heq, os_routing_interrupt_new_os_pending]
  rfl

theorem remove_callback_error_keeps_entry_witness :
    ∃ rt, scenario1_replacing.entry 0 (ip4 2) = some rt ∧ rt.state_current = true
      ∧ (_cb_route_current_finished 0 (ip4 2) 5 scenario1_replacing).entry 0 (ip4 2)
          = some { rt with in_processing := false }
      ∧ scenario1_replacing.os_pending.map (fun op => (op.dst, op.sel, op.set))
          = [(ip4 3, RouteSel.route_new, true), (ip4 2, RouteSel.route_new, true),
              (ip4 3, RouteSel.route_new, true), (ip4 2, RouteSel.route_current, false)]
      ∧ (_cb_route_current_finished 0 (ip4 2) 5 scenario1_replacing).os_pending.map
            (fun op => (op.dst, op.sel, op.set))
          = [(ip4 3, RouteSel.route_new, true), (ip4 3, RouteSel.route_new, true),
              (ip4 2, RouteSel.route_current, false)] := by
  cases h : scenario1_replacing.entry 0 (ip4 2) with
  | none => exact absurd h (by decide)
  | some rt =>
    have hc : rt.state_current = true := by
      have h2 : (scenario1_replacing.entry 0 (ip4 2)).map (fun rt => rt.state_current)
          = some true := by decide
      rw [h] at h2
      simpa using h2
    exact ⟨rt, rfl, hc,
      (remove_callback_error_keeps_entry 0 (ip4 2) 5 scenario1_replacing rt (by decide)
        (by decide) h hc).1, by decide, by decide⟩

/-- C18: the add callback with error 0 sets `state_current`, makes
`route_current` the value of `route_new` in every field except `cb_finished`,
which is the remove callback `_cb_route_current_finished`, and clears
`in_processing`; `domain`, `state_new`, `cost` and `route_new` are those of
the entry before. -/
theorem add_callback_success_installs (d : Nat) (k : Netaddr) (s : RoutingCore)
    (rt : RoutingEntry) (hent : s.entry d k = some rt) :
    (_cb_route_new_finished d k 0 s).entry d k
      = some { rt with
          in_processing := false
          state_current := true
          route_current :=
            { rt.route_new with cb_finished := Callback._cb_route_current_finished } } := by
  unfold _cb_route_new_finished
  rw [hent]
  dsimp only
  rw [if_neg (by simp), entry_modify_entry, if_pos ⟨rfl, rfl⟩, entry_modify_entry,
    if_pos ⟨rfl, rfl⟩, hent]
  · rfl
  · intro _; rfl
  · intro _; rfl

theorem add_callback_success_installs_witness :
    ∃ rt, scenario1_run1.entry 0 (ip4 2) = some rt
      ∧ (_cb_route_new_finished 0 (ip4 2) 0 scenario1_run1).entry 0 (ip4 2)
          = some { rt with
              in_processing := false
              state_current := true
              route_current :=
                { rt.route_new with cb_finished := Callback._cb_route_current_finished } } := by
  cases h : scenario1_run1.entry 0 (ip4 2) with
  | none => exact absurd h (by decide)
  | some rt => exact ⟨rt, rfl, add_callback_success_installs 0 (ip4 2) scenario1_run1 rt h⟩

/-- C19: for a non-zero error the add callback removes the entry from its
table exactly when `state_current` is false; an entry with `state_current`
true stays, equal to the entry before except for the cleared `in_processing`
(so `state_current` and `route_current` are unchanged); the callback makes no
call to the kernel and leaves the operations in flight alone. -/
theorem add_callback_error_destroys_iff_not_installed (d : Nat) (k : Netaddr) (error : Int)
    (s : RoutingCore) (rt : RoutingEntry) (herr : error ≠ 0) (hent : s.entry d k = some rt) :
    ((_cb_route_new_finished d k error s).entry d k = none ↔ rt.state_current = false)
    ∧ (rt.state_current = true →
        (_cb_route_new_finished d k error s).entry d k = some { rt with in_processing := false })
    ∧ (_cb_route_new_finished d k error s).os_calls = s.os_calls
    ∧ (_cb_route_new_finished d k error s).os_pending = s.os_pending := by
  obtain ⟨c1, c2⟩ := cb_route_new_finished_spec d k error s
  refine ⟨?_, fun hc => c2 rt hent hc herr, c1.os_calls, cb_route_new_finished_os_pending d k error s⟩
  constructor
  · intro hnone
    by_contra hc
    have hc2 : rt.state_current = true := by simpa using hc
    rw [c2 rt hent hc2 herr] at hnone
    exact absurd hnone (by simp)
  · intro hc
    unfold _cb_route_new_finished
    rw [hent]
    dsimp only
    rw [if_pos herr, if_pos hc, entry_remove_entry, if_pos ⟨rfl, rfl⟩]

theorem add_callback_error_destroys_iff_not_installed_witness :
    ∃ rt, scenario1_run1.entry 0 (ip4 2) = some rt
      ∧ ((_cb_route_new_finished 0 (ip4 2) 5 scenario1_run1).entry 0 (ip4 2) = none
          ↔ rt.state_current = false) := by
  cases h : scenario1_run1.entry 0 (ip4 2) with
  | none => exact absurd h (by decide)
  | some rt =>
    exact ⟨rt, rfl,
      (add_callback_error_destroys_iff_not_installed 0 (ip4 2) 5 scenario1_run1 rt (by decide)
        h).1⟩

/-! ## Filters -/

/-- C15: in scenario S1 with a filter attached that rejects every route, the
reconcile step of the SPF run still puts both entries on the kernel queue,
and the run issues a kernel add for each of them. -/
theorem rejected_route_is_still_added :
    (∀ rt, scenario1_filtered.entry 0 (ip4 2) = some rt →
      reject_all.filter 0 rt.route_new = false)
    ∧ (spf_domain scenario1_env filtered_init 0)._kernel_queue = [(0, ip4 2), (0, ip4 3)]
    ∧ scenario1_filtered.os_calls.map (fun op => (op.dst, op.sel, op.set))
        = [(ip4 2, RouteSel.route_new, true), (ip4 3, RouteSel.route_new, true)] :=
  ⟨fun _ _ => rfl, by decide, by decide⟩

/-- C11 (counterexample): after `olsrv2_routing_initiate_shutdown` and two
calls of `olsrv2_routing_trigger_update` the timer is armed and the flag is
set, but the expiry of the timer only clears the flag; no SPF run is
performed (an SPF run would leave the timer armed with the rate-limit
interval). -/
theorem no_run_while_shutting_down :
    scenario1_shutdown_triggered._rate_limit_timer.isSome = true
    ∧ scenario1_shutdown_triggered._trigger_dijkstra = true
    ∧ rate_limit_timer_expires scenario1_env scenario1_shutdown_triggered
        = { scenario1_shutdown_triggered with
              _rate_limit_timer := none, _trigger_dijkstra := false }
    ∧ rate_limit_timer_expires scenario1_env scenario1_shutdown_triggered
        ≠ run_dijkstra scenario1_env
            { scenario1_shutdown_triggered with
                _rate_limit_timer := none, _trigger_dijkstra := false } := by
  have hsd : scenario1_shutdown_triggered._initiate_shutdown = true := by decide
  have ht : scenario1_shutdown_triggered._rate_limit_timer = some 1000 := by decide
  have hf : scenario1_shutdown_triggered._trigger_dijkstra = true := by decide
  have heq : rate_limit_timer_expires scenario1_env scenario1_shutdown_triggered
      = { scenario1_shutdown_triggered with
            _rate_limit_timer := none, _trigger_dijkstra := false } := by
    unfold rate_limit_timer_expires
    rw [ht]
    unfold _cb_trigger_dijkstra
    rw [if_pos hf, force_update_eq, if_pos hsd]
  refine ⟨by rw [ht]; rfl, hf, heq, ?_⟩
  intro h
  have h2 := congrArg RoutingCore._rate_limit_timer h
  rw [heq, (run_dijkstra_sched scenario1_env _).2.2.2.2.1] at h2
  exact absurd h2 (by simp)

/-! ## Isolation of the domains -/

theorem spfFrame_cb_route_new_finished (d : Nat) (k : Netaddr) (error : Int) (s : RoutingCore) :
    SpfFrame d s (_cb_route_new_finished d k error s) := by
  unfold _cb_route_new_finished
  split
  · exact SpfFrame.spf_refl d s
  · dsimp only
    split_ifs
    · exact (spfFrame_modify_entry s d k _).spf_trans (spfFrame_remove_entry _ d k)
    · exact spfFrame_modify_entry s d k _
    · exact (spfFrame_modify_entry s d k _).spf_trans (spfFrame_modify_entry _ d k _)

theorem spfFrame_os_routing_interrupt_new (d : Nat) (k : Netaddr) (s : RoutingCore) :
    SpfFrame d s (os_routing_interrupt_new d k s) := by
  have hc : SpfFrame d s (os_cancel s d k RouteSel.route_new) :=
    ⟨rfl, rfl, rfl, rfl, rfl, fun _ _ => rfl⟩
  unfold os_routing_interrupt_new
  split_ifs
  · dsimp only
    split
    · exact hc
    · split
      · exact hc
      · exact hc.spf_trans (spfFrame_cb_route_new_finished d k _ _)
      · exact hc.spf_trans ⟨rfl, rfl, rfl, rfl, rfl, fun _ _ => rfl⟩
  · exact SpfFrame.spf_refl d s

theorem spfFrame_cb_route_current_finished (d : Nat) (k : Netaddr) (error : Int)
    (s : RoutingCore) : SpfFrame d s (_cb_route_current_finished d k error s) := by
  unfold _cb_route_current_finished
  split
  · exact SpfFrame.spf_refl d s
  · dsimp only
    split_ifs
    · exact (spfFrame_modify_entry s d k _).spf_trans (spfFrame_os_routing_interrupt_new d k _)
    · exact (spfFrame_modify_entry s d k _).spf_trans (spfFrame_modify_entry _ d k _)
    · exact (spfFrame_modify_entry s d k _).spf_trans (spfFrame_remove_entry _ d k)

theorem spfFrame_os_routing_interrupt_current (d : Nat) (k : Netaddr) (s : RoutingCore) :
    SpfFrame d s (os_routing_interrupt_current d k s) := by
  have hc : SpfFrame d s (os_cancel s d k RouteSel.route_current) :=
    ⟨rfl, rfl, rfl, rfl, rfl, fun _ _ => rfl⟩
  unfold os_routing_interrupt_current
  split_ifs
  · dsimp only
    split
    · exact hc
    · split
      · exact hc
      · exact hc.spf_trans (spfFrame_cb_route_current_finished d k _ _)
      · exact hc.spf_trans ⟨rfl, rfl, rfl, rfl, rfl, fun _ _ => rfl⟩
  · exact SpfFrame.spf_refl d s

theorem spfFrame_set_parameter_entry (e : Env) (d : Nat) (s : RoutingCore) (k : Netaddr) :
    SpfFrame d s (set_parameter_entry e d s k) := by
  unfold set_parameter_entry
  split
  · exact SpfFrame.spf_refl d s
  · split_ifs
    · exact (((spfFrame_os_routing_interrupt_new d k s).spf_trans
        (spfFrame_os_routing_interrupt_current d k _)).spf_trans
        (spfFrame_modify_entry _ d k _)).spf_trans (spfFrame_add_route_to_kernel_queue e d k _)
    · exact (spfFrame_modify_entry _ d k _).spf_trans (spfFrame_add_route_to_kernel_queue e d k _)
    · exact SpfFrame.spf_refl d s

theorem queue_domain_set_parameter_entry (e : Env) (d : Nat) (s : RoutingCore) (k : Netaddr) :
    ∀ ref ∈ (set_parameter_entry e d s k)._kernel_queue, ref ∈ s._kernel_queue ∨ ref.1 = d := by
  obtain ⟨_, _, _, p4, p5⟩ := set_parameter_entry_spec e d s k
  intro ref href
  cases hent : s.entry d k with
  | none => rw [p5 (Or.inl hent)] at href; exact Or.inl href
  | some rt =>
    by_cases hc : rt.state_current = true
    · obtain ⟨rt', _, _, _, _, hq⟩ := p4 rt hent hc
      rcases hq with hq | hq
      · rw [hq] at href
        rcases List.mem_cons.mp href with h | h
        · exact Or.inr (by rw [h])
        · exact Or.inl h
      · rw [hq] at href
        rcases List.mem_append.mp href with h | h
        · exact Or.inl h
        · rw [List.mem_singleton] at h
          exact Or.inr (by rw [h])
    · rw [p5 (Or.inr ⟨rt, hent, by simpa using hc⟩)] at href
      exact Or.inl href

theorem queue_domain_foldl_set_parameter_entry (e : Env) (d : Nat) (l : List Netaddr)
    (s : RoutingCore) :
    ∀ ref ∈ (l.foldl (set_parameter_entry e d) s)._kernel_queue,
      ref ∈ s._kernel_queue ∨ ref.1 = d := by
  induction l generalizing s with
  | nil => exact fun ref h => Or.inl h
  | cons k l ih =>
    intro ref href
    rcases ih (set_parameter_entry e d s k) ref href with h | h
    · exact queue_domain_set_parameter_entry e d s k ref h
    · exact Or.inr h

theorem spfFrame_process_kernel_entry (e : Env) (s : RoutingCore) (ref : Nat × Netaddr) :
    SpfFrame ref.1 s (process_kernel_entry e s ref) := by
  have hos : ∀ (op : OsOp) (t : RoutingCore), SpfFrame ref.1 t (os_routing_set e op t).1 :=
    fun op t => spfFrame_of_frame ref.1 (os_routing_set_spec e op t).2.2.2.2
      (os_routing_set_spec e op t).1
  unfold process_kernel_entry
  split
  · exact SpfFrame.spf_refl _ s
  · dsimp only
    split_ifs
    · exact ((spfFrame_modify_entry s _ _ _).spf_trans (hos _ _)).spf_trans (hos _ _)
    · exact (spfFrame_modify_entry s _ _ _).spf_trans (hos _ _)
    · exact (spfFrame_modify_entry s _ _ _).spf_trans (hos _ _)
    · exact spfFrame_modify_entry s _ _ _

theorem spfFrame_process_kernel_list (e : Env) (d : Nat) (q : List (Nat × Netaddr))
    (s : RoutingCore) (hq : ∀ ref ∈ q, ref.1 = d) :
    SpfFrame d s (process_kernel_list e q s) := by
  induction q generalizing s with
  | nil => exact SpfFrame.spf_refl d s
  | cons ref rest ih =>
    unfold process_kernel_list
    have h1 : SpfFrame d s { s with _kernel_queue := rest } :=
      ⟨rfl, rfl, rfl, rfl, rfl, fun _ _ => rfl⟩
    have h2 := spfFrame_process_kernel_entry e { s with _kernel_queue := rest } ref
    rw [hq ref (List.mem_cons_self _ _)] at h2
    exact (h1.spf_trans h2).spf_trans (ih _ (fun r hr => hq r (List.mem_cons_of_mem _ hr)))

theorem set_domain_parameter_eq (e : Env) (d : Nat) (p : RoutingDomain) (s : RoutingCore) :
    olsrv2_routing_set_domain_parameter e d p s
      = if p = s._domain_parameter d then s
        else if s._routing_tree d = [] then
          { s with _domain_parameter := Function.update s._domain_parameter d p }
        else
          { _process_kernel_queue e ((s.keys d).foldl (set_parameter_entry e d)
              { s with _domain_parameter := Function.update s._domain_parameter d p }) with
            _rate_limit_timer := some 100, _trigger_dijkstra := true } := rfl

/-- C20: for distinct domains `d` and `d'` the SPF pipeline of `d` (prepare,
relax loop, single-hop pass, reconcile) returns the routing tree of `d'` as it
was; `olsrv2_routing_set_domain_parameter` for `d` leaves the stored
parameters of `d'` as they were and, called with an empty kernel queue (every
operation leaves the queue empty), returns the routing tree of `d'` as it
was. -/
theorem domains_are_isolated (e : Env) (d d' : Nat) (p : RoutingDomain) (s : RoutingCore)
    (hd : d' ≠ d) :
    (spf_domain e s d)._routing_tree d' = s._routing_tree d'
    ∧ (olsrv2_routing_set_domain_parameter e d p s)._domain_parameter d' = s._domain_parameter d'
    ∧ (s._kernel_queue = [] →
        (olsrv2_routing_set_domain_parameter e d p s)._routing_tree d' = s._routing_tree d') := by
  have hf := frame_foldl_set_parameter_entry e d (s.keys d)
    { s with _domain_parameter := Function.update s._domain_parameter d p }
  have hk := frame_process_kernel_queue e
    ((s.keys d).foldl (set_parameter_entry e d)
      { s with _domain_parameter := Function.update s._domain_parameter d p })
  have h1 := spfFrame_foldl d (set_parameter_entry e d) (spfFrame_set_parameter_entry e d)
    (s.keys d) { s with _domain_parameter := Function.update s._domain_parameter d p }
  have hqd := queue_domain_foldl_set_parameter_entry e d (s.keys d)
    { s with _domain_parameter := Function.update s._domain_parameter d p }
  refine ⟨(spfFrame_spf_domain e s d).other_trees d' hd, ?_, ?_⟩
  · rw [set_domain_parameter_eq]
    split_ifs
    · rfl
    · exact Function.update_noteq hd _ _
    · show (_process_kernel_queue e _)._domain_parameter d' = _
      rw [hk.domain_parameter, hf.domain_parameter]
      exact Function.update_noteq hd _ _
  · intro hq
    have h2 := spfFrame_process_kernel_list e d _
      ((s.keys d).foldl (set_parameter_entry e d)
        { s with _domain_parameter := Function.update s._domain_parameter d p })
      (fun ref href => by
        rcases hqd ref href with h | h
        · rw [hq] at h; exact absurd h (List.not_mem_nil _)
        · exact h)
    rw [set_domain_parameter_eq]
    split_ifs
    · rfl
    · rfl
    · show (_process_kernel_queue e _)._routing_tree d' = _
      unfold _process_kernel_queue
      rw [h2.other_trees d' hd]
      exact h1.other_trees d' hd

theorem domains_are_isolated_witness :
    ((1 : Nat) ≠ 0 ∧ scenario1_installed._kernel_queue = [])
    ∧ (spf_domain scenario1_env scenario1_installed 0)._routing_tree 1
        = scenario1_installed._routing_tree 1
    ∧ (olsrv2_routing_set_domain_parameter scenario1_env 0 ⟨false, 3, 254, 2⟩
        scenario1_installed)._domain_parameter 1 = scenario1_installed._domain_parameter 1
    ∧ (olsrv2_routing_set_domain_parameter scenario1_env 0 ⟨false, 3, 254, 2⟩
        scenario1_installed)._routing_tree 1 = scenario1_installed._routing_tree 1 :=
  ⟨⟨by decide, by decide⟩,
    (domains_are_isolated scenario1_env 0 1 ⟨false, 3, 254, 2⟩ scenario1_installed
      (by decide)).1,
    (domains_are_isolated scenario1_env 0 1 ⟨false, 3, 254, 2⟩ scenario1_installed
      (by decide)).2.1,
    (domains_are_isolated scenario1_env 0 1 ⟨false, 3, 254, 2⟩ scenario1_installed
      (by decide)).2.2 (by decide)⟩

/-! ## Shutdown and cleanup -/

theorem tree_empty_of_entry_none (s : RoutingCore) (i : Nat) (h : ∀ k, s.entry i k = none) :
    s._routing_tree i = [] := by
  cases ht : s._routing_tree i with
  | nil => rfl
  | cons a l =>
    have h2 := h a.route_new.dst
    unfold RoutingCore.entry avl_find_element at h2
    rw [ht, List.find?_cons] at h2
    simp at h2

theorem entry_none_of_not_mem_keys (s : RoutingCore) (i : Nat) (k : Netaddr)
    (h : k ∉ s.keys i) : s.entry i k = none := by
  unfold RoutingCore.entry avl_find_element
  rw [List.find?_eq_none]
  intro rt hrt hk
  apply h
  unfold RoutingCore.keys
  rw [List.mem_map]
  exact ⟨rt, hrt, by simpa using hk⟩

theorem cleanup_entry_entry (d : Nat) (k : Netaddr) (s : RoutingCore) (d' : Nat) (k' : Netaddr) :
    (cleanup_entry d s k).entry d' k' = if d' = d ∧ k' = k then none else s.entry d' k' := by
  unfold cleanup_entry
  dsimp only
  rw [entry_remove_entry]
  by_cases h : d' = d ∧ k' = k
  · rw [if_pos h, if_pos h]
  · rw [if_neg h, if_neg h]
    rw [(os_routing_interrupt_current_spec d k _).1.others d' k' h, entry_modify_entry,
      if_neg h, (os_routing_interrupt_new_spec d k _).1.others d' k' h, entry_modify_entry,
      if_neg h]
    · intro _; rfl
    · intro _; rfl

theorem foldl_cleanup_entry_entry (d : Nat) (l : List Netaddr) (s : RoutingCore) (d' : Nat)
    (k' : Netaddr) :
    (l.foldl (cleanup_entry d) s).entry d' k'
      = if d' = d ∧ k' ∈ l then none else s.entry d' k' := by
  induction l generalizing s with
  | nil => simp
  | cons a l ih =>
    rw [List.foldl_cons, ih, cleanup_entry_entry]
    by_cases hd : d' = d
    · by_cases hl : k' ∈ l
      · simp [hd, hl]
      · by_cases ha : k' = a
        · simp [hd, ha]
        · simp [hd, hl, ha]
    · simp [hd]

theorem cleanup_domain_entry (d : Nat) (s : RoutingCore) (d' : Nat) (k' : Netaddr) :
    ((s.keys d).foldl (cleanup_entry d) s).entry d' k'
      = if d' = d then none else s.entry d' k' := by
  rw [foldl_cleanup_entry_entry]
  by_cases hd : d' = d
  · by_cases hk : k' ∈ s.keys d
    · simp [hd, hk]
    · subst hd
      simp [hk, entry_none_of_not_mem_keys s d' k' hk]
  · simp [hd]

theorem foldl_cleanup_domain_entry (ds : List Nat) (s : RoutingCore) (d' : Nat) (k' : Netaddr) :
    (ds.foldl (fun s i => (s.keys i).foldl (cleanup_entry i) s) s).entry d' k'
      = if d' ∈ ds then none else s.entry d' k' := by
  induction ds generalizing s with
  | nil => simp
  | cons a ds ih =>
    rw [List.foldl_cons, ih, cleanup_domain_entry]
    by_cases h1 : d' ∈ ds
    · simp [h1]
    · by_cases h2 : d' = a
      · simp [h2]
      · simp [h1, h2]

/-- After `olsrv2_routing_cleanup` the routing tree of every domain is empty. -/
theorem cleanup_empties_tables (e : Env) (s : RoutingCore) (i : Nat)
    (hi : i < e.NHDP_MAXIMUM_DOMAINS) : (olsrv2_routing_cleanup e s)._routing_tree i = [] := by
  apply tree_empty_of_entry_none
  intro k
  have h := foldl_cleanup_domain_entry (List.range e.NHDP_MAXIMUM_DOMAINS)
    { s with _rate_limit_timer := none } i k
  rw [if_pos (List.mem_range.mpr hi)] at h
  exact h

theorem mark_removed_state_current (rt : RoutingEntry) :
    (mark_removed rt).state_current = rt.state_current := by
  unfold mark_removed; split_ifs <;> rfl

theorem mark_removed_idem (rt : RoutingEntry) :
    mark_removed (mark_removed rt) = mark_removed rt := by
  unfold mark_removed; split_ifs <;> rfl

/-- The effect of the body of the entry loop of
`olsrv2_routing_initiate_shutdown`. -/
theorem shutdown_entry_spec (e : Env) (d : Nat) (s : RoutingCore) (k : Netaddr) :
    Frame s (shutdown_entry e d s k)
    ∧ (shutdown_entry e d s k).os_calls = s.os_calls
    ∧ (∀ d', (shutdown_entry e d s k).keys d' = s.keys d')
    ∧ (∀ d' k', (shutdown_entry e d s k).entry d' k'
        = if d' = d ∧ k' = k then (s.entry d' k').map mark_removed else s.entry d' k')
    ∧ (∀ ref ∈ (shutdown_entry e d s k)._kernel_queue,
        ref ∈ s._kernel_queue
        ∨ (ref = (d, k) ∧ ∃ rt, s.entry ref.1 ref.2 = some rt ∧ rt.state_current = true))
    ∧ (∀ ref ∈ s._kernel_queue, ref ∈ (shutdown_entry e d s k)._kernel_queue)
    ∧ (∀ rt, s.entry d k = some rt → rt.state_current = true →
        (d, k) ∈ (shutdown_entry e d s k)._kernel_queue) := by
  unfold shutdown_entry
  cases hent : s.entry d k with
  | none =>
    refine ⟨Frame.frame_refl s, rfl, fun _ => rfl, ?_, fun _ h => Or.inl h, fun _ h => h,
      fun rt h => by simp at h⟩
    intro d' k'
    by_cases h : d' = d ∧ k' = k
    · rw [if_pos h, h.1, h.2, hent]; rfl
    · rw [if_neg h]
  | some rt0 =>
    dsimp only
    by_cases hc : rt0.state_current = true
    · rw [if_pos hc]
      have hm : (s.modify_entry d k (fun rt => { rt with state_new := false })).entry d k
          = some { rt0 with state_new := false } := by
        rw [entry_modify_entry, if_pos ⟨rfl, rfl⟩, hent]
        · rfl
        · intro _; rfl
      obtain ⟨a1, a2, _, a4, _, a6, a7⟩ := add_route_to_kernel_queue_spec e d k
        (s.modify_entry d k (fun rt => { rt with state_new := false }))
      obtain ⟨rt', b1, _, _, _, _, _, b7, b8⟩ := a2 _ hm
      have hrt' : rt' = { rt0 with state_new := false } := b7 rfl
      have hq : ∀ ref, ref ∈ (_add_route_to_kernel_queue e d k
            (s.modify_entry d k (fun rt => { rt with state_new := false })))._kernel_queue
          ↔ ref = (d, k) ∨ ref ∈ s._kernel_queue := by
        intro ref
        rw [b8]
        split_ifs
        · exact List.mem_cons
        · rw [List.mem_append, List.mem_singleton]
          exact Or.comm
      refine ⟨(frame_modify_entry s d k _).frame_trans a7, a4, ?_, ?_, ?_, ?_, ?_⟩
      · intro d'
        rw [a6, keys_modify_entry]
        intro _; rfl
      · intro d' k'
        by_cases h : d' = d ∧ k' = k
        · rw [if_pos h, h.1, h.2, b1, hrt', hent]
          simp [mark_removed, hc]
        · rw [if_neg h, a1 d' k' h, entry_modify_entry, if_neg h]
          intro _; rfl
      · intro ref href
        rcases (hq ref).mp href with h | h
        · right
          rw [h]
          exact ⟨rfl, rt0, hent, hc⟩
        · exact Or.inl h
      · intro ref href
        exact (hq ref).mpr (Or.inr href)
      · intro _ _ _
        exact (hq (d, k)).mpr (Or.inl rfl)
    · rw [if_neg hc]
      refine ⟨Frame.frame_refl s, rfl, fun _ => rfl, ?_, fun _ h => Or.inl h, fun _ h => h, ?_⟩
      · intro d' k'
        by_cases h : d' = d ∧ k' = k
        · rw [if_pos h, h.1, h.2, hent]
          simp [mark_removed, hc]
        · rw [if_neg h]
      · intro rt hrt hrc
        cases hrt
        exact absurd hrc hc

/-- The entry loops of `olsrv2_routing_initiate_shutdown`, as one loop over
entry pointers. -/
theorem foldl_shutdown_entry_spec (e : Env) (refs : List (Nat × Netaddr)) (s : RoutingCore) :
    Frame s (refs.foldl (fun s ref => shutdown_entry e ref.1 s ref.2) s)
    ∧ (refs.foldl (fun s ref => shutdown_entry e ref.1 s ref.2) s).os_calls = s.os_calls
    ∧ (∀ d', (refs.foldl (fun s ref => shutdown_entry e ref.1 s ref.2) s).keys d' = s.keys d')
    ∧ (∀ d' k', (refs.foldl (fun s ref => shutdown_entry e ref.1 s ref.2) s).entry d' k'
        = if (d', k') ∈ refs then (s.entry d' k').map mark_removed else s.entry d' k')
    ∧ (∀ ref ∈ (refs.foldl (fun s ref => shutdown_entry e ref.1 s ref.2) s)._kernel_queue,
        ref ∈ s._kernel_queue
        ∨ (ref ∈ refs ∧ ∃ rt, s.entry ref.1 ref.2 = some rt ∧ rt.state_current = true))
    ∧ (∀ ref ∈ s._kernel_queue,
        ref ∈ (refs.foldl (fun s ref => shutdown_entry e ref.1 s ref.2) s)._kernel_queue)
    ∧ (∀ ref ∈ refs, ∀ rt, s.entry ref.1 ref.2 = some rt → rt.state_current = true →
        ref ∈ (refs.foldl (fun s ref => shutdown_entry e ref.1 s ref.2) s)._kernel_queue) := by
  induction refs generalizing s with
  | nil =>
    exact ⟨Frame.frame_refl s, rfl, fun _ => rfl, fun _ _ => by simp, fun _ h => Or.inl h,
      fun _ h => h, fun ref h => absurd h (List.not_mem_nil ref)⟩
  | cons a rest ih =>
    obtain ⟨a1, a2, a3, a4, a5, a6, a7⟩ := shutdown_entry_spec e a.1 s a.2
    obtain ⟨b1, b2, b3, b4, b5, b6, b7⟩ := ih (shutdown_entry e a.1 s a.2)
    rw [List.foldl_cons]
    -- an entry of the state after the first step, read in the state before
    have hstep : ∀ d' k' rt, (shutdown_entry e a.1 s a.2).entry d' k' = some rt →
        ∃ rt0, s.entry d' k' = some rt0 ∧ rt0.state_current = rt.state_current := by
      intro d' k' rt h
      rw [a4] at h
      split_ifs at h
      · cases h0 : s.entry d' k' with
        | none => rw [h0] at h; simp at h
        | some rt0 =>
          rw [h0] at h
          simp only [Option.map_some', Option.some.injEq] at h
          exact ⟨rt0, rfl, by rw [← h, mark_removed_state_current]⟩
      · exact ⟨rt, h, rfl⟩
    have hstep2 : ∀ d' k' rt, s.entry d' k' = some rt →
        ∃ rt1, (shutdown_entry e a.1 s a.2).entry d' k' = some rt1
          ∧ rt1.state_current = rt.state_current := by
      intro d' k' rt h
      rw [a4, h]
      split_ifs
      · exact ⟨mark_removed rt, rfl, mark_removed_state_current rt⟩
      · exact ⟨rt, rfl, rfl⟩
    refine ⟨a1.frame_trans b1, b2.trans a2, fun d' => (b3 d').trans (a3 d'), ?_, ?_, ?_, ?_⟩
    · intro d' k'
      rw [b4, a4]
      by_cases h1 : (d', k') ∈ rest
      · by_cases h2 : d' = a.1 ∧ k' = a.2
        · rw [if_pos h1, if_pos h2, if_pos (List.mem_cons_of_mem _ h1), Option.map_map]
          congr 1
          funext rt
          exact mark_removed_idem rt
        · rw [if_pos h1, if_neg h2, if_pos (List.mem_cons_of_mem _ h1)]
      · by_cases h2 : d' = a.1 ∧ k' = a.2
        · have : (d', k') ∈ a :: rest := by
            rw [h2.1, h2.2]; exact List.mem_cons_self _ _
          rw [if_neg h1, if_pos h2, if_pos this]
        · have : (d', k') ∉ a :: rest := by
            intro h
            rcases List.mem_cons.mp h with h | h
            · exact h2 ⟨by rw [← h], by rw [← h]⟩
            · exact h1 h
          rw [if_neg h1, if_neg h2, if_neg this]
    · intro ref href
      rcases b5 ref href with h | ⟨hmem, rt, h, hc⟩
      · rcases a5 ref h with h | ⟨h, h2⟩
        · exact Or.inl h
        · exact Or.inr ⟨by rw [h]; exact List.mem_cons_self _ _, h2⟩
      · obtain ⟨rt0, h0, hc0⟩ := hstep _ _ _ h
        exact Or.inr ⟨List.mem_cons_of_mem _ hmem, rt0, h0, hc0.trans hc⟩
    · intro ref href
      exact b6 ref (a6 ref href)
    · intro ref href rt hrt hc
      rcases List.mem_cons.mp href with h | h
      · rw [h]
        rw [h] at hrt
        exact b6 _ (a7 rt hrt hc)
      · obtain ⟨rt1, h1, hc1⟩ := hstep2 _ _ _ hrt
        exact b7 ref h rt1 h1 (hc1.trans hc)

theorem foldl_shutdown_domains_eq (e : Env) (ds : List Nat) (s : RoutingCore) :
    ds.foldl (fun s i => (s.keys i).foldl (shutdown_entry e i) s) s
      = (all_refs s ds).foldl (fun s ref => shutdown_entry e ref.1 s ref.2) s := by
  induction ds generalizing s with
  | nil => rfl
  | cons i ds ih =>
    have h1 : (s.keys i).foldl (shutdown_entry e i) s
        = ((s.keys i).map (fun k => (i, k))).foldl
            (fun s ref => shutdown_entry e ref.1 s ref.2) s := by
      rw [List.foldl_map]
    have hk : all_refs ((s.keys i).foldl (shutdown_entry e i) s) ds = all_refs s ds := by
      unfold all_refs
      rw [h1]
      congr 1
      funext j
      rw [(foldl_shutdown_entry_spec e _ s).2.2.1 j]
    rw [List.foldl_cons, ih, hk]
    unfold all_refs
    rw [List.flatMap_cons, List.foldl_append, ← h1]

theorem mem_all_refs (s : RoutingCore) (ds : List Nat) (d : Nat) (k : Netaddr) :
    (d, k) ∈ all_refs s ds ↔ d ∈ ds ∧ k ∈ s.keys d := by
  unfold all_refs
  rw [List.mem_flatMap]
  constructor
  · rintro ⟨i, hi, h⟩
    rw [List.mem_map] at h
    obtain ⟨k0, hk0, h⟩ := h
    cases h
    exact ⟨hi, hk0⟩
  · rintro ⟨hd, hk⟩
    exact ⟨d, hd, List.mem_map.mpr ⟨k, hk, rfl⟩⟩

theorem keys_congr {s s' : RoutingCore} (h : s'._routing_tree = s._routing_tree) (d : Nat) :
    s'.keys d = s.keys d := by
  unfold RoutingCore.keys; rw [h]

theorem keys_process_kernel_entry (e : Env) (s : RoutingCore) (ref : Nat × Netaddr) (d : Nat) :
    (process_kernel_entry e s ref).keys d = s.keys d := by
  have hm : (s.modify_entry ref.1 ref.2 (fun rt => { rt with in_processing := true })).keys d
      = s.keys d :=
    keys_modify_entry s ref.1 ref.2 (fun rt => { rt with in_processing := true })
      (fun _ => rfl) d
  unfold process_kernel_entry
  split
  · rfl
  · dsimp only
    split_ifs
    · rw [keys_congr (os_routing_set_spec e _ _).1, keys_congr (os_routing_set_spec e _ _).1, hm]
    · rw [keys_congr (os_routing_set_spec e _ _).1, hm]
    · rw [keys_congr (os_routing_set_spec e _ _).1, hm]
    · exact hm

theorem keys_process_kernel_list (e : Env) (q : List (Nat × Netaddr)) (s : RoutingCore)
    (d : Nat) : (process_kernel_list e q s).keys d = s.keys d := by
  induction q generalizing s with
  | nil => rfl
  | cons ref rest ih =>
    unfold process_kernel_list
    rw [ih, keys_process_kernel_entry]
    rfl

/-- The entry loops of `olsrv2_routing_initiate_shutdown` followed by the
drain, started with an empty kernel queue on trees without duplicate keys. -/
theorem shutdown_loops_spec (e : Env) (s : RoutingCore) (hq : s._kernel_queue = [])
    (hnd : ∀ i, i < e.NHDP_MAXIMUM_DOMAINS → (s.keys i).Nodup) :
    ∃ calls,
      (_process_kernel_queue e ((List.range e.NHDP_MAXIMUM_DOMAINS).foldl
        (fun s i => (s.keys i).foldl (shutdown_entry e i) s) s)).os_calls = s.os_calls ++ calls
      ∧ (∀ op ∈ calls, op.set = false)
      ∧ ∀ i, i < e.NHDP_MAXIMUM_DOMAINS →
          ∀ rt ∈ (_process_kernel_queue e ((List.range e.NHDP_MAXIMUM_DOMAINS).foldl
              (fun s i => (s.keys i).foldl (shutdown_entry e i) s) s))._routing_tree i,
            rt.state_current = false
            ∨ (rt.state_new = false ∧ rt.in_processing = true
              ∧ (⟨i, rt.route_new.dst, RouteSel.route_current, rt.route_current, false⟩ : OsOp)
                  ∈ calls) := by
  -- the state after the entry loops
  obtain ⟨s2, hs2⟩ : ∃ s2, s2 = (all_refs s (List.range e.NHDP_MAXIMUM_DOMAINS)).foldl
      (fun s ref => shutdown_entry e ref.1 s ref.2) s := ⟨_, rfl⟩
  obtain ⟨_, c2, c3, c4, c5, _, c7⟩ := foldl_shutdown_entry_spec e
    (all_refs s (List.range e.NHDP_MAXIMUM_DOMAINS)) s
  rw [foldl_shutdown_domains_eq, ← hs2]
  rw [← hs2] at c2 c3 c4 c5 c7
  unfold _process_kernel_queue
  obtain ⟨d1, _, d3, _, _, _⟩ := process_kernel_list_spec e s2._kernel_queue s2
  have hk : ∀ i, (process_kernel_list e s2._kernel_queue s2).keys i = s.keys i := by
    intro i
    rw [keys_process_kernel_list, c3]
  -- every queued pointer refers to an installed entry with `state_new` cleared
  have hqueued : ∀ ref ∈ s2._kernel_queue, ∃ rt0 : RoutingEntry, rt0.state_current = true
      ∧ s2.entry ref.1 ref.2 = some { rt0 with state_new := false } := by
    intro ref href
    rcases c5 ref href with h | ⟨hmem, rt0, h0, hc⟩
    · rw [hq] at h
      exact absurd h (List.not_mem_nil _)
    · refine ⟨rt0, hc, ?_⟩
      rw [c4, if_pos hmem, h0]
      simp [mark_removed, hc]
  refine ⟨s2._kernel_queue.flatMap (ref_calls s2), ?_, ?_, ?_⟩
  · rw [d1, c2]
  · intro op hop
    rw [List.mem_flatMap] at hop
    obtain ⟨ref, href, hop⟩ := hop
    obtain ⟨rt0, hc, hent⟩ := hqueued ref href
    unfold ref_calls at hop
    rw [hent] at hop
    simp only [entry_calls, hc, if_true, Bool.false_eq_true, if_false, List.append_nil,
      List.mem_singleton] at hop
    rw [hop]
  · intro i hi rt hrt
    have hfind : (process_kernel_list e s2._kernel_queue s2).entry i rt.route_new.dst
        = some rt := by
      apply find_of_nodup_keys _ _ rt hrt
      have := hk i
      unfold RoutingCore.keys at this
      rw [this]
      exact hnd i hi
    have hmem : rt.route_new.dst ∈ s.keys i := by
      by_contra hn
      have h0 := entry_none_of_not_mem_keys _ i rt.route_new.dst (by rw [hk i]; exact hn)
      rw [h0] at hfind
      exact absurd hfind (by simp)
    have hrefs : (i, rt.route_new.dst) ∈ all_refs s (List.range e.NHDP_MAXIMUM_DOMAINS) :=
      (mem_all_refs _ _ _ _).mpr ⟨List.mem_range.mpr hi, hmem⟩
    have h2 := c4 i rt.route_new.dst
    rw [if_pos hrefs] at h2
    rw [d3, h2] at hfind
    cases h0 : s.entry i rt.route_new.dst with
    | none =>
      rw [h0] at hfind
      simp at hfind
    | some rt0 =>
      rw [h0] at hfind h2
      simp only [Option.map_some'] at hfind h2
      by_cases hc : rt0.state_current = true
      · right
        have hin : (i, rt.route_new.dst) ∈ s2._kernel_queue :=
          c7 (i, rt.route_new.dst) hrefs rt0 h0 hc
        rw [if_pos hin] at hfind
        simp only [Option.some.injEq] at hfind
        have hmr : mark_removed rt0 = { rt0 with state_new := false } := by
          simp [mark_removed, hc]
        rw [hmr] at hfind h2
        refine ⟨by rw [← hfind], by rw [← hfind], ?_⟩
        rw [List.mem_flatMap]
        refine ⟨(i, rt.route_new.dst), hin, ?_⟩
        unfold ref_calls
        rw [h2]
        simp only [entry_calls, hc, if_true, Bool.false_eq_true, if_false, List.append_nil,
          List.mem_singleton, Option.map_some']
        rw [← hfind]
      · left
        have hcf : rt0.state_current = false := by simpa using hc
        split_ifs at hfind
        · simp only [Option.some.injEq] at hfind
          rw [← hfind]
          show (mark_removed rt0).state_current = false
          rw [mark_removed_state_current, hcf]
        · simp only [Option.some.injEq] at hfind
          rw [← hfind, mark_removed_state_current, hcf]

/-- C14: called with an empty kernel queue on routing trees without
duplicate keys, `olsrv2_routing_initiate_shutdown` makes only remove calls to
the kernel (no add), and afterwards every entry of every domain either has
`state_current` false, or has `state_new` false and `in_processing` true and
a remove of its `route_current` is among the calls made;
`olsrv2_routing_cleanup`, from any state, returns with the routing tree of
every domain empty. -/
theorem shutdown_removes_then_cleanup_empties (e : Env) (s : RoutingCore)
    (hq : s._kernel_queue = [])
    (hnd : ∀ i, i < e.NHDP_MAXIMUM_DOMAINS → (s.keys i).Nodup) :
    (∃ calls, (olsrv2_routing_initiate_shutdown e s).os_calls = s.os_calls ++ calls
      ∧ (∀ op ∈ calls, op.set = false)
      ∧ ∀ i, i < e.NHDP_MAXIMUM_DOMAINS →
          ∀ rt ∈ (olsrv2_routing_initiate_shutdown e s)._routing_tree i,
            rt.state_current = false
            ∨ (rt.state_new = false ∧ rt.in_processing = true
              ∧ (⟨i, rt.route_new.dst, RouteSel.route_current, rt.route_current, false⟩ : OsOp)
                  ∈ calls))
    ∧ ∀ s' i, i < e.NHDP_MAXIMUM_DOMAINS → (olsrv2_routing_cleanup e s')._routing_tree i = [] :=
  ⟨shutdown_loops_spec e { s with _initiate_shutdown := true } hq hnd,
    fun s' i hi => cleanup_empties_tables e s' i hi⟩

theorem shutdown_removes_then_cleanup_empties_witness :
    (scenario1_installed._kernel_queue = []
      ∧ ∀ i, i < scenario1_env.NHDP_MAXIMUM_DOMAINS → (scenario1_installed.keys i).Nodup)
    ∧ (∃ calls, (olsrv2_routing_initiate_shutdown scenario1_env scenario1_installed).os_calls
          = scenario1_installed.os_calls ++ calls
        ∧ (∀ op ∈ calls, op.set = false)
        ∧ ∀ rt ∈ (olsrv2_routing_initiate_shutdown scenario1_env
              scenario1_installed)._routing_tree 0,
            rt.state_current = false
            ∨ (rt.state_new = false ∧ rt.in_processing = true
              ∧ (⟨0, rt.route_new.dst, RouteSel.route_current, rt.route_current, false⟩ : OsOp)
                  ∈ calls))
    ∧ (olsrv2_routing_cleanup scenario1_env
        (olsrv2_routing_initiate_shutdown scenario1_env scenario1_installed))._routing_tree 0
        = [] := by
  obtain ⟨⟨calls, h1, h2, h3⟩, h4⟩ :=
    shutdown_removes_then_cleanup_empties scenario1_env scenario1_installed (by decide)
      (by decide)
  exact ⟨⟨by decide, by decide⟩, ⟨calls, h1, h2, h3 0 (by decide)⟩, h4 _ 0 (by decide)⟩

/-! ## The routing table: upsert and update -/

theorem perm_avl_insert (rt : RoutingEntry) (l : List RoutingEntry) :
    (avl_insert rt l).Perm (rt :: l) := by
  induction l with
  | nil => exact List.Perm.refl _
  | cons x xs ih =>
    unfold avl_insert
    split_ifs
    · exact List.Perm.refl _
    · exact (List.Perm.cons x ih).trans (List.Perm.swap rt x xs)

theorem find_avl_insert_self (rt : RoutingEntry) (l : List RoutingEntry)
    (h : avl_find_element l rt.route_new.dst = none) :
    avl_find_element (avl_insert rt l) rt.route_new.dst = some rt := by
  unfold avl_find_element at *
  induction l with
  | nil => simp [avl_insert]
  | cons x xs ih =>
    rw [List.find?_cons] at h
    unfold avl_insert
    split_ifs
    · simp
    · by_cases hx : x.route_new.dst = rt.route_new.dst
      · simp [hx] at h
      · simp only [hx, decide_False] at h
        rw [List.find?_cons]
        simp only [hx, decide_False]
        exact ih h

theorem find_avl_insert_other (rt : RoutingEntry) (l : List RoutingEntry) (k : Netaddr)
    (h : k ≠ rt.route_new.dst) :
    avl_find_element (avl_insert rt l) k = avl_find_element l k := by
  have hne : ¬ rt.route_new.dst = k := fun h2 => h h2.symm
  unfold avl_find_element
  induction l with
  | nil => simp [avl_insert, hne]
  | cons x xs ih =>
    unfold avl_insert
    split_ifs
    · rw [List.find?_cons]
      simp only [hne, decide_False]
    · rw [List.find?_cons, List.find?_cons, ih]

theorem entry_key {s : RoutingCore} {d : Nat} {k : Netaddr} {rt : RoutingEntry}
    (h : s.entry d k = some rt) : rt.route_new.dst = k := by
  unfold RoutingCore.entry avl_find_element at h
  have := List.find?_some h
  simpa using this

/-- C21: `_add_entry` on a domain and prefix. If the table of the domain
holds an entry for the prefix, state and table are returned unchanged (the
entry is the one stored under the prefix). Otherwise, when the allocation
succeeds, the new table is the old one with exactly one entry more, the
entry `new_entry`, which a lookup of the prefix returns; the lookup of every
other key and the tables of the other domains are unchanged. `new_entry` has
cost `RFC7181_METRIC_INFINITE_PATH`, all three flags false, both destinations
equal to the prefix and both families equal to its address family. -/
theorem add_entry_upsert (e : Env) (d : Nat) (pfx : Netaddr) (s : RoutingCore) :
    (∀ rt, s.entry d pfx = some rt → _add_entry e d pfx s = (s, true))
    ∧ (s.entry d pfx = none → e.oonf_class_malloc_fails s.allocations = false →
        (_add_entry e d pfx s).2 = true
        ∧ ((_add_entry e d pfx s).1._routing_tree d).Perm
            (new_entry e d pfx :: s._routing_tree d)
        ∧ (_add_entry e d pfx s).1.entry d pfx = some (new_entry e d pfx)
        ∧ (∀ d' k', ¬(d' = d ∧ k' = pfx) →
            (_add_entry e d pfx s).1.entry d' k' = s.entry d' k')
        ∧ (∀ d', d' ≠ d → (_add_entry e d pfx s).1._routing_tree d' = s._routing_tree d'))
    ∧ ((new_entry e d pfx).cost = e.RFC7181_METRIC_INFINITE_PATH
        ∧ (new_entry e d pfx).state_new = false
        ∧ (new_entry e d pfx).state_current = false
        ∧ (new_entry e d pfx).in_processing = false
        ∧ (new_entry e d pfx).route_new.dst = pfx
        ∧ (new_entry e d pfx).route_current.dst = pfx
        ∧ (new_entry e d pfx).route_new.family = netaddr_get_address_family pfx
        ∧ (new_entry e d pfx).route_current.family = netaddr_get_address_family pfx) := by
  refine ⟨?_, ?_, ⟨rfl, rfl, rfl, rfl, rfl, rfl, rfl, rfl⟩⟩
  · intro rt h
    unfold _add_entry
    unfold RoutingCore.entry at h
    rw [h]
  · intro h hm
    have h2 : avl_find_element (s._routing_tree d) pfx = none := h
    unfold _add_entry
    rw [h2]
    rw [if_neg (by rw [hm]; simp)]
    refine ⟨rfl, ?_, ?_, ?_, ?_⟩
    · unfold RoutingCore.set_tree
      simp only [Function.update_same]
      exact perm_avl_insert _ _
    · rw [entry_set_tree, if_pos rfl]
      exact find_avl_insert_self (new_entry e d pfx) _ h2
    · intro d' k' hne
      rw [entry_set_tree]
      by_cases hd : d' = d
      · rw [if_pos hd]
        subst hd
        have hk : k' ≠ pfx := fun hk => hne ⟨rfl, hk⟩
        exact find_avl_insert_other (new_entry e d' pfx) _ k' hk
      · rw [if_neg hd]
        rfl
    · intro d' hd
      unfold RoutingCore.set_tree
      exact Function.update_noteq hd _ _

/-- C22: `_update_routing_entry` for the entry `rt0` that `_add_entry` finds
or creates for `destination`. Unless `rt0` has `state_current` and a cost
below `pathcost`, the entry becomes `rt0` with `cost := pathcost`,
`state_new := true`, `route_new.if_index` the best-link interface index of
`first_hop` for the domain, `route_new.metric := distance` and `route_new.gw`
unspecified when `single_hop` and the best-link address is `destination`,
else the best-link address; all other fields (`state_current`,
`route_current` among them) are those of `rt0`. When `rt0` has
`state_current` and a cost below `pathcost` the entry stays `rt0`. -/
theorem update_routing_entry_fields (e : Env) (d : Nat) (destination : Netaddr)
    (first_hop : Option NhdpNeighbor) (distance pathcost : Nat) (single_hop : Bool)
    (s : RoutingCore) (rt0 : RoutingEntry)
    (hent : (_add_entry e d destination s).1.entry d destination = some rt0) :
    (¬(rt0.state_current = true ∧ rt0.cost < pathcost) →
      (_update_routing_entry e d destination first_hop distance pathcost single_hop s).entry
          d destination
        = some { rt0 with
            route_new :=
              { rt0.route_new with
                  if_index := (nhdp_domain_get_neighbordata d first_hop).best_link_ifindex
                  metric := distance
                  gw :=
                    if single_hop = true
                        ∧ (nhdp_domain_get_neighbordata d first_hop).best_link_if_addr
                          = destination
                    then netaddr_invalidate
                    else (nhdp_domain_get_neighbordata d first_hop).best_link_if_addr }
            cost := pathcost
            state_new := true })
    ∧ (rt0.state_current = true ∧ rt0.cost < pathcost →
      (_update_routing_entry e d destination first_hop distance pathcost single_hop s).entry
          d destination = some rt0) := by
  have hkey : rt0.route_new.dst = destination := entry_key hent
  have hflag : (_add_entry e d destination s).2 = true := by
    unfold _add_entry at hent ⊢
    cases hf : avl_find_element (s._routing_tree d) destination with
    | some x => rfl
    | none =>
      simp only [hf] at hent ⊢
      by_cases hm : e.oonf_class_malloc_fails s.allocations = true
      · rw [if_pos hm] at hent
        have h2 : avl_find_element (s._routing_tree d) destination = some rt0 := hent
        rw [hf] at h2
        exact absurd h2 (by simp)
      · rw [if_neg hm]
  unfold _update_routing_entry
  rcases hadd : _add_entry e d destination s with ⟨s1, b⟩
  rw [hadd] at hent hflag
  simp only at hent hflag
  subst hflag
  simp only [hent]
  constructor
  · intro hg
    rw [if_neg hg, entry_modify_entry, if_pos ⟨rfl, rfl⟩, hent]
    · simp only [Option.map_some', hkey]
    · intro _; rfl
  · intro hg
    rw [if_pos hg, hent]

theorem update_routing_entry_fields_witness :
    ∃ rt0, (_add_entry scenario1_env 0 (ip4 2) scenario1_installed).1.entry 0 (ip4 2) = some rt0
      ∧ ((_update_routing_entry scenario1_env 0 (ip4 2) (some scenario1_neighbor) 0 10 true
            scenario1_installed).entry 0 (ip4 2)).map (fun rt => (rt.cost, rt.state_new))
          = some (10, true) := by
  cases h : (_add_entry scenario1_env 0 (ip4 2) scenario1_installed).1.entry 0 (ip4 2) with
  | none => exact absurd h (by decide)
  | some rt0 =>
    have hc : rt0.cost = 10 := by
      have h2 : ((_add_entry scenario1_env 0 (ip4 2) scenario1_installed).1.entry 0
          (ip4 2)).map (fun rt => rt.cost) = some 10 := by decide
      rw [h] at h2
      simpa using h2
    refine ⟨rt0, rfl, ?_⟩
    rw [(update_routing_entry_fields scenario1_env 0 (ip4 2) (some scenario1_neighbor) 0 10 true
      scenario1_installed rt0 h).1 (by rw [hc]; simp)]
    rfl

/-! ## The relax step -/

/-- C23: `_insert_into_working_tree` with the new cost
`(pathcost + linkcost) mod 2^32`. The state is returned unchanged if
`linkcost` is at least `RFC7181_METRIC_INFINITE`, or the target is local or
done, or it is queued with a path cost of at most the new cost. Otherwise the
scratch record of the target gets the new cost and the arguments `neigh`,
`distance`, `single_hop`; the target is queued (exactly once if the queue had
no duplicates); the scratch records and the queue membership of all other
targets are unchanged. In both cases the path cost of a queued target does
not increase. -/
theorem insert_into_working_tree_relaxes (e : Env) (u : Nat) (neigh : Option NhdpNeighbor)
    (w base dist : Nat) (sh : Bool) (s : RoutingCore) :
    ((e.RFC7181_METRIC_INFINITE ≤ w ∨ (s._dijkstra u).is_local = true
        ∨ (s._dijkstra u).done = true
        ∨ (u ∈ s._dijkstra_working_tree ∧ (s._dijkstra u).path_cost ≤ (base + w) % 2 ^ 32)) →
      _insert_into_working_tree e u neigh w base dist sh s = s)
    ∧ (¬(e.RFC7181_METRIC_INFINITE ≤ w ∨ (s._dijkstra u).is_local = true
        ∨ (s._dijkstra u).done = true
        ∨ (u ∈ s._dijkstra_working_tree ∧ (s._dijkstra u).path_cost ≤ (base + w) % 2 ^ 32)) →
      (_insert_into_working_tree e u neigh w base dist sh s)._dijkstra u
          = { s._dijkstra u with path_cost := (base + w) % 2 ^ 32, first_hop := neigh,
                                 distance := dist, single_hop := sh }
      ∧ u ∈ (_insert_into_working_tree e u neigh w base dist sh s)._dijkstra_working_tree
      ∧ (s._dijkstra_working_tree.Nodup →
          (_insert_into_working_tree e u neigh w base dist sh s)._dijkstra_working_tree.Nodup)
      ∧ (∀ x, x ≠ u →
          (_insert_into_working_tree e u neigh w base dist sh s)._dijkstra x = s._dijkstra x
          ∧ (x ∈ (_insert_into_working_tree e u neigh w base dist sh s)._dijkstra_working_tree
              ↔ x ∈ s._dijkstra_working_tree)))
    ∧ (∀ x ∈ s._dijkstra_working_tree,
        ((_insert_into_working_tree e u neigh w base dist sh s)._dijkstra x).path_cost
          ≤ (s._dijkstra x).path_cost) := by
  rcases insert_into_working_tree_cases e u neigh w base dist sh s with
    ⟨heq, hcond⟩ | ⟨h1, h2, h3, h4, h5, h6⟩
  · refine ⟨fun _ => heq, fun hn => absurd hcond hn, fun x _ => by rw [heq]⟩
  · have hncond : ¬(e.RFC7181_METRIC_INFINITE ≤ w ∨ (s._dijkstra u).is_local = true
        ∨ (s._dijkstra u).done = true
        ∨ (u ∈ s._dijkstra_working_tree
            ∧ (s._dijkstra u).path_cost ≤ (base + w) % 2 ^ 32)) := by
      rintro (h | h | h | ⟨hm, hle⟩)
      · omega
      · rw [h2] at h; exact absurd h (by simp)
      · rw [h3] at h; exact absurd h (by simp)
      · have := h4 hm; omega
    refine ⟨fun hc => absurd hc hncond, fun _ => ⟨?_, ?_, ?_, ?_⟩, ?_⟩
    · rw [h5, Function.update_same]
    · rw [h6, mem_working_tree_insert]
      exact Or.inl rfl
    · intro hnd
      rw [h6]
      exact nodup_working_tree_insert _ _ _ (List.Nodup.not_mem_erase hnd) (hnd.erase u)
    · intro x hx
      constructor
      · rw [h5, Function.update_noteq hx]
      · rw [h6, mem_working_tree_insert]
        constructor
        · rintro (h | h)
          · exact absurd h hx
          · exact List.mem_of_mem_erase h
        · intro h
          exact Or.inr ((List.mem_erase_of_ne hx).mpr h)
    · intro x hx
      rw [h5]
      by_cases hxu : x = u
      · subst hxu
        rw [Function.update_same]
        exact Nat.le_of_lt (h4 hx)
      · rw [Function.update_noteq hxu]

/-! ## Enqueue and drain, entry by entry -/

/-- C24: `_add_route_to_kernel_queue` for the entry `rt` stored under
(`d`, `k`). The entry pointer is put in front of the queue exactly when
(`state_new` and the gateway of `route_new` is unspecified) or (not
`state_new` and the gateway of `route_current` is specified), behind the
queue otherwise; the queue of before is kept as it is. The entry is `rt`,
except that `route_new.src_ip` becomes the local IPv4 originator when
`state_new` is true, the domain of the entry uses source addresses and the
destination is IPv4; no other entry and no key changes. -/
theorem enqueue_head_or_tail (e : Env) (d : Nat) (k : Netaddr) (s : RoutingCore)
    (rt : RoutingEntry) (hent : s.entry d k = some rt) :
    (_add_route_to_kernel_queue e d k s)._kernel_queue
      = (if (rt.state_new = true ∧ netaddr_get_address_family rt.route_new.gw = AF_UNSPEC)
            ∨ (rt.state_new = false ∧ netaddr_get_address_family rt.route_current.gw ≠ AF_UNSPEC)
         then (d, k) :: s._kernel_queue
         else s._kernel_queue ++ [(d, k)])
    ∧ (_add_route_to_kernel_queue e d k s).entry d k
      = some (if rt.state_new = true
                ∧ (s._domain_parameter rt.domain).use_srcip_in_routes = true
                ∧ netaddr_get_address_family rt.route_new.dst = AF_INET
              then { rt with route_new :=
                      { rt.route_new with src_ip := e.olsrv2_originator_get AF_INET } }
              else rt)
    ∧ (∀ d' k', ¬(d' = d ∧ k' = k) →
        (_add_route_to_kernel_queue e d k s).entry d' k' = s.entry d' k')
    ∧ (∀ d', (_add_route_to_kernel_queue e d k s).keys d' = s.keys d') := by
  obtain ⟨a1, a2, _, _, _, a6, _⟩ := add_route_to_kernel_queue_spec e d k s
  refine ⟨?_, ?_, a1, a6⟩
  · obtain ⟨rt', _, _, _, _, _, _, _, hq⟩ := a2 rt hent
    rw [hq]
    have hiff : queued_at_head rt = true
        ↔ ((rt.state_new = true ∧ netaddr_get_address_family rt.route_new.gw = AF_UNSPEC)
          ∨ (rt.state_new = false
            ∧ netaddr_get_address_family rt.route_current.gw ≠ AF_UNSPEC)) := by
      unfold queued_at_head
      by_cases hn : rt.state_new = true
      · simp [hn]
      · have hnf : rt.state_new = false := by simpa using hn
        simp [hnf]
    by_cases hc : (rt.state_new = true ∧ netaddr_get_address_family rt.route_new.gw = AF_UNSPEC)
        ∨ (rt.state_new = false ∧ netaddr_get_address_family rt.route_current.gw ≠ AF_UNSPEC)
    · rw [if_pos hc, if_pos (hiff.mpr hc)]
    · rw [if_neg hc, if_neg (fun h => hc (hiff.mp h))]
  · have hm : (s.modify_entry d k (fun rt => { rt with route_new :=
          { rt.route_new with src_ip := e.olsrv2_originator_get AF_INET } })).entry d k
        = some { rt with route_new :=
            { rt.route_new with src_ip := e.olsrv2_originator_get AF_INET } } := by
      rw [entry_modify_entry, if_pos ⟨rfl, rfl⟩, hent]
      · rfl
      · intro _; rfl
    unfold _add_route_to_kernel_queue
    rw [hent]
    dsimp only
    split_ifs <;> first
      | exact hm
      | exact hent
      | (exfalso; tauto)

theorem enqueue_head_or_tail_witness :
    ∃ rt, scenario1_spf.entry 0 (ip4 3) = some rt
      ∧ (_add_route_to_kernel_queue scenario1_env 0 (ip4 3) scenario1_spf)._kernel_queue
          = scenario1_spf._kernel_queue ++ [(0, ip4 3)] := by
  cases h : scenario1_spf.entry 0 (ip4 3) with
  | none => exact absurd h (by decide)
  | some rt =>
    refine ⟨rt, rfl, ?_⟩
    rw [(enqueue_head_or_tail scenario1_env 0 (ip4 3) scenario1_spf rt h).1]
    have h2 : (scenario1_spf.entry 0 (ip4 3)).map (fun rt =>
        (rt.state_new, netaddr_get_address_family rt.route_new.gw))
        = some (true, AF_INET) := by decide
    rw [h] at h2
    simp only [Option.map_some', Option.some.injEq, Prod.mk.injEq] at h2
    rw [if_neg (by simp [h2.1, h2.2, AF_INET, AF_UNSPEC])]

/-- C25: `_process_kernel_queue` leaves the queue empty. The calls it makes
to the kernel are, in queue order, the calls of the queued entries: for each
one a remove of `route_current` if and only if `state_current`, followed by an
add of `route_new` if and only if `state_new`; every call belongs to a queued
entry. A queued entry gets `in_processing` set and no other field of any entry
changes, whatever `os_routing_set` returns (the entries after the drain are
the same under every environment). -/
theorem drain_in_queue_order (e e2 : Env) (s : RoutingCore) :
    (_process_kernel_queue e s)._kernel_queue = []
    ∧ (_process_kernel_queue e s).os_calls = s.os_calls ++ s._kernel_queue.flatMap (ref_calls s)
    ∧ (∀ ref rt, s.entry ref.1 ref.2 = some rt →
        ref_calls s ref
          = (if rt.state_current = true then
              [⟨ref.1, ref.2, RouteSel.route_current, rt.route_current, false⟩] else [])
            ++ (if rt.state_new = true then
              [⟨ref.1, ref.2, RouteSel.route_new, rt.route_new, true⟩] else []))
    ∧ (∀ op ∈ s._kernel_queue.flatMap (ref_calls s), (op.domain, op.dst) ∈ s._kernel_queue)
    ∧ (∀ d k, (_process_kernel_queue e s).entry d k
        = if (d, k) ∈ s._kernel_queue
          then (s.entry d k).map (fun rt => { rt with in_processing := true })
          else s.entry d k)
    ∧ (∀ d k, (_process_kernel_queue e2 s).entry d k = (_process_kernel_queue e s).entry d k) := by
  obtain ⟨d1, _, d3, _, _, _⟩ := process_kernel_list_spec e s._kernel_queue s
  obtain ⟨_, _, d3', _, _, _⟩ := process_kernel_list_spec e2 s._kernel_queue s
  refine ⟨process_kernel_queue_empty e s, d1, ?_, ?_, d3, fun d k => by
    unfold _process_kernel_queue; rw [d3, d3']⟩
  · intro ref rt h
    unfold ref_calls
    rw [h]
    rfl
  · intro op hop
    rw [List.mem_flatMap] at hop
    obtain ⟨ref, href, hop⟩ := hop
    unfold ref_calls at hop
    cases hent : s.entry ref.1 ref.2 with
    | none => rw [hent] at hop; simp at hop
    | some rt =>
      rw [hent] at hop
      unfold entry_calls at hop
      rw [List.mem_append] at hop
      have hd : op.domain = ref.1 ∧ op.dst = ref.2 := by
        rcases hop with hop | hop
        · split_ifs at hop
          · rw [List.mem_singleton] at hop; rw [hop]; exact ⟨rfl, rfl⟩
          · simp at hop
        · split_ifs at hop
          · rw [List.mem_singleton] at hop; rw [hop]; exact ⟨rfl, rfl⟩
          · simp at hop
      rw [hd.1, hd.2]
      exact href

/-! ## The reconcile step on an installed entry -/

/-- C26: in scenario S1, after the parameters of domain 0 have been changed
to protocol 3, table 254, distance 2 and the next SPF run has re-picked the two
installed entries, both have `state_new` true but table, protocol and metric
0 in `route_new`, the values of `route_current`; the adds of the run carry
table 0. -/
theorem repicked_entry_keeps_old_parameters :
    ((scenario1_reparametrized._domain_parameter 0).table,
        (scenario1_reparametrized._domain_parameter 0).protocol,
        (scenario1_reparametrized._domain_parameter 0).distance) = (254, 3, 2)
    ∧ (scenario1_reparametrized.entry 0 (ip4 2)).map (fun rt =>
        (rt.state_new, rt.route_new.table, rt.route_new.protocol, rt.route_new.metric))
        = some (true, 0, 0, 0)
    ∧ (scenario1_reparametrized.entry 0 (ip4 3)).map (fun rt =>
        (rt.state_new, rt.route_new.table, rt.route_new.protocol, rt.route_new.metric))
        = some (true, 0, 0, 0)
    ∧ ((_process_dijkstra_result scenario1_env 0
          (_handle_nhdp_routes scenario1_env 0 (dijkstra_loop scenario1_env 0 3
            (_prepare_routes scenario1_env 0
              (olsrv2_routing_set_domain_parameter scenario1_env 0 ⟨false, 3, 254, 2⟩
                scenario1_installed))))).entry 0 (ip4 2)).map (fun rt =>
        (rt.state_new, rt.route_new.table, rt.route_new.protocol, rt.route_new.metric))
        = some (true, 0, 0, 0)
    ∧ (scenario1_reparametrized.os_calls.drop 4).map (fun op =>
        (op.dst, op.set, op.route.table))
        = [(ip4 2, false, 0), (ip4 2, true, 0), (ip4 3, false, 0), (ip4 3, true, 0)] := by
  decide

/-- C27: in scenario S1 with both routes installed, an SPF run after the
best link of the neighbor has moved to interface 8 computes `route_new` with
interface 8 for the re-picked entry `2`; the reconcile step leaves `route_new`
with interface 7 and the remove callback, the values of `route_current`; the
add issued by the drain carries interface 7 and the remove callback, and its
completion is undefined behaviour. -/
theorem repicked_entry_carries_old_route :
    (scenario1_if8_spf.entry 0 (ip4 2)).map (fun rt =>
        (rt.state_current, rt.state_new, rt.route_new.if_index, rt.route_current.if_index,
          rt.route_new.cb_finished))
        = some (true, true, 8, 7, Callback._cb_route_new_finished)
    ∧ ((_process_dijkstra_result scenario1_env_if8 0 scenario1_if8_spf).entry 0 (ip4 2)).map
        (fun rt => (rt.route_new.if_index, rt.route_new.cb_finished))
        = some (7, Callback._cb_route_current_finished)
    ∧ (scenario1_if8_run.os_calls.drop 2).map (fun op =>
        (op.dst, op.sel, op.set, op.route.if_index, op.route.cb_finished))
        = [(ip4 2, RouteSel.route_current, false, 7, Callback._cb_route_current_finished),
            (ip4 2, RouteSel.route_new, true, 7, Callback._cb_route_current_finished),
            (ip4 3, RouteSel.route_current, false, 7, Callback._cb_route_current_finished),
            (ip4 3, RouteSel.route_new, true, 7, Callback._cb_route_current_finished)]
    ∧ scenario1_if8_run.undefined_behaviour = false
    ∧ (os_routing_finished 1 0 scenario1_if8_run).undefined_behaviour = true := by
  decide

/-! ## Termination of the relax loop -/

theorem queueInv_congr (e : Env) {s s' : RoutingCore} (hd : s'._dijkstra = s._dijkstra)
    (hw : s'._dijkstra_working_tree = s._dijkstra_working_tree) (h : QueueInv e s) :
    QueueInv e s' := by
  unfold QueueInv at *
  rw [hd, hw]
  exact h

theorem queueInv_insert (e : Env) (u : Nat) (neigh : Option NhdpNeighbor)
    (w base dist : Nat) (sh : Bool) (s : RoutingCore) (hu : u ∈ e.tc.targets)
    (h : QueueInv e s) :
    QueueInv e (_insert_into_working_tree e u neigh w base dist sh s)
    ∧ ∀ x, ((_insert_into_working_tree e u neigh w base dist sh s)._dijkstra x).done
        = (s._dijkstra x).done := by
  rcases insert_into_working_tree_cases e u neigh w base dist sh s with
    ⟨heq, _⟩ | ⟨_, _, h3, _, h5, h6⟩
  · rw [heq]
    exact ⟨h, fun _ => rfl⟩
  · have hdone : ∀ x, ((_insert_into_working_tree e u neigh w base dist sh s)._dijkstra x).done
        = (s._dijkstra x).done := by
      intro x
      rw [h5]
      by_cases hx : x = u
      · subst hx
        rw [Function.update_same]
      · rw [Function.update_noteq hx]
    refine ⟨⟨?_, ?_⟩, hdone⟩
    · rw [h6]
      exact nodup_working_tree_insert _ _ _ (List.Nodup.not_mem_erase h.1) (h.1.erase u)
    · intro x hx
      rw [hdone x]
      rw [h6, mem_working_tree_insert] at hx
      rcases hx with hx | hx
      · rw [hx]
        exact ⟨hu, h3⟩
      · exact h.2 x (List.mem_of_mem_erase hx)

theorem queueInv_foldl_relax_edge (e : Env) (domain t : Nat) (fh : Option NhdpNeighbor)
    (l : List TcEdge) (hl : ∀ ed ∈ l, ed.dst ∈ e.tc.targets) (s : RoutingCore)
    (h : QueueInv e s) :
    QueueInv e (l.foldl (relax_edge e domain t fh) s)
    ∧ ∀ x, ((l.foldl (relax_edge e domain t fh) s)._dijkstra x).done
        = (s._dijkstra x).done := by
  induction l generalizing s with
  | nil => exact ⟨h, fun _ => rfl⟩
  | cons ed l ih =>
    have hstep : QueueInv e (relax_edge e domain t fh s ed)
        ∧ ∀ x, ((relax_edge e domain t fh s ed)._dijkstra x).done = (s._dijkstra x).done := by
      unfold relax_edge
      split_ifs
      · exact queueInv_insert e _ _ _ _ _ _ s (hl ed (List.mem_cons_self _ _)) h
      · exact ⟨h, fun _ => rfl⟩
    obtain ⟨i1, i2⟩ := ih (fun ed' hed => hl ed' (List.mem_cons_of_mem _ hed)) _ hstep.1
    exact ⟨i1, fun x => (i2 x).trans (hstep.2 x)⟩

theorem queueInv_foldl_relax_attached (e : Env) (domain t : Nat) (fh : Option NhdpNeighbor)
    (l : List TcAttachment) (hl : ∀ a ∈ l, a.dst ∈ e.tc.targets) (s : RoutingCore)
    (h : QueueInv e s) :
    QueueInv e (l.foldl (relax_attached e domain t fh) s)
    ∧ ∀ x, ((l.foldl (relax_attached e domain t fh) s)._dijkstra x).done
        = (s._dijkstra x).done := by
  induction l generalizing s with
  | nil => exact ⟨h, fun _ => rfl⟩
  | cons a l ih =>
    have hstep : QueueInv e (relax_attached e domain t fh s a)
        ∧ ∀ x, ((relax_attached e domain t fh s a)._dijkstra x).done
            = (s._dijkstra x).done := by
      unfold relax_attached
      split_ifs
      · exact queueInv_insert e _ _ _ _ _ _ s (hl a (List.mem_cons_self _ _)) h
      · exact ⟨h, fun _ => rfl⟩
    obtain ⟨i1, i2⟩ := ih (fun a' ha => hl a' (List.mem_cons_of_mem _ ha)) _ hstep.1
    exact ⟨i1, fun x => (i2 x).trans (hstep.2 x)⟩

/-- One execution of the body of the relax loop on a non-empty working tree
pops the first target and keeps the invariant of the working tree. -/
theorem handle_working_queue_pops (e : Env) (domain : Nat) (hcl : e.tc.closed)
    (s : RoutingCore) (t : Nat) (rest : List Nat)
    (hq : s._dijkstra_working_tree = t :: rest) (h : QueueInv e s) :
    QueueInv e (_handle_working_queue e domain s)
    ∧ t ∈ e.tc.targets ∧ (s._dijkstra t).done = false
    ∧ (∀ x, ((_handle_working_queue e domain s)._dijkstra x).done = true
        ↔ ((s._dijkstra x).done = true ∨ x = t)) := by
  have hnd : (t :: rest).Nodup := by rw [← hq]; exact h.1
  rw [List.nodup_cons] at hnd
  obtain ⟨htT, htd⟩ := h.2 t (by rw [hq]; exact List.mem_cons_self _ _)
  -- the state after the pop
  have h1 : QueueInv e ({ s with _dijkstra_working_tree := rest }.set_dijkstra t
      { s._dijkstra t with done := true }) := by
    refine ⟨hnd.2, ?_⟩
    intro x hx
    have hxt : x ≠ t := fun hxt => hnd.1 (hxt ▸ hx)
    obtain ⟨hxT, hxd⟩ := h.2 x (by rw [hq]; exact List.mem_cons_of_mem _ hx)
    refine ⟨hxT, ?_⟩
    show ((Function.update s._dijkstra t { s._dijkstra t with done := true }) x).done = false
    rw [Function.update_noteq hxt]
    exact hxd
  have hd1 : ∀ x, ((({ s with _dijkstra_working_tree := rest }.set_dijkstra t
      { s._dijkstra t with done := true })._dijkstra x).done = true
        ↔ ((s._dijkstra x).done = true ∨ x = t)) := by
    intro x
    show ((Function.update s._dijkstra t { s._dijkstra t with done := true }) x).done = true ↔ _
    by_cases hxt : x = t
    · subst hxt
      rw [Function.update_same]
      simp
    · rw [Function.update_noteq hxt]
      simp [hxt]
  unfold _handle_working_queue
  rw [hq]
  dsimp only
  obtain ⟨u1, u2⟩ := update_routing_entry_dijkstra e domain (e.tc.addr t)
    ((({ s with _dijkstra_working_tree := rest }.set_dijkstra t
      { s._dijkstra t with done := true })._dijkstra t).first_hop)
    ((({ s with _dijkstra_working_tree := rest }.set_dijkstra t
      { s._dijkstra t with done := true })._dijkstra t).distance)
    ((({ s with _dijkstra_working_tree := rest }.set_dijkstra t
      { s._dijkstra t with done := true })._dijkstra t).path_cost)
    ((({ s with _dijkstra_working_tree := rest }.set_dijkstra t
      { s._dijkstra t with done := true })._dijkstra t).single_hop)
    ({ s with _dijkstra_working_tree := rest }.set_dijkstra t
      { s._dijkstra t with done := true })
  have h2 := queueInv_congr e u1 u2 h1
  split_ifs
  · obtain ⟨e1, e2⟩ := queueInv_foldl_relax_edge e domain t _ (e.tc._edges t)
      (hcl t htT).1 _ h2
    obtain ⟨a1, a2⟩ := queueInv_foldl_relax_attached e domain t _ (e.tc._endpoints t)
      (hcl t htT).2 _ e1
    refine ⟨a1, htT, htd, ?_⟩
    intro x
    rw [a2, e2, u1]
    exact hd1 x
  · refine ⟨h2, htT, htd, ?_⟩
    intro x
    rw [u1]
    exact hd1 x

theorem queueInv_prepare_routes (e : Env) (domain : Nat) (s : RoutingCore)
    (hq : s._dijkstra_working_tree = []) : QueueInv e (_prepare_routes e domain s) := by
  obtain ⟨p1, p2, _⟩ := prepare_reset e domain s
  have h3 : QueueInv e (e.tc.endpoint_tree.foldl (prepare_endpoint e)
      (e.tc.tc_tree.foldl (prepare_node e) (prepare_entries domain s))) := by
    unfold QueueInv
    rw [p1, hq]
    exact ⟨List.nodup_nil, fun t ht => absurd ht (List.not_mem_nil t)⟩
  have hfold : ∀ (l : List NhdpNeighbor) (s' : RoutingCore), QueueInv e s' →
      QueueInv e (l.foldl (prepare_neighbor e domain) s') := by
    intro l
    induction l with
    | nil => exact fun _ h => h
    | cons neigh l ih =>
      intro s' h
      apply ih
      unfold prepare_neighbor
      split_ifs
      · cases hget : olsrv2_tc_node_get e.tc neigh.originator with
        | none => exact h
        | some node =>
          dsimp only
          split_ifs
          · exact h
          · have hmem : node ∈ e.tc.targets := by
              unfold Tc.targets
              exact List.mem_append_left _ (tc_node_get_mem hget).1
            exact (queueInv_insert e node _ _ _ _ _ s' hmem h).1
      · exact h
  exact hfold e.nhdp_db _ h3

theorem undone_le_targets (e : Env) (s : RoutingCore) :
    undone e s ≤ e.tc.tc_tree.length + e.tc.endpoint_tree.length := by
  unfold undone
  have h := List.length_filter_le (fun t => !(s._dijkstra t).done) e.tc.targets
  unfold Tc.targets at h ⊢
  rw [List.length_append] at h
  exact h

/-- From a state that satisfies the invariant of the working tree the relax
loop needs at most as many steps as there are targets not yet done. -/
theorem relax_steps_terminate (e : Env) (domain : Nat) (hcl : e.tc.closed) (fuel : Nat)
    (s : RoutingCore) (h : QueueInv e s) (hfuel : undone e s ≤ fuel) :
    ∃ n, n ≤ undone e s
      ∧ (∀ m, m < n →
          PopsOne e (relax_steps e domain m s) (relax_steps e domain (m + 1) s))
      ∧ (relax_steps e domain n s)._dijkstra_working_tree = []
      ∧ dijkstra_loop e domain fuel s = relax_steps e domain n s := by
  induction fuel generalizing s with
  | zero =>
    cases hq : s._dijkstra_working_tree with
    | nil => exact ⟨0, Nat.zero_le _, fun m hm => absurd hm (Nat.not_lt_zero m), hq, rfl⟩
    | cons t rest =>
      exfalso
      obtain ⟨htT, htd⟩ := h.2 t (by rw [hq]; exact List.mem_cons_self _ _)
      have hz : undone e s = 0 := Nat.le_zero.mp hfuel
      unfold undone at hz
      have hnil := List.length_eq_zero.mp hz
      have : t ∈ e.tc.targets.filter (fun t => !(s._dijkstra t).done) := by
        rw [List.mem_filter]; exact ⟨htT, by simp [htd]⟩
      rw [hnil] at this
      exact absurd this (List.not_mem_nil t)
  | succ fuel ih =>
    cases hq : s._dijkstra_working_tree with
    | nil =>
      refine ⟨0, Nat.zero_le _, fun m hm => absurd hm (Nat.not_lt_zero m), hq, ?_⟩
      unfold dijkstra_loop
      rw [if_pos hq]
      rfl
    | cons t rest =>
      obtain ⟨h1, htT, htd, hdone⟩ := handle_working_queue_pops e domain hcl s t rest hq h
      have hlt : undone e (_handle_working_queue e domain s) < undone e s := by
        unfold undone
        apply filter_length_lt _ _ _ _ t htT
        · simp [htd]
        · simp [(hdone t).mpr (Or.inr rfl)]
        · intro x hx
          simp only [Bool.not_eq_true', Bool.not_eq_eq_eq_not, Bool.not_true] at hx ⊢
          cases hxd : (s._dijkstra x).done with
          | false => rfl
          | true => rw [(hdone x).mpr (Or.inl hxd)] at hx; exact absurd hx (by simp)
      obtain ⟨n, hn, hpop, hempty, hloop⟩ := ih (_handle_working_queue e domain s) h1 (by omega)
      refine ⟨n + 1, by omega, ?_, hempty, ?_⟩
      · intro m hm
        cases m with
        | zero =>
          refine ⟨t, rest, hq, htT, htd, ?_⟩
          intro x hx
          have hxd : ((_handle_working_queue e domain s)._dijkstra x).done = true :=
            (hdone x).mpr hx
          refine ⟨hxd, ?_⟩
          intro hmem
          have := (h1.2 x hmem).2
          rw [hxd] at this
          exact absurd this (by simp)
        | succ m => exact hpop m (by omega)
      · unfold dijkstra_loop
        rw [if_neg (by rw [hq]; exact List.cons_ne_nil t rest)]
        exact hloop

/-- C28: on a closed topology (edges and attachments lead to listed
targets, cycles allowed) and for any neighbor database, the relax loop of an
SPF run that starts with an empty working tree ends after `n` steps with an
empty working tree, where `n` is at most the number of targets. Each of the
`n` steps finds the working tree non-empty, takes its first target, which is
not done, off the tree and marks it done; a target that is done is done and
not queued after every later step, so no target is popped twice. The loop of
`olsrv2_routing_force_update` returns the state after these `n` steps. -/
theorem relax_loop_terminates (e : Env) (domain : Nat) (s : RoutingCore)
    (hq : s._dijkstra_working_tree = []) (hcl : e.tc.closed) :
    ∃ n, n ≤ e.tc.tc_tree.length + e.tc.endpoint_tree.length
      ∧ (∀ m, m < n →
          PopsOne e (relax_steps e domain m (_prepare_routes e domain s))
            (relax_steps e domain (m + 1) (_prepare_routes e domain s)))
      ∧ (relax_steps e domain n (_prepare_routes e domain s))._dijkstra_working_tree = []
      ∧ dijkstra_loop e domain (e.tc.tc_tree.length + e.tc.endpoint_tree.length)
          (_prepare_routes e domain s)
        = relax_steps e domain n (_prepare_routes e domain s) := by
  obtain ⟨n, hn, h1, h2, h3⟩ := relax_steps_terminate e domain hcl
    (e.tc.tc_tree.length + e.tc.endpoint_tree.length) (_prepare_routes e domain s)
    (queueInv_prepare_routes e domain s hq) (undone_le_targets e _)
  exact ⟨n, le_trans hn (undone_le_targets e _), h1, h2, h3⟩

theorem relax_loop_terminates_witness :
    (olsrv2_routing_init._dijkstra_working_tree = [] ∧ scenario1_env.tc.closed)
    ∧ ∃ n, n ≤ 3
      ∧ (relax_steps scenario1_env 0 n
          (_prepare_routes scenario1_env 0 olsrv2_routing_init))._dijkstra_working_tree = []
      ∧ dijkstra_loop scenario1_env 0 3 (_prepare_routes scenario1_env 0 olsrv2_routing_init)
        = relax_steps scenario1_env 0 n
            (_prepare_routes scenario1_env 0 olsrv2_routing_init) := by
  obtain ⟨n, hn, _, h2, h3⟩ :=
    relax_loop_terminates scenario1_env 0 olsrv2_routing_init rfl scenario1_closed
  exact ⟨⟨rfl, scenario1_closed⟩, n, hn, h2, h3⟩

end Olsrv2
